import Mathlib

/-!
Verification of the `openai_responses_manifold` pipe (Open WebUI developer toolkit).

This file shallowly embeds the parts of the repository that the frozen claims
talk about:

* `core/utils.py` — `merge_usage_stats` (claims C7, C10);
* `core/capabilities.py` — model normalization, `MODEL_ALIASES`,
  `base_model`, `alias_defaults`, `MODEL_FEATURES`, `supports` (claim C3 and
  the loop's capability gate);
* `core/models.py` — `ResponsesBody._apply_alias_defaults` (claim C3) and
  `ResponsesBody._strictify_schema` (claim C9);
* `core/markers.py` — `create_marker`, `wrap_marker`, `parse_marker`,
  `extract_markers`, `split_text_by_markers` (claim C6);
* `infra/client.py` — the SSE line decoder of
  `OpenAIResponsesClient.stream_events` (claim C4);
* the legacy `adapters.py` — `map_stream_frame` (claim C8);
* the legacy `tools.py` — `run_function_calls` and the current
  `app/pipe.py` — `ResponseRunner._execute_function_calls` (claim C2);
* `app/pipe.py` — `ResponseRunner._run_streaming_loop` (claims C1, C5).

Python `dict`s are embedded as association lists with unique keys (reading and
writing act on the first occurrence of a key, exactly as a Python dict behaves
when keys are unique, which the interpreter guarantees).  Machine reals in
usage maps are embedded as `Int` (the claims only concern numeric totals), and
external collaborators (transport, persistence store, event sink, `json.loads`)
are parameters of the embedded orchestrator.
-/

/-- A JSON value, the universal data shape the Python code manipulates. -/
inductive Json where
  | null : Json
  | bool : Bool → Json
  | num : Int → Json
  | str : String → Json
  | arr : List Json → Json
  | obj : List (String × Json) → Json
deriving Repr, Inhabited

mutual
/-- Structural (= Python `==` up to key order, which the embedded code never
relies on) equality test for JSON values. -/
def jsonBeq : Json → Json → Bool
  | Json.null, Json.null => true
  | Json.bool a, Json.bool b => a == b
  | Json.num a, Json.num b => a == b
  | Json.str a, Json.str b => a == b
  | Json.arr a, Json.arr b => jsonBeqL a b
  | Json.obj a, Json.obj b => jsonBeqKV a b
  | _, _ => false

/-- Element-wise equality of JSON arrays. -/
def jsonBeqL : List Json → List Json → Bool
  | [], [] => true
  | x :: xs, y :: ys => jsonBeq x y && jsonBeqL xs ys
  | _, _ => false

/-- Binding-wise equality of JSON object member lists. -/
def jsonBeqKV : List (String × Json) → List (String × Json) → Bool
  | [], [] => true
  | (k, v) :: xs, (l, w) :: ys => k == l && jsonBeq v w && jsonBeqKV xs ys
  | _, _ => false
end

instance : BEq Json := ⟨jsonBeq⟩

/-- First-occurrence lookup in an association list (`d[k]` / `d.get(k)`). -/
def lookupKey : List (String × Json) → String → Option Json
  | [], _ => none
  | (k, v) :: rest, key => if k = key then some v else lookupKey rest key

/-- Assignment `d[k] = v`: replace the first binding in place, else append —
exactly a Python dict's key-order behaviour. -/
def setKey : List (String × Json) → String → Json → List (String × Json)
  | [], key, val => [(key, val)]
  | (k, v) :: rest, key, val =>
      if k = key then (key, val) :: rest else (k, v) :: setKey rest key val

/-- Python truthiness of a JSON value (`if value:`). -/
def jTruthy : Json → Bool
  | Json.null => false
  | Json.bool b => b
  | Json.num n => n ≠ 0
  | Json.str s => s ≠ ""
  | Json.arr xs => !xs.isEmpty
  | Json.obj kvs => !kvs.isEmpty

/-- `d.get(k)` on a JSON object; `none` on non-objects (where Python would
raise `AttributeError`, outside the verified domain). -/
def jget : Json → String → Option Json
  | Json.obj kvs, key => lookupKey kvs key
  | _, _ => none

/-- `d.get(k, default)`. -/
def jgetD (j : Json) (key : String) (dflt : Json) : Json :=
  (jget j key).getD dflt

/-- The keys of an association list. -/
def keysOf (kvs : List (String × Json)) : List String := kvs.map Prod.fst

/-- Python's `\s` class / the whitespace `str.strip()` removes (ASCII part). -/
def isPyWs (c : Char) : Bool :=
  c == ' ' || c == '\t' || c == '\n' || c == '\r' || c == '\x0b' || c == '\x0c'

/-- `strip()` on a character list (whitespace both ends). -/
def trimWsChars (cs : List Char) : List Char :=
  ((cs.dropWhile isPyWs).reverse.dropWhile isPyWs).reverse

/-- `True`/`False` count as `1`/`0` whenever Python arithmetic meets a bool
(`bool` is a subclass of `int`). -/
def boolInt (b : Bool) : Int := if b then 1 else 0

/-- `total.get(key, {})` of `merge_usage_stats`, as the member list of the
dict.  A non-dict existing value would make the recursive Python call raise;
that case is outside the merge's working domain and returns `[]` here. -/
def getObjOr (total : List (String × Json)) (key : String) : List (String × Json) :=
  match lookupKey total key with
  | some (Json.obj o) => o
  | _ => []

/-- `total.get(key, 0)` of `merge_usage_stats`, as an integer.  A non-numeric
existing value would make the Python addition raise; that case is outside the
merge's working domain and returns `0` here. -/
def getNumOr (total : List (String × Json)) (key : String) : Int :=
  match lookupKey total key with
  | some (Json.num n) => n
  | some (Json.bool b) => boolInt b
  | _ => 0

mutual
/-- The member-list worker of `core/utils.py::merge_usage_stats`:

    for key, value in new.items():
        if isinstance(value, dict):
            total[key] = merge_usage_stats(total.get(key, {}), value)
        elif isinstance(value, (int, float)):
            total[key] = total.get(key, 0) + value
        elif value is not None:
            total[key] = value
    return total

`bool` instances take the numeric branch (they are `int`s in Python). -/
def merge_usage_kv : List (String × Json) → List (String × Json) → List (String × Json)
  | total, [] => total
  | total, (key, v) :: rest => merge_usage_kv (mergeEntry total key v) rest

/-- The body of the `for key, value in new.items()` loop for one entry. -/
def mergeEntry (total : List (String × Json)) (key : String) : Json → List (String × Json)
  | Json.obj nv => setKey total key (Json.obj (merge_usage_kv (getObjOr total key) nv))
  | Json.num n => setKey total key (Json.num (getNumOr total key + n))
  | Json.bool b => setKey total key (Json.num (getNumOr total key + boolInt b))
  | Json.null => total
  | v => setKey total key v
end

/-- `core/utils.py::merge_usage_stats` on JSON values.  Non-dict arguments
make the Python function raise; they are returned unchanged here, outside the
verified domain. -/
def merge_usage_stats (total new : Json) : Json :=
  match total, new with
  | Json.obj t, Json.obj n => Json.obj (merge_usage_kv t n)
  | t, _ => t

/-- No string occurs twice. -/
def nodupStr : List String → Bool
  | [] => true
  | s :: rest => !(rest.contains s) && nodupStr rest

mutual
/-- A usage map: a dict with unique keys whose values are numbers or usage
maps — the shape `merge_usage_stats` is specified on. -/
def isUsageMap : Json → Bool
  | Json.obj kvs => nodupStr (keysOf kvs) && usageEntries kvs
  | _ => false

/-- Entry-wise side of `isUsageMap`. -/
def usageEntries : List (String × Json) → Bool
  | [] => true
  | (_, Json.num _) :: rest => usageEntries rest
  | (_, Json.obj kvs) :: rest =>
      nodupStr (keysOf kvs) && usageEntries kvs && usageEntries rest
  | _ => false
end

/-- Shapes of two member lists match wherever keys coincide: a common key is
numeric on both sides or a (recursively compatible) dict on both sides. -/
def compatKV : List (String × Json) → List (String × Json) → Bool
  | [], _ => true
  | (k, v) :: rest, other =>
      (match lookupKey other k, v with
       | none, _ => true
       | some (Json.num _), Json.num _ => true
       | some (Json.obj o2), Json.obj o1 => compatKV o1 o2
       | _, _ => false)
      && compatKV rest other

mutual
/-- Extensional equality of JSON values: objects are compared as finite maps
(key order ignored), everything else structurally — Python's `==` on the
values `merge_usage_stats` produces. -/
def jsonEqv : Json → Json → Bool
  | Json.obj a, Json.obj b => subsetKV a b && keysIncluded b a
  | x, y => x == y

/-- Every binding of the first list is matched by an equivalent binding of the
second. -/
def subsetKV : List (String × Json) → List (String × Json) → Bool
  | [], _ => true
  | (k, v) :: rest, b =>
      (match lookupKey b k with
       | some w => jsonEqv v w
       | none => false)
      && subsetKV rest b

/-- Every key of the first list occurs in the second. -/
def keysIncluded : List (String × Json) → List (String × Json) → Bool
  | [], _ => true
  | (k, _) :: rest, b => (lookupKey b k).isSome && keysIncluded rest b
end

/-- `core/capabilities.py::MODEL_PREFIX`, the Open WebUI id namespace. -/
def MODEL_ID_NAMESPACE : String := "openai_responses."

/-- `str.removeprefix(MODEL_PREFIX)`. -/
def removeModelNamespace (s : String) : String :=
  if MODEL_ID_NAMESPACE.data.isPrefixOf s.data then
    String.mk (s.data.drop MODEL_ID_NAMESPACE.data.length)
  else s

/-- Does the string have exactly the shape `-YYYY-MM-DD`?  This is the
11-character anchored match of `DATE_SUFFIX_RE = re.compile(r"-\d\x7b4\x7d-\d\x7b2\x7d-\d\x7b2\x7d$")`. -/
def isDateSuffix (t : String) : Bool :=
  match t.data with
  | ['-', a, b, c, d, '-', e, f, '-', g, h] =>
      a.isDigit && b.isDigit && c.isDigit && d.isDigit
        && e.isDigit && f.isDigit && g.isDigit && h.isDigit
  | _ => false

/-- `DATE_SUFFIX_RE.sub("", s)`: the pattern is anchored at the end and has
fixed width 11, so it removes the final 11 characters exactly when they match. -/
def stripDateSuffix (s : String) : String :=
  if s.data.length ≥ 11 && isDateSuffix (String.mk (s.data.drop (s.data.length - 11))) then
    String.mk (s.data.take (s.data.length - 11))
  else s

/-- `core/capabilities.py::_normalize_model_id`:
`strip()`, `removeprefix(MODEL_PREFIX)`, `lower()`, drop a date suffix. -/
def normalize_model_id (model_id : String) : String :=
  stripDateSuffix
    (String.mk ((removeModelNamespace (String.mk (trimWsChars model_id.data))).data.map
      Char.toLower))

/-- `core/capabilities.py::MODEL_ALIASES` — pseudo-model name, base model and
default params for each alias preset. -/
def MODEL_ALIASES : List (String × String × List (String × Json)) :=
  [ ("gpt-5-thinking", ("gpt-5", [])),
    ("gpt-5-thinking-minimal",
      ("gpt-5", [("reasoning", Json.obj [("effort", Json.str "minimal")])])),
    ("gpt-5-thinking-high",
      ("gpt-5", [("reasoning", Json.obj [("effort", Json.str "high")])])),
    ("gpt-5-thinking-mini", ("gpt-5-mini", [])),
    ("gpt-5-thinking-mini-minimal",
      ("gpt-5-mini", [("reasoning", Json.obj [("effort", Json.str "minimal")])])),
    ("gpt-5-thinking-mini-high",
      ("gpt-5-mini", [("reasoning", Json.obj [("effort", Json.str "high")])])),
    ("gpt-5-thinking-nano", ("gpt-5-nano", [])),
    ("gpt-5-thinking-nano-minimal",
      ("gpt-5-nano", [("reasoning", Json.obj [("effort", Json.str "minimal")])])),
    ("gpt-5-thinking-nano-high",
      ("gpt-5-nano", [("reasoning", Json.obj [("effort", Json.str "high")])])),
    ("o3-mini-high",
      ("o3-mini", [("reasoning", Json.obj [("effort", Json.str "high")])])),
    ("o4-mini-high",
      ("o4-mini", [("reasoning", Json.obj [("effort", Json.str "high")])])) ]

/-- `MODEL_ALIASES.get(key)`. -/
def aliasLookup (key : String) : Option (String × List (String × Json)) :=
  (MODEL_ALIASES.find? (fun e => e.1 == key)).map Prod.snd

/-- `core/capabilities.py::base_model`. -/
def base_model (model_id : String) : String :=
  let key := normalize_model_id model_id
  match aliasLookup key with
  | some e => normalize_model_id e.1
  | none => key

/-- `core/capabilities.py::alias_defaults` (the `deepcopy` is the identity in
a pure embedding; `params if params else \x7b\x7d` is the `[]` default). -/
def alias_defaults (model_id : String) : List (String × Json) :=
  match aliasLookup (normalize_model_id model_id) with
  | some e => e.2
  | none => []

/-- `core/capabilities.py::MODEL_FEATURES`, the capability registry. -/
def MODEL_FEATURES : List (String × List String) :=
  [ ("gpt-5-auto", ["function_calling", "reasoning", "reasoning_summary",
      "web_search_tool", "image_gen_tool", "verbosity"]),
    ("gpt-5", ["function_calling", "reasoning", "reasoning_summary",
      "web_search_tool", "image_gen_tool", "verbosity"]),
    ("gpt-5-mini", ["function_calling", "reasoning", "reasoning_summary",
      "web_search_tool", "image_gen_tool", "verbosity"]),
    ("gpt-5-nano", ["function_calling", "reasoning", "reasoning_summary",
      "web_search_tool", "image_gen_tool", "verbosity"]),
    ("gpt-4.1", ["function_calling", "web_search_tool", "image_gen_tool"]),
    ("gpt-4.1-mini", ["function_calling", "web_search_tool", "image_gen_tool"]),
    ("gpt-4.1-nano", ["function_calling", "image_gen_tool"]),
    ("gpt-4o", ["function_calling", "web_search_tool", "image_gen_tool"]),
    ("gpt-4o-mini", ["function_calling", "web_search_tool", "image_gen_tool"]),
    ("o3", ["function_calling", "reasoning", "reasoning_summary"]),
    ("o3-mini", ["function_calling", "reasoning", "reasoning_summary"]),
    ("o3-pro", ["function_calling", "reasoning"]),
    ("o4-mini", ["function_calling", "reasoning", "reasoning_summary", "web_search_tool"]),
    ("o3-deep-research", ["function_calling", "reasoning", "reasoning_summary",
      "deep_research"]),
    ("o4-mini-deep-research", ["function_calling", "reasoning", "reasoning_summary",
      "deep_research"]),
    ("gpt-5-chat-latest", ["function_calling", "web_search_tool"]),
    ("chatgpt-4o-latest", []) ]

/-- `core/capabilities.py::features`. -/
def modelFeatures (model_id : String) : List String :=
  ((MODEL_FEATURES.find? (fun e => e.1 == base_model model_id)).map Prod.snd).getD []

/-- `core/capabilities.py::supports`. -/
def supports (feature : String) (model_id : String) : Bool :=
  (modelFeatures model_id).contains feature

mutual
/-- Key-sorted canonical form of a JSON value: the dedup key
`json.dumps(item, sort_keys=True)` of `_apply_alias_defaults` identifies two
values exactly when their canonical forms are equal. -/
def canonJson : Json → Json
  | Json.arr xs => Json.arr (canonL xs)
  | Json.obj kvs => Json.obj ((canonKV kvs).mergeSort (fun a b => a.1 ≤ b.1))
  | j => j

/-- Canonical forms of array elements. -/
def canonL : List Json → List Json
  | [] => []
  | x :: xs => canonJson x :: canonL xs

/-- Canonical forms of object member values. -/
def canonKV : List (String × Json) → List (String × Json)
  | [] => []
  | (k, v) :: rest => (k, canonJson v) :: canonKV rest
end

/-- The list-merge loop of `_apply_alias_defaults._deep_overlay`: keep the
first occurrence of each structurally-equal item of `existing + value`. -/
def dedupeConcat (items : List Json) : List Json :=
  go [] items
where
  go (seen : List Json) : List Json → List Json
    | [] => []
    | x :: rest =>
        let key := canonJson x
        if seen.contains key then go seen rest
        else x :: go (key :: seen) rest

mutual
/-- `core/models.py::ResponsesBody._apply_alias_defaults._deep_overlay`:
merge `src` (the alias defaults) into `dst` (the dumped request).  Dict values
merge recursively, list values merge with structural dedup keeping `dst`
first, every other value — scalars included — overwrites `dst[key]`. -/
def deep_overlay : List (String × Json) → List (String × Json) → List (String × Json)
  | dst, [] => dst
  | dst, (key, v) :: rest => deep_overlay (overlayEntry dst key v) rest

/-- The body of the `for key, value in src.items()` loop for one entry. -/
def overlayEntry (dst : List (String × Json)) (key : String) : Json → List (String × Json)
  | Json.obj srcObj =>
      (match lookupKey dst key with
       | some (Json.obj node) => setKey dst key (Json.obj (deep_overlay node srcObj))
       | _ => setKey dst key (Json.obj srcObj))
  | Json.arr srcList =>
      (match lookupKey dst key with
       | some (Json.arr existing) =>
           setKey dst key (Json.arr (dedupeConcat (existing ++ srcList)))
       | _ => setKey dst key (Json.arr srcList))
  | v => setKey dst key v
end

/-- `core/models.py::ResponsesBody._apply_alias_defaults` on the dumped
request dict: resolve the canonical model and overlay the alias defaults. -/
def apply_alias_defaults (data : List (String × Json)) : List (String × Json) :=
  let origModel := match lookupKey data "model" with
    | some (Json.str s) => s
    | _ => ""
  let canonicalModel := base_model origModel
  let defaults := alias_defaults origModel
  if canonicalModel = origModel && defaults.isEmpty then data
  else
    let data1 := setKey data "model" (Json.str canonicalModel)
    if defaults.isEmpty then data1 else deep_overlay data1 defaults

/-- Case-insensitive character comparison, the effect of `re.I` on literals
and classes of `core/markers.py::_MARKER_RE`. -/
def charCI (a b : Char) : Bool := a.toLower == b.toLower

/-- Match a literal pattern case-insensitively at the head of the input,
returning the remainder. -/
def stripCILit : List Char → List Char → Option (List Char)
  | [], cs => some cs
  | _ :: _, [] => none
  | p :: ps, c :: cs => if charCI p c then stripCILit ps cs else none

/-- The regex class `[a-z0-9_]` under `re.I` (ASCII semantics): letters of
either case, digits, underscore. -/
def isKindChar (c : Char) : Bool :=
  ('a' ≤ c && c ≤ 'z') || ('A' ≤ c && c ≤ 'Z') || c.isDigit || c == '_'

/-- The regex class `[A-Z0-9]` under `re.I` (ASCII semantics). -/
def isUlidChar (c : Char) : Bool :=
  ('A' ≤ c && c ≤ 'Z') || ('a' ≤ c && c ≤ 'z') || c.isDigit

/-- Greedy bounded repetition `p\x7bm,n\x7d` (here used for `\x7b2,30\x7d`): take at most
`n` leading characters satisfying `p`.  The character after a kind run is `:`,
which is outside the class, so the greedy take is exactly what the regex
engine commits to. -/
def takeUpTo (n : Nat) (p : Char → Bool) : List Char → List Char × List Char
  | [] => ([], [])
  | c :: cs =>
      match n with
      | 0 => ([], c :: cs)
      | m + 1 =>
          if p c then
            let (tk, rest) := takeUpTo m p cs
            (c :: tk, rest)
          else ([], c :: cs)

/-- Fixed repetition `p\x7bn\x7d`: take exactly `n` characters satisfying `p`. -/
def takeExact (n : Nat) (p : Char → Bool) : List Char → Option (List Char × List Char)
  | cs =>
      match n with
      | 0 => some ([], cs)
      | m + 1 =>
          match cs with
          | [] => none
          | c :: rest =>
              if p c then
                match takeExact m p rest with
                | some (tk, r) => some (c :: tk, r)
                | none => none
              else none

/-- The literal head `\[openai_responses:v2:` of `_MARKER_RE`. -/
def sentinelChars : List Char := "[openai_responses:v2:".data

/-- Match `core/markers.py::_MARKER_RE` at the start of `cs`.  Returns the
`kind`, `ulid` and optional `query` groups plus the input after the match.
Every quantifier in the pattern is committed greedily because the following
literal is outside the repeated class, so this function is the leftmost match
semantics of `re` specialised to this pattern. -/
def matchMarkerAt (cs : List Char) : Option (String × String × Option String × List Char) :=
  match stripCILit sentinelChars cs with
  | none => none
  | some cs1 =>
      let (kindCs, cs2) := takeUpTo 30 isKindChar cs1
      if kindCs.length < 2 then none
      else
        match cs2 with
        | ':' :: cs3 =>
            match takeExact 16 isUlidChar cs3 with
            | none => none
            | some (ulidCs, cs4) =>
                match cs4 with
                | '?' :: cs5 =>
                    let qCs := cs5.takeWhile (fun c => c ≠ ']')
                    let cs6 := cs5.dropWhile (fun c => c ≠ ']')
                    if qCs.isEmpty then none
                    else
                      match cs6 with
                      | ']' :: ':' :: cs7 =>
                          match cs7.dropWhile isPyWs with
                          | '#' :: rest =>
                              some (String.mk kindCs, String.mk ulidCs,
                                some (String.mk qCs), rest)
                          | _ => none
                      | _ => none
                | ']' :: ':' :: cs7 =>
                    match cs7.dropWhile isPyWs with
                    | '#' :: rest =>
                        some (String.mk kindCs, String.mk ulidCs, none, rest)
                    | _ => none
                | _ => none
        | _ => none

/-- Rebuild the raw marker string from the matched groups, as both
`extract_markers` and `split_text_by_markers` do. -/
def rebuildRaw (kind ulid : String) (query : Option String) : String :=
  "openai_responses:v2:" ++ kind ++ ":" ++ ulid ++
    (match query with
     | some q => "?" ++ q
     | none => "")

/-- One segment produced by `core/markers.py::split_text_by_markers`
(`\x7b"type": "text", ...\x7d` or `\x7b"type": "marker", ...\x7d`). -/
inductive Seg where
  | text (s : String)
  | marker (raw : String)
deriving Repr, DecidableEq

/-- Emit the pending literal characters (held reversed) as a text segment,
exactly when the run is non-empty. -/
def textIf (acc : List Char) : List Seg :=
  if acc.isEmpty then [] else [Seg.text (String.mk acc.reverse)]

/-- The `finditer` loop of `split_text_by_markers`: walk the text, emit a
text segment before each match and a marker segment for the match, and a
trailing text segment for the leftovers.  `fuel` only grounds the recursion:
every step consumes at least one character, so any `fuel > length` is exact. -/
def scanSegs : Nat → List Char → List Char → List Seg
  | 0, acc, cs => textIf (cs.reverse ++ acc)
  | fuel + 1, acc, cs =>
      match matchMarkerAt cs with
      | some (k, u, q, rest) =>
          textIf acc ++ (Seg.marker (rebuildRaw k u q) :: scanSegs fuel [] rest)
      | none =>
          match cs with
          | [] => textIf acc
          | c :: cs' => scanSegs fuel (c :: acc) cs'

/-- `core/markers.py::split_text_by_markers`. -/
def split_text_by_markers (text : String) : List Seg :=
  scanSegs (text.length + 1) [] text.data

/-- The `finditer` loop of `extract_markers`: the raw marker strings of all
matches, in order. -/
def findRawMarkers : Nat → List Char → List String
  | 0, _ => []
  | fuel + 1, cs =>
      match matchMarkerAt cs with
      | some (k, u, q, rest) => rebuildRaw k u q :: findRawMarkers fuel rest
      | none =>
          match cs with
          | [] => []
          | _ :: cs' => findRawMarkers fuel cs'

/-- `core/markers.py::extract_markers` (raw, `parsed=False`). -/
def extract_markers (text : String) : List String :=
  findRawMarkers (text.length + 1) text.data

/-- Case-sensitive occurrence test for the literal sentinel,
`core/markers.py::contains_marker` (`_SENTINEL in text`). -/
def containsSentinelAt : List Char → Bool
  | [] => false
  | c :: cs => sentinelChars.isPrefixOf (c :: cs) || containsSentinelAt cs

/-- `core/markers.py::contains_marker`. -/
def contains_marker (text : String) : Bool :=
  containsSentinelAt text.data

/-- Case-insensitive occurrence test for the sentinel — the marker regex is
compiled with `re.I`, so this is the condition under which a text can take
part in a match at all. -/
def containsSentinelCI : List Char → Bool
  | [] => false
  | c :: cs => (stripCILit sentinelChars (c :: cs)).isSome || containsSentinelCI cs

/-- The item-type validation of `create_marker`:
`re.fullmatch(r"[a-z0-9_]\x7b2,30\x7d", item_type)` (case-sensitive). -/
def isValidItemType (s : String) : Bool :=
  2 ≤ s.length && s.length ≤ 30
    && s.data.all (fun c => ('a' ≤ c && c ≤ 'z') || c.isDigit || c == '_')

/-- `core/markers.py::_qs`. -/
def markerQs (metadata : List (String × String)) : String :=
  String.intercalate "&" (metadata.map (fun kv => kv.1 ++ "=" ++ kv.2))

/-- `core/markers.py::create_marker`, with the `ulid` argument supplied
explicitly (the `generate_item_id()` fallback draws external randomness and
is outside the pure embedding).  Returns `none` where Python raises
`ValueError`. -/
def create_marker (item_type : String) (ulid : String)
    (model_id : Option String := none)
    (metadata : List (String × String) := []) : Option String :=
  if !isValidItemType item_type then none
  else
    let meta := match model_id with
      | some m => setStrKey metadata "model" m
      | none => metadata
    let base := "openai_responses:v2:" ++ item_type ++ ":" ++ ulid
    if meta.isEmpty then some base else some (base ++ "?" ++ markerQs meta)
where
  setStrKey (kvs : List (String × String)) (k v : String) : List (String × String) :=
    if kvs.any (fun kv => kv.1 == k) then
      kvs.map (fun kv => if kv.1 == k then (k, v) else kv)
    else kvs ++ [(k, v)]

/-- `core/markers.py::wrap_marker`. -/
def wrap_marker (marker : String) : String :=
  "\n[" ++ marker ++ "]: #\n"

/-- The parsed form a `parse_marker` call returns. -/
structure ParsedMarker where
  version : String
  item_type : String
  ulid : String
  metadata : List (String × String)
deriving Repr, DecidableEq

/-- `core/markers.py::_parse_qs`; `none` where the Python dict-comprehension
would raise on a part without `=`. -/
def parse_qs (query : String) : Option (List (String × String)) :=
  if query = "" then some []
  else
    go ((query.splitOn "&").map (fun part => part.splitOn "="))
where
  go : List (List String) → Option (List (String × String))
    | [] => some []
    | [_] :: _ => none
    | (k :: v :: vs) :: rest =>
        match go rest with
        | some out => some ((k, String.intercalate "=" (v :: vs)) :: out)
        | none => none
    | [] :: _ => none

/-- `core/markers.py::parse_marker`: check the `v2` head, split the kind at
the third colon, split the id from the query at `?`.  Returns `none` where
Python raises. -/
def parse_marker (marker : String) : Option ParsedMarker :=
  if !("openai_responses:v2:".data.isPrefixOf marker.data) then none
  else
    let rest0 := marker.data.drop 20
    let kind := rest0.takeWhile (fun c => c ≠ ':')
    match rest0.dropWhile (fun c => c ≠ ':') with
    | ':' :: rest1 =>
        let uid := rest1.takeWhile (fun c => c ≠ '?')
        let query := match rest1.dropWhile (fun c => c ≠ '?') with
          | '?' :: q => String.mk q
          | _ => ""
        match parse_qs query with
        | some md =>
            some { version := "v2", item_type := String.mk kind,
                   ulid := String.mk uid, metadata := md }
        | none => none
    | _ => none

/-- `core/markers.py::_CROCKFORD_ALPHABET`, the id alphabet. -/
def CROCKFORD_ALPHABET : List Char := "0123456789ABCDEFGHJKMNPQRSTVWXYZ".data

/-- What the loop body of `OpenAIResponsesClient.stream_events` does with one
complete line. -/
inductive LineStep where
  | skip
  | emit (payload : String)
  | done
deriving Repr, DecidableEq

/-- One iteration of the line loop in `infra/client.py::stream_events`:

    line = buf[start_idx:newline_idx].strip()
    if not line or line.startswith(b":") or not line.startswith(b"data:"):
        continue
    payload = line[5:].strip()
    if payload == b"[DONE]":
        return
    yield json.loads(payload.decode("utf-8"))

The payload string is what would be handed to `json.loads`; the decoder's
claims are about which payloads ever reach that point. -/
def classifyLine (raw : List Char) : LineStep :=
  let line := trimWsChars raw
  if line.isEmpty then LineStep.skip
  else if line.headD ' ' == ':' then LineStep.skip
  else if !("data:".data.isPrefixOf line) then LineStep.skip
  else
    let payload := trimWsChars (line.drop 5)
    if payload = "[DONE]".data then LineStep.done
    else LineStep.emit (String.mk payload)

/-- Split a buffer into its complete (newline-terminated) lines and the
trailing incomplete remainder — the `while True: buf.find(b"\n") ...` scan. -/
def splitLines : List Char → List (List Char) × List Char
  | [] => ([], [])
  | c :: cs =>
      if c = '\n' then
        let (ls, rem) := splitLines cs
        ([] :: ls, rem)
      else
        match splitLines cs with
        | (l :: ls, rem) => ((c :: l) :: ls, rem)
        | ([], rem) => ([], c :: rem)

/-- Feed the complete lines of one buffer through `classifyLine`, stopping at
the `[DONE]` sentinel: the emitted payloads and whether the generator
returned. -/
def runLines : List (List Char) → List String × Bool
  | [] => ([], false)
  | l :: ls =>
      match classifyLine l with
      | LineStep.skip => runLines ls
      | LineStep.done => ([], true)
      | LineStep.emit p =>
          let (es, d) := runLines ls
          (p :: es, d)

/-- The chunk loop of `infra/client.py::OpenAIResponsesClient.stream_events`:
append the chunk to the buffer, process every complete line, keep the
remainder (`del buf[:start_idx]`), and — once `[DONE]` was seen — return
without ever touching the remaining chunks. -/
def stream_events_go : List Char → List (List Char) → List String × Bool
  | _, [] => ([], false)
  | buf, chunk :: rest =>
      let split := splitLines (buf ++ chunk)
      let step := runLines split.1
      if step.2 then (step.1, true)
      else
        let cont := stream_events_go split.2 rest
        (step.1 ++ cont.1, cont.2)

/-- `infra/client.py::stream_events` as a pure function of the byte chunks:
the sequence of payloads handed to `json.loads`/yielded, plus the flag that
the `[DONE]` sentinel was reached. -/
def stream_events (chunks : List (List Char)) : List String × Bool :=
  stream_events_go [] chunks

mutual
/-- Python `repr` of a decoded JSON value (the shape taken by `str` on
non-strings); only its existence matters to the claims. -/
def pyRepr : Json → String
  | Json.null => "None"
  | Json.bool b => if b then "True" else "False"
  | Json.num n => toString n
  | Json.str s => "'" ++ s ++ "'"
  | Json.arr xs => "[" ++ pyReprL xs ++ "]"
  | Json.obj kvs => "\x7b" ++ pyReprKV kvs ++ "\x7d"

/-- Comma-joined `repr`s of array elements. -/
def pyReprL : List Json → String
  | [] => ""
  | [x] => pyRepr x
  | x :: xs => pyRepr x ++ ", " ++ pyReprL xs

/-- Comma-joined `repr`s of dict items. -/
def pyReprKV : List (String × Json) → String
  | [] => ""
  | [(k, v)] => "'" ++ k ++ "': " ++ pyRepr v
  | (k, v) :: rest => "'" ++ k ++ "': " ++ pyRepr v ++ ", " ++ pyReprKV rest
end

/-- Python `str` of a decoded JSON value (`str(result)` in the tool runners). -/
def pyStr : Json → String
  | Json.str s => s
  | j => pyRepr j

mutual
/-- `json.dumps` of a JSON value (used only to build display strings). -/
def dumpJson : Json → String
  | Json.null => "null"
  | Json.bool b => if b then "true" else "false"
  | Json.num n => toString n
  | Json.str s => "\"" ++ s ++ "\""
  | Json.arr xs => "[" ++ dumpJsonL xs ++ "]"
  | Json.obj kvs => "\x7b" ++ dumpJsonKV kvs ++ "\x7d"

/-- Comma-joined dumps of array elements. -/
def dumpJsonL : List Json → String
  | [] => ""
  | [x] => dumpJson x
  | x :: xs => dumpJson x ++ ", " ++ dumpJsonL xs

/-- Comma-joined dumps of dict items. -/
def dumpJsonKV : List (String × Json) → String
  | [] => ""
  | [(k, v)] => "\"" ++ k ++ "\": " ++ dumpJson v
  | (k, v) :: rest => "\"" ++ k ++ "\": " ++ dumpJson v ++ ", " ++ dumpJsonKV rest
end

/-- `str.strip()` (ASCII whitespace). -/
def pyStrip (s : String) : String := String.mk (trimWsChars s.data)

/-- The normalized run events of the legacy `models.py` (the closed tagged
union the decoder produces). -/
inductive RunEvent where
  | textDelta (text : Json)
  | reasoningSummary (text : String)
  | outputItem (item : Json) (event_type : String)
  | completed (output : Json) (usage : Option Json)
  | errorEvent (message : Json)
  | usageEvent (stats : Json)
deriving Repr

/-- The `type` discriminator of a frame: `frame.get("type")`, compared against
string constants (a missing or non-string discriminator matches none of the
branches, collapsed here to `""`, which is also outside every branch). -/
def frameType (frame : Json) : String :=
  match jget frame "type" with
  | some (Json.str s) => s
  | _ => ""

/-- `(frame.get("text") or "").strip()` of the reasoning-summary branch (a
truthy non-string raises in Python, outside the embedded domain). -/
def reasoningTextOf (frame : Json) : String :=
  match jget frame "text" with
  | some (Json.str s) => pyStrip s
  | _ => ""

/-- Fold the entries of `b` over `a` with dict-update semantics: the Python
`\x7b"type": "annotation", **annotation\x7d` merge. -/
def dictUnion (a b : List (String × Json)) : List (String × Json) :=
  b.foldl (fun acc kv => setKey acc kv.1 kv.2) a

/-- Legacy `adapters.py::map_stream_frame`: map one decoded frame to zero or
one run events.  (A truthy non-string `text` on the reasoning branch and a
truthy non-dict `annotation` raise in Python and are outside the embedded
domain; both collapse to the unexceptional value here.) -/
def map_stream_frame (frame : Json) : List RunEvent :=
  let etype := frameType frame
  if etype = "response.output_text.delta" then
    let delta := jgetD frame "delta" (Json.str "")
    if jTruthy delta then [RunEvent.textDelta delta] else []
  else if etype = "response.reasoning_summary_text.done" then
    let text := reasoningTextOf frame
    if text ≠ "" then [RunEvent.reasoningSummary text] else []
  else if etype = "response.output_item.added" || etype = "response.output_item.done" then
    [RunEvent.outputItem (jgetD frame "item" (Json.obj [])) etype]
  else if etype = "response.completed" then
    let payload := jgetD frame "response" (Json.obj [])
    [RunEvent.completed (jgetD payload "output" (Json.arr [])) (jget payload "usage")]
  else if etype = "response.error" then
    [RunEvent.errorEvent (jgetD (jgetD frame "error" (Json.obj [])) "message"
      (Json.str "Unknown error"))]
  else if etype = "response.output_text.annotation.added" then
    let ann := match jget frame "annotation" with
      | some (Json.obj kvs) => kvs
      | _ => []
    [RunEvent.outputItem (Json.obj (dictUnion [("type", Json.str "annotation")] ann)) etype]
  else []

/-- What a registry entry's `"callable"` member can be.  A callable is a pure
function from its JSON-decoded kwargs dict to a result, or to the message of
the exception it raises; `notCallable` covers a missing or non-callable
member. -/
inductive PyCallable where
  | notCallable
  | fn (f : Json → Except String Json)

/-- The tool registry: name to entry (`registry.get(name)`). -/
def ToolRegistry : Type := String → Option PyCallable

/-- The `{"type": "function_call_output", ...}` record both runners build. -/
def callOutputRecord (call_id : Json) (output : String) : Json :=
  Json.obj [("type", Json.str "function_call_output"), ("call_id", call_id),
    ("output", Json.str output)]

/-- Legacy `tools.py::_parse_call_arguments`: a falsy `arguments` value or
malformed JSON yields `\x7b\x7d`, a decoded non-dict yields `\x7b\x7d`; a truthy
non-string raises `TypeError` in `json.loads` (and that error is NOT caught
there). -/
def parse_call_arguments (jsonLoads : String → Except String Json) (call : Json) :
    Except String (List (String × Json)) :=
  match jget call "arguments" with
  | none => Except.ok []
  | some p =>
      if !jTruthy p then Except.ok []
      else
        match p with
        | Json.str s =>
            match jsonLoads s with
            | Except.error _ => Except.ok []
            | Except.ok (Json.obj kvs) => Except.ok kvs
            | Except.ok _ => Except.ok []
        | _ => Except.error "TypeError: the JSON object must be str, bytes or bytearray"

/-- The tool name used for the registry lookup: `call.get("name") or
"<unknown>"`.  (Only string names can index the string-keyed registry; a
truthy non-string name can never be found, which the `"<unknown>"` collapse
preserves for registries without that key.) -/
def callName (call : Json) : String :=
  match jget call "name" with
  | some (Json.str s) => if s = "" then "<unknown>" else s
  | _ => "<unknown>"

/-- `call.get("call_id") or "<none>"`. -/
def callIdOf (call : Json) : Json :=
  match jget call "call_id" with
  | some v => if jTruthy v then v else Json.str "<none>"
  | none => Json.str "<none>"

/-- Legacy `tools.py::_execute_tool_call`: resolve the callable, decode the
arguments, run it, and catch ITS exception individually, degrading to an
output record carrying `Tool execution failed: <message>`. -/
def execute_tool_call (jsonLoads : String → Except String Json)
    (registry : ToolRegistry) (call : Json) : Except String Json :=
  let cid := callIdOf call
  match registry (callName call) with
  | none => Except.ok (callOutputRecord cid "Tool not found")
  | some PyCallable.notCallable => Except.ok (callOutputRecord cid "Tool not callable")
  | some (PyCallable.fn f) =>
      match parse_call_arguments jsonLoads call with
      | Except.error e => Except.error e
      | Except.ok args =>
          match f (Json.obj args) with
          | Except.error msg =>
              Except.ok (callOutputRecord cid ("Tool execution failed: " ++ msg))
          | Except.ok result => Except.ok (callOutputRecord cid (pyStr result))

/-- Legacy `tools.py::run_function_calls`: `asyncio.gather` over
`_execute_tool_call`, one task per call, results in input order.  In the pure
embedding the fan-out/fan-in is the in-order sequence of the per-call
results; an uncaught per-task exception (only the argument `TypeError`)
aborts the gather. -/
def run_function_calls (jsonLoads : String → Except String Json)
    (calls : List Json) (registry : ToolRegistry) : Except String (List Json) :=
  match calls with
  | [] => Except.ok []
  | call :: rest =>
      match execute_tool_call jsonLoads registry call with
      | Except.error e => Except.error e
      | Except.ok r =>
          match run_function_calls jsonLoads rest registry with
          | Except.error e => Except.error e
          | Except.ok rs => Except.ok (r :: rs)

/-- The registry of the current `app/pipe.py` (`tools[name]["callable"]`,
assumed present and callable by that code). -/
def PipeTools : Type := String → Option (Json → Except String Json)

/-- `_execute_function_calls._make_task` of the current `app/pipe.py`:

    tool_cfg = tools.get(call["name"])
    if not tool_cfg:
        return asyncio.sleep(0, result="Tool not found")
    fn = tool_cfg["callable"]
    args = json.loads(call["arguments"])
    ...

A missing `name`/`arguments` key, malformed argument JSON, or a decoded
non-dict raises here and nothing catches it. -/
def make_task (jsonLoads : String → Except String Json) (tools : PipeTools)
    (call : Json) : Except String Json :=
  match jget call "name" with
  | none => Except.error "KeyError: name"
  | some nameV =>
      let found := match nameV with
        | Json.str s => tools s
        | _ => none
      match found with
      | none => Except.ok (Json.str "Tool not found")
      | some f =>
          match jget call "arguments" with
          | none => Except.error "KeyError: arguments"
          | some (Json.str s) =>
              match jsonLoads s with
              | Except.error e => Except.error e
              | Except.ok (Json.obj kvs) => f (Json.obj kvs)
              | Except.ok _ => Except.error "TypeError: arguments must decode to a mapping"
          | some _ => Except.error "TypeError: the JSON object must be str, bytes or bytearray"

/-- The bare `asyncio.gather(*tasks)` of `_execute_function_calls`: no
`return_exceptions`, so the first failing task's exception propagates and no
result list is produced. -/
def gatherAll : List (Except String Json) → Except String (List Json)
  | [] => Except.ok []
  | Except.error e :: _ => Except.error e
  | Except.ok r :: rest =>
      match gatherAll rest with
      | Except.error e => Except.error e
      | Except.ok rs => Except.ok (r :: rs)

/-- Build one output record of the trailing comprehension
(`call["call_id"]` raises on a missing key). -/
def zipRecord (call : Json) (result : Json) : Except String Json :=
  match jget call "call_id" with
  | none => Except.error "KeyError: call_id"
  | some cid => Except.ok (callOutputRecord cid (pyStr result))

/-- The record-building zip of `_execute_function_calls`
(`zip(calls, results, strict=True)`; the lists always have equal length). -/
def zipRecords : List Json → List Json → Except String (List Json)
  | [], [] => Except.ok []
  | call :: cs, r :: rs =>
      match zipRecord call r with
      | Except.error e => Except.error e
      | Except.ok rec =>
          match zipRecords cs rs with
          | Except.error e => Except.error e
          | Except.ok out => Except.ok (rec :: out)
  | _, _ => Except.error "ValueError: zip strict length mismatch"

/-- Current `app/pipe.py::ResponseRunner._execute_function_calls`: build the
tasks, gather them, and zip the results into output records.  Any raising
callable (or argument decoding failure) aborts the whole batch. -/
def execute_function_calls (jsonLoads : String → Except String Json)
    (tools : PipeTools) (calls : List Json) : Except String (List Json) :=
  match gatherAll (calls.map (make_task jsonLoads tools)) with
  | Except.error e => Except.error e
  | Except.ok results => zipRecords calls results

mutual
/-- Nesting depth of a JSON value (scalars 0, containers one more than their
deepest child): used only to hand `enforceNode` enough fuel. -/
def jdepth : Json → Nat
  | Json.arr xs => 1 + jdepthL xs
  | Json.obj kvs => 1 + jdepthKV kvs
  | _ => 0

/-- Depth of the deepest array element. -/
def jdepthL : List Json → Nat
  | [] => 0
  | x :: xs => max (jdepth x) (jdepthL xs)

/-- Depth of the deepest member value. -/
def jdepthKV : List (String × Json) → Nat
  | [] => 0
  | kv :: rest => max (jdepth kv.2) (jdepthKV rest)
end

/-- The `is_object` test of `_strictify_schema._enforce`:

    node_type == "object"
    or (isinstance(node_type, list) and "object" in node_type)
    or "properties" in node
-/
def isObjectSchemaKvs (kvs : List (String × Json)) : Bool :=
  (lookupKey kvs "type" == some (Json.str "object"))
    || (match lookupKey kvs "type" with
        | some (Json.arr xs) => xs.contains (Json.str "object")
        | _ => false)
    || (lookupKey kvs "properties").isSome

/-- The per-property type adjustment of `_enforce`: a property not in the
node's original `required` gets `"null"` added to its `type` — only when that
type is a non-`"null"` string or a list without `"null"`. -/
def nullifyType (origRequired : List Json) (name : String)
    (kvs : List (String × Json)) : List (String × Json) :=
  if origRequired.contains (Json.str name) then kvs
  else
    match lookupKey kvs "type" with
    | some (Json.str t) =>
        if t ≠ "null" then setKey kvs "type" (Json.arr [Json.str t, Json.str "null"])
        else kvs
    | some (Json.arr ts) =>
        if ts.contains (Json.str "null") then kvs
        else setKey kvs "type" (Json.arr (ts ++ [Json.str "null"]))
    | _ => kvs

/-- Apply `f` to the value stored under `key`, if any (`node.get(key)`
followed by an in-place transformation). -/
def updateAt (kvs : List (String × Json)) (key : String) (f : Json → Json) :
    List (String × Json) :=
  match lookupKey kvs key with
  | some v => setKey kvs key (f v)
  | none => kvs

/-- The object part of `_enforce`: default `properties` in, freeze
`additionalProperties`/`required`, nullify optional property types, recurse
into the property schemas through `enf`, the enforcement of one level less
fuel. -/
def objectPart (enf : Json → Json) (kvs : List (String × Json)) :
    List (String × Json) :=
  let kvsP := match lookupKey kvs "properties" with
    | some (Json.obj _) => kvs
    | some _ => setKey kvs "properties" (Json.obj [])
    | none => kvs ++ [("properties", Json.obj [])]
  let props := match lookupKey kvsP "properties" with
    | some (Json.obj p) => p
    | _ => []
  let origRequired := match lookupKey kvsP "required" with
    | some (Json.arr xs) => xs
    | _ => []
  let kvsA := setKey kvsP "additionalProperties" (Json.bool false)
  let kvsR := setKey kvsA "required" (Json.arr ((keysOf props).map Json.str))
  let newProps := props.map (fun nv =>
    match nv.2 with
    | Json.obj pk => (nv.1, enf (Json.obj (nullifyType origRequired nv.1 pk)))
    | _ => nv)
  setKey kvsR "properties" (Json.obj newProps)

/-- The `items` part of `_enforce`: recurse into a dict, or into the dict
entries of a list. -/
def enforceItems (enf : Json → Json) : Json → Json
  | Json.obj kvs => enf (Json.obj kvs)
  | Json.arr xs =>
      Json.arr (xs.map (fun e =>
        match e with
        | Json.obj _ => enf e
        | _ => e))
  | j => j

/-- The `anyOf`/`oneOf` part of `_enforce`: recurse into the dict entries of
a list. -/
def enforceBranches (enf : Json → Json) : Json → Json
  | Json.arr xs =>
      Json.arr (xs.map (fun e =>
        match e with
        | Json.obj _ => enf e
        | _ => e))
  | j => j

/-- `core/models.py::ResponsesBody._strictify_schema._enforce` on one node.
The fuel argument only grounds the recursion; `_enforce` descends one level
per call, so any fuel at least the node's depth is exact. -/
def enforceNode : Nat → Json → Json
  | 0, j => j
  | fuel + 1, Json.obj kvs =>
      let kvs1 := if isObjectSchemaKvs kvs then
        objectPart (fun j => enforceNode fuel j) kvs else kvs
      let kvs2 := updateAt kvs1 "items" (enforceItems (fun j => enforceNode fuel j))
      let kvs3 := updateAt kvs2 "anyOf" (enforceBranches (fun j => enforceNode fuel j))
      Json.obj (updateAt kvs3 "oneOf" (enforceBranches (fun j => enforceNode fuel j)))
  | _ + 1, j => j

/-- `core/models.py::ResponsesBody._strictify_schema`: deep-copy the schema
(identity here), run `_enforce` on the root, return `\x7b\x7d` for non-dict
input.  The depth of the schema is always enough fuel. -/
def strictify_schema (schema : Json) : Json :=
  match schema with
  | Json.obj kvs => enforceNode (jdepth (Json.obj kvs)) (Json.obj kvs)
  | _ => Json.obj []

/-- `core/utils.py::wrap_code_block`. -/
def wrap_code_block (text : String) (language : String := "python") : String :=
  "```" ++ language ++ "\n" ++ text ++ "\n```"

/-- A notification delivered to the event emitter by `_run_streaming_loop`.
`completionEv` covers both `_emit_completion` (content/usage, no error) and
`_emit_error` (an error payload, `done` as passed). -/
inductive Emitted where
  | chatMessage (content : String)
  | statusEv (data : Json)
  | usageTotals (data : List (String × Json))
  | completionEv (done : Bool) (content : Option String)
      (usage : Option (List (String × Json))) (errorMsg : Option String)
  | citationEv (document : String) (source : String)
deriving Repr, BEq

/-- The valve fields `_run_streaming_loop` reads. -/
structure Valves where
  MAX_FUNCTION_CALL_LOOPS : Nat
  PERSIST_REASONING_TOKENS : String
  PERSIST_TOOL_RESULTS : Bool
  LOG_LEVEL : String

/-- The external collaborators of `_run_streaming_loop`: the transport (one
decoded frame stream per submission), the tool registry, `json.loads`, the
persistence store (returning the hidden marker string, `""` when nothing was
persisted), the metadata ids and the session log buffer.  The delayed
"thinking" status tasks race on wall-clock time, only ever add status events,
and are cancelled on first real content; they are omitted from the pure
model. -/
structure RunnerDeps where
  streams : Nat → List Json
  tools : PipeTools
  jsonLoads : String → Except String Json
  persistFn : Json → String
  chatId : Option String
  messageId : Option String
  logs : List String

/-- The mutable locals of one `_run_streaming_loop` call, plus the emitted
notifications in order. -/
structure LoopState where
  assistant : String
  completionEmitted : Bool
  totalUsage : List (String × Json)
  errorOccurred : Bool
  events : List Emitted
deriving Repr

/-- `ResponseRunner._emit_error` with `show_error_message=True`: one
`chat:completion` notification carrying the error message (and the buffered
log citation when logs exist and a citation was requested). -/
def emitError (logs : List String) (showLogCitation : Bool) (st : LoopState)
    (msg : String) : LoopState :=
  let ev1 := st.events ++ [Emitted.completionEv false none none (some msg)]
  let ev2 := if showLogCitation && !logs.isEmpty then
      ev1 ++ [Emitted.citationEv (String.intercalate "\n" logs) "Error Logs"]
    else ev1
  { st with events := ev2 }

/-- `event.get("error", \x7b\x7d).get("message", "OpenAI returned an error.")`
stringified by `_emit_error` (a non-dict `error` value raises in Python,
outside the embedded domain). -/
def frameErrMsg (frame : Json) : String :=
  match jget (jgetD frame "error" (Json.obj [])) "message" with
  | none => "OpenAI returned an error."
  | some v => pyStr v

/-- `body.model` (typed `str` on `ResponsesBody`). -/
def bodyModel (body : Json) : String :=
  match jget body "model" with
  | some (Json.str s) => s
  | _ => ""

/-- The url collection of the `web_search_call` branch:
`[source.get("url") for source in sources if source.get("url")]` (a non-dict
source raises). -/
def collectUrls : List Json → Except String (List Json)
  | [] => Except.ok []
  | Json.obj kvs :: rest =>
      (match collectUrls rest with
       | Except.error e => Except.error e
       | Except.ok us =>
           let u := (lookupKey kvs "url").getD Json.null
           Except.ok (if jTruthy u then u :: us else us))
  | _ :: _ => Except.error "AttributeError: get"

/-- `item.get("type", "")` of the `response.output_item.delta` branch. -/
def itemTypeOf (item : Json) : String :=
  match jget item "type" with
  | some (Json.str s) => s
  | _ => ""

/-- `item.get("name", "unnamed_tool")`. -/
def itemNameOf (item : Json) : String :=
  match jget item "name" with
  | some v => pyStr v
  | none => "unnamed_tool"

/-- The `should_persist` computation of the `response.output_item.delta`
branch. -/
def shouldPersistItem (valves : Valves) (itemType : String) : Bool :=
  if itemType = "reasoning" then valves.PERSIST_REASONING_TOKENS = "conversation"
  else if itemType = "message" || itemType = "web_search_call" then false
  else valves.PERSIST_TOOL_RESULTS

/-- Persist one output item when requested and both ids exist, appending the
returned hidden marker to the transcript. -/
def persistStep (deps : RunnerDeps) (doPersist : Bool) (item : Json)
    (st : LoopState) : LoopState :=
  if doPersist && deps.chatId.isSome && deps.messageId.isSome then
    let marker := deps.persistFn item
    if marker ≠ "" then
      { st with
        assistant := st.assistant ++ marker
        events := st.events ++ [Emitted.chatMessage (st.assistant ++ marker)] }
    else st
  else st

/-- The `function_call` status notification of the
`response.output_item.delta` branch (`json.loads(item.get("arguments") or
"{}")`, then the formatted tool-call code block). -/
def functionCallStatus (jsonLoads : String → Except String Json) (item : Json)
    (itemName : String) (st1 : LoopState) : Except String LoopState :=
  let argSrc : Except String Json :=
    match jget item "arguments" with
    | some (Json.str s) => if s = "" then Except.ok (Json.obj []) else jsonLoads s
    | some v => if jTruthy v then
          Except.error "TypeError: the JSON object must be str, bytes or bytearray"
        else Except.ok (Json.obj [])
    | none => Except.ok (Json.obj [])
  match argSrc with
  | Except.error e => Except.error e
  | Except.ok (Json.obj argKvs) =>
      let joined := String.intercalate ", "
        (argKvs.map (fun kv => kv.1 ++ "=" ++ dumpJson kv.2))
      let content := wrap_code_block (itemName ++ "(" ++ joined ++ ")") "python"
      Except.ok { st1 with events := st1.events ++
        [Emitted.statusEv (Json.obj
          [("action", Json.str "tool_call"),
           ("description", Json.str ("Running the " ++ itemName ++ " tool…")),
           ("content", Json.str content), ("done", Json.bool false)])] }
  | Except.ok _ => Except.error "AttributeError: items"

/-- The `web_search_call` status notifications of the
`response.output_item.delta` branch. -/
def webSearchStatus (item : Json) (st1 : LoopState) : Except String LoopState :=
  let action0 := jgetD item "action" (Json.obj [])
  let action := if jTruthy action0 then action0 else Json.obj []
  if jget action "type" == some (Json.str "search") then
    let query := (jget action "query").getD Json.null
    let sources0 := (jget action "sources").getD Json.null
    let sourcesE : Except String (List Json) :=
      if !jTruthy sources0 then Except.ok []
      else match sources0 with
        | Json.arr xs => Except.ok xs
        | _ => Except.error "TypeError: not iterable"
    match sourcesE with
    | Except.error e => Except.error e
    | Except.ok sources =>
        match collectUrls sources with
        | Except.error e => Except.error e
        | Except.ok urls =>
            let st2 := if jTruthy query then
                { st1 with events := st1.events ++
                  [Emitted.statusEv (Json.obj
                    [("action", Json.str "web_search_queries_generated"),
                     ("description", Json.str "Searching"),
                     ("queries", Json.arr [query]), ("done", Json.bool false)])] }
              else st1
            let st3 := if !urls.isEmpty then
                { st2 with events := st2.events ++
                  [Emitted.statusEv (Json.obj
                    [("action", Json.str "web_search"),
                     ("description", Json.str "Reading through \x7b\x7bcount\x7d\x7d sites"),
                     ("query", query), ("urls", Json.arr urls),
                     ("done", Json.bool false)])] }
              else st2
            Except.ok st3
  else Except.ok st1

/-- The `response.output_item.delta` branch of `_run_streaming_loop`:
persistence of persistable items (appending the hidden marker to the
transcript), then the per-item-type status notifications. -/
def handleOutputItemDelta (valves : Valves) (deps : RunnerDeps) (st : LoopState)
    (frame : Json) : Except String LoopState :=
  let item := jgetD frame "item" (Json.obj [])
  let itemType := itemTypeOf item
  if itemType = "message" then Except.ok st
  else
    let st1 := persistStep deps (shouldPersistItem valves itemType) item st
    if itemType = "function_call" then
      functionCallStatus deps.jsonLoads item (itemNameOf item) st1
    else if itemType = "web_search_call" then webSearchStatus item st1
    else if itemType = "response_completion" then Except.ok st1
    else if itemType = "response.output_text.delta" then Except.ok st1
    else if itemType = "response_tool_call" then Except.ok st1
    else if itemType = "typing_status" then Except.ok st1
    else
      Except.ok { st1 with events := st1.events ++
        [Emitted.statusEv (Json.obj
          [("action", Json.str "tool_call"),
           ("description", Json.str ("Processing " ++ itemType)),
           ("content", Json.str (dumpJson item)), ("done", Json.bool false)])] }

/-- Python `x or default` on a JSON value. -/
def pyOr (v dflt : Json) : Json := if jTruthy v then v else dflt

/-- Python `for x in y` over a JSON value: the elements of a list, the
one-character strings of a string, the keys of a dict; anything else raises
`TypeError`. -/
def pyIter : Json → Except String (List Json)
  | Json.arr xs => Except.ok xs
  | Json.str s => Except.ok (s.data.map (fun c => Json.str (String.mk [c])))
  | Json.obj kvs => Except.ok (kvs.map (fun kv => Json.str kv.1))
  | _ => Except.error "TypeError: not iterable"

/-- Python `len` on a JSON value: defined on strings, lists and dicts,
`TypeError` elsewhere. -/
def pyLen : Json → Except String Nat
  | Json.str s => Except.ok s.length
  | Json.arr xs => Except.ok xs.length
  | Json.obj kvs => Except.ok kvs.length
  | _ => Except.error "TypeError: no len"

/-- Run a per-element check over a list, propagating the first exception. -/
def foldE (f : Json → Except String Unit) : List Json → Except String Unit
  | [] => Except.ok ()
  | x :: xs =>
      match f x with
      | Except.error e => Except.error e
      | Except.ok _ => foldE f xs

/-- The per-item body of the citation walk in the `response.message.delta`
branch: `item.get("type")` raises on a non-dict item; a passing item then
reads `item.get("text") or ""` (whose `len` raises on a truthy non-sized
value) and `citation.get("metadata", {}).get("url")` (which raises when the
stored `metadata` is not a dict).  The `ordinal_by_url`/`emitted_citations`
updates only feed the external `Chats.upsert` call and are inert here. -/
def citationItemCheck (citation : Json) (item : Json) : Except String Unit :=
  match item with
  | Json.obj _ =>
      if !(jgetD item "type" Json.null == Json.str "input_text") then Except.ok ()
      else
        let text_value := pyOr (jgetD item "text" Json.null) (Json.str "")
        if !jTruthy text_value then Except.ok ()
        else
          match pyLen text_value with
          | Except.error e => Except.error e
          | Except.ok n =>
              if n < 20 then Except.ok ()
              else
                match jgetD citation "metadata" (Json.obj []) with
                | Json.obj _ => Except.ok ()
                | _ => Except.error "AttributeError: get"
  | _ => Except.error "AttributeError: get"

/-- The per-citation body of the citation walk:
`citation.get("content") or []` (raising on a non-dict citation) and the item
loop. -/
def citationCheck (citation : Json) : Except String Unit :=
  match citation with
  | Json.obj _ =>
      match pyIter (pyOr (jgetD citation "content" Json.null) (Json.arr [])) with
      | Except.error e => Except.error e
      | Except.ok items => foldE (citationItemCheck citation) items
  | _ => Except.error "AttributeError: get"

/-- The per-delta body of the citation walk: `delta.get("type")` raises on a
non-dict delta; a `"citations"` delta then loops over
`delta.get("citations") or []`. -/
def deltaCheck (delta : Json) : Except String Unit :=
  match delta with
  | Json.obj _ =>
      if jgetD delta "type" Json.null == Json.str "citations" then
        match pyIter (pyOr (jgetD delta "citations" Json.null) (Json.arr [])) with
        | Except.error e => Except.error e
        | Except.ok cs => foldE citationCheck cs
      else Except.ok ()
  | _ => Except.error "AttributeError: get"

/-- The whole `response.message.delta` branch of `_run_streaming_loop` viewed
as its exception behaviour: `event.get("delta", {}).get("content", [])`
(raising when the stored delta is not a dict), then the nested citation walk.
Its only successful effect is the `emitted_citations` list that feeds the
external `Chats.upsert` call after the loop, inert to everything the claims
observe. -/
def messageDeltaCheck (frame : Json) : Except String Unit :=
  match jgetD frame "delta" (Json.obj []) with
  | Json.obj dkvs =>
      match pyIter (jgetD (Json.obj dkvs) "content" (Json.arr [])) with
      | Except.error e => Except.error e
      | Except.ok ds => foldE deltaCheck ds
  | _ => Except.error "AttributeError: get"

/-- Dispatch one decoded frame exactly as the `async for` body of
`_run_streaming_loop` does, given the frame's `event.get("type")`.  Returns
the updated state, the updated `final_response` local and whether the frame
`break`s out of the stream; an `Except.error` is an exception reaching the
surrounding `try`.  The `response.message.delta` branch contributes only its
exception behaviour (`messageDeltaCheck`) — its citation lists feed the
external `Chats.upsert` call after the loop; the
`response.tool_call_arguments.delta` branch likewise only mutates the frame
in place, raising exactly when a truthy delta meets a non-dict
`event_metadata` member. -/
def dispatchFrameE (valves : Valves) (deps : RunnerDeps) (st : LoopState)
    (fr : Option Json) (frame : Json) (ety : String) :
    Except String (LoopState × Option Json × Bool) :=
  if ety = "response.output_text.delta" then
    match jgetD frame "delta" (Json.str "") with
    | Json.str s =>
        if s ≠ "" then
          Except.ok ({ st with
            assistant := st.assistant ++ s
            events := st.events ++ [Emitted.chatMessage (st.assistant ++ s)] }, fr, false)
        else Except.ok (st, fr, false)
    | v => if jTruthy v then Except.error "TypeError: concat" else Except.ok (st, fr, false)
  else if ety = "response.output_text.done" then
    Except.ok (st, some frame, false)
  else if ety = "response.error" then
    Except.ok ({ emitError deps.logs true st (frameErrMsg frame) with errorOccurred := true },
      fr, true)
  else if ety = "response.refusal.delta" then
    Except.ok ({ st with events := st.events ++
      [Emitted.statusEv (Json.obj [("description", jgetD frame "delta" (Json.str ""))])] },
      fr, false)
  else if ety = "response.usage.delta" then
    match jgetD frame "delta" (Json.obj []) with
    | Json.obj nv =>
        let merged := merge_usage_kv st.totalUsage nv
        Except.ok ({ st with
          totalUsage := merged
          events := st.events ++ [Emitted.usageTotals merged] }, fr, false)
    | _ => Except.error "AttributeError: items"
  else if ety = "response.completed" then
    Except.ok ({ st with
      completionEmitted := true
      events := st.events ++
        [Emitted.completionEv true (some "") (some st.totalUsage) none] }, fr, true)
  else if ety = "response.cancelled" then
    Except.ok (st, fr, true)
  else if ety = "response.output_item.delta" then
    match handleOutputItemDelta valves deps st frame with
    | Except.error e => Except.error e
    | Except.ok st' => Except.ok (st', fr, false)
  else if ety = "response.tool_call_arguments.delta" then
    if jTruthy (jgetD frame "delta" (Json.str "")) then
      match jget frame "event_metadata" with
      | some (Json.obj _) => Except.ok (st, fr, false)
      | none => Except.ok (st, fr, false)
      | some _ => Except.error "TypeError: item assignment"
    else Except.ok (st, fr, false)
  else if ety = "response.function_call_arguments.delta" then
    Except.ok (st, fr, false)
  else if ety = "response.function_call_arguments.done" then
    Except.ok (st, fr, false)
  else if ety = "response.function_call_output.delta" then
    Except.ok (st, fr, false)
  else if ety = "response.output_items.done" then
    Except.ok (st, jget frame "response", false)
  else if ety = "response.message.start" then
    Except.ok (st, fr, false)
  else if ety = "response.message.delta" then
    match messageDeltaCheck frame with
    | Except.error e => Except.error e
    | Except.ok _ => Except.ok (st, fr, false)
  else if ety = "response.message.completed" then
    Except.ok (st, fr, false)
  else if ety = "response.completed_with_error" then
    Except.ok ({ emitError deps.logs true st (frameErrMsg frame) with errorOccurred := true },
      fr, true)
  else
    Except.ok (st, fr, false)

/-- Dispatch one decoded frame: `event.get("type")` — raising
`AttributeError` on a non-dict frame — then `dispatchFrameE` at that type. -/
def dispatchFrame (valves : Valves) (deps : RunnerDeps) (st : LoopState)
    (fr : Option Json) (frame : Json) : Except String (LoopState × Option Json × Bool) :=
  match frame with
  | Json.obj _ => dispatchFrameE valves deps st fr frame (frameType frame)
  | _ => Except.error "AttributeError: get"

/-- Consume one decoded stream frame by frame, honouring per-frame `break`s. -/
def dispatchFrames (valves : Valves) (deps : RunnerDeps) :
    LoopState → Option Json → List Json → Except String (LoopState × Option Json)
  | st, fr, [] => Except.ok (st, fr)
  | st, fr, f :: fs =>
      match dispatchFrame valves deps st fr f with
      | Except.error e => Except.error e
      | Except.ok (st', fr', true) => Except.ok (st', fr')
      | Except.ok (st', fr', false) => dispatchFrames valves deps st' fr' fs

/-- `final_response.get("output", [])` followed by the `function_call` filter
(non-dict responses or items raise). -/
def toolCallsOf (frv : Json) : Except String (List Json) :=
  match frv with
  | Json.obj _ =>
      match jgetD frv "output" (Json.arr []) with
      | Json.arr items => filterCalls items
      | _ => Except.error "TypeError: not iterable"
  | _ => Except.error "AttributeError: get"
where
  filterCalls : List Json → Except String (List Json)
    | [] => Except.ok []
    | Json.obj kvs :: rest =>
        (match filterCalls rest with
         | Except.error e => Except.error e
         | Except.ok out =>
             Except.ok (if lookupKey kvs "type" == some (Json.str "function_call") then
                 Json.obj kvs :: out
               else out))
    | _ :: _ => Except.error "AttributeError: get"

/-- `body.input` coerced to a list (`list(body.input) if isinstance(...) else
[]`) with the function outputs appended. -/
def appendInput (body : Json) (outputs : List Json) : Json :=
  let existing := match jget body "input" with
    | some (Json.arr xs) => xs
    | _ => []
  match body with
  | Json.obj kvs => Json.obj (setKey kvs "input" (Json.arr (existing ++ outputs)))
  | _ => body

/-- The `for _ in range(valves.MAX_FUNCTION_CALL_LOOPS)` loop of
`_run_streaming_loop`: submit, dispatch the stream, run the queued function
calls, extend the input, repeat.  Returns the state, whether the range was
exhausted (no `break`, no exception) and the number of transport
submissions; an exception anywhere is routed to the `except` handler
(`_emit_error` + error flag), after which control reaches `finally`. -/
def runLoop (valves : Valves) (deps : RunnerDeps) :
    Nat → Nat → Json → LoopState → LoopState × Bool × Nat
  | 0, iter, _, st => (st, true, iter)
  | remaining + 1, iter, body, st =>
      match dispatchFrames valves deps st none (deps.streams iter) with
      | Except.error e =>
          ({ emitError deps.logs true st e with errorOccurred := true }, false, iter + 1)
      | Except.ok (st1, fr) =>
          if st1.errorOccurred then (st1, false, iter + 1)
          else
            match fr with
            | none => (st1, false, iter + 1)
            | some frv =>
                if !jTruthy frv then (st1, false, iter + 1)
                else if !supports "function_calling" (bodyModel body) then (st1, false, iter + 1)
                else
                  match toolCallsOf frv with
                  | Except.error e =>
                      ({ emitError deps.logs true st1 e with errorOccurred := true },
                        false, iter + 1)
                  | Except.ok toolCalls =>
                      if toolCalls.isEmpty then (st1, false, iter + 1)
                      else
                        match execute_function_calls deps.jsonLoads deps.tools toolCalls with
                        | Except.error e =>
                            ({ emitError deps.logs true st1 e with errorOccurred := true },
                              false, iter + 1)
                        | Except.ok outputs =>
                            if outputs.isEmpty then (st1, false, iter + 1)
                            else
                              runLoop valves deps remaining (iter + 1)
                                (appendInput body outputs) st1

/-- The observable outcome of one `_run_streaming_loop` call. -/
structure RunResult where
  assistant : String
  events : List Emitted
  totalUsage : List (String × Json)
  errorOccurred : Bool
  exhausted : Bool
  submissions : Nat
deriving Repr

/-- The initial loop state, with the router status notification when the body
carries a truthy `model_router_result`. -/
def routedState (body : Json) : LoopState :=
  let st0 : LoopState :=
    { assistant := ""
      completionEmitted := false
      totalUsage := []
      errorOccurred := false
      events := [] }
  match jget body "model_router_result" with
  | some mr =>
      if jTruthy mr then
        { st0 with events := st0.events ++ [Emitted.statusEv (Json.obj
            [("description", Json.str "Routing")])] }
      else st0
  | none => st0

/-- The body with `model_router_result` cleared after the router status. -/
def routedBody (body : Json) : Json :=
  match jget body "model_router_result" with
  | some mr =>
      if jTruthy mr then
        (match body with
         | Json.obj kvs => Json.obj (setKey kvs "model_router_result" Json.null)
         | _ => body)
      else body
  | none => body

/-- The `finally` block of `_run_streaming_loop` applied to the loop outcome:
the buffered log citation and the once-only terminal completion. -/
def finalizeRun (valves : Valves) (deps : RunnerDeps)
    (out : LoopState × Bool × Nat) : RunResult :=
  let stL := out.1
  let st2 := if valves.LOG_LEVEL ≠ "INHERIT" && !deps.logs.isEmpty then
      { stL with events := stL.events ++
        [Emitted.citationEv (String.intercalate "\n" deps.logs) "Logs"] }
    else stL
  let st3 := if !st2.completionEmitted then
      { st2 with events := st2.events ++
        [Emitted.completionEv true (some "") (some st2.totalUsage) none] }
    else st2
  { assistant := st3.assistant
    events := st3.events
    totalUsage := st3.totalUsage
    errorOccurred := st3.errorOccurred
    exhausted := out.2.1
    submissions := out.2.2 }

/-- `app/pipe.py::ResponseRunner._run_streaming_loop` as a pure function: the
router status, the bounded submit/dispatch/tool loop, and the `finally` block
(log citation, the once-only terminal completion, external cleanup). -/
def run_streaming_loop (valves : Valves) (deps : RunnerDeps) (body : Json) : RunResult :=
  finalizeRun valves deps
    (runLoop valves deps valves.MAX_FUNCTION_CALL_LOOPS 0 (routedBody body)
      (routedState body))

/-- The frame types `map_stream_frame` recognizes (everything else maps to
zero events). -/
def RECOGNIZED_FRAME_TYPES : List String :=
  ["response.output_text.delta", "response.reasoning_summary_text.done",
   "response.output_item.added", "response.output_item.done",
   "response.completed", "response.error", "response.output_text.annotation.added"]

/-- Is this notification an error notification (`_emit_error`'s
`chat:completion` payload carrying an `error` member)? -/
def isErrCompletion : Emitted → Bool
  | Emitted.completionEv _ _ _ (some _) => true
  | _ => false

/-- Is this notification a terminal completion (`done=True`)? -/
def isDoneCompletion : Emitted → Bool
  | Emitted.completionEv true _ _ _ => true
  | _ => false

/-- Number of error notifications in an emission trace. -/
def countErrEvents (es : List Emitted) : Nat := (es.filter isErrCompletion).length

/-- Number of terminal (`done=True`) completion notifications. -/
def countDoneCompletions (es : List Emitted) : Nat := (es.filter isDoneCompletion).length

/-- A call whose `arguments` member cannot make `json.loads` raise a
`TypeError` in the legacy runner: absent, falsy, or a string. -/
def StrArgs (c : Json) : Bool :=
  match jget c "arguments" with
  | none => true
  | some (Json.str _) => true
  | some v => !jTruthy v

/-- A two-call batch: the first call's tool succeeds, the second call's tool
raises.  Fixture for the tool-invocation claims. -/
def cexCalls : List Json :=
  [Json.obj [("type", Json.str "function_call"), ("name", Json.str "ok"),
     ("call_id", Json.str "c1"), ("arguments", Json.str "\x7b\x7d")],
   Json.obj [("type", Json.str "function_call"), ("name", Json.str "boom"),
     ("call_id", Json.str "c2"), ("arguments", Json.str "\x7b\x7d")]]

/-- A decoder for the fixture argument strings. -/
def cexJsonLoads : String → Except String Json :=
  fun sArgs => if sArgs = "\x7b\x7d" then Except.ok (Json.obj []) else Except.error "bad json"

/-- The fixture registry for the current pipe runner: `ok` returns, `boom`
raises. -/
def cexTools : PipeTools :=
  fun n =>
    if n = "ok" then some (fun _ => Except.ok (Json.str "fine"))
    else if n = "boom" then some (fun _ => Except.error "boom!")
    else none

/-- The fixture registry for the legacy runner. -/
def cexRegistry : ToolRegistry :=
  fun n =>
    if n = "ok" then some (PyCallable.fn (fun _ => Except.ok (Json.str "fine")))
    else if n = "boom" then some (PyCallable.fn (fun _ => Except.error "boom!"))
    else none

/-- The fixture registry with only the raising tool replaced. -/
def cexRegistryPatched : ToolRegistry :=
  fun n =>
    if n = "boom" then some (PyCallable.fn (fun _ => Except.ok (Json.str "ok2")))
    else cexRegistry n

/-- Lift `jsonEqv` to optional lookups: both absent, or both present and
extensionally equal. -/
def optJsonEqv : Option Json → Option Json → Bool
  | none, none => true
  | some v, some w => jsonEqv v w
  | _, _ => false

theorem lookupKey_setKey_self (kvs : List (String × Json)) (k : String) (v : Json) :
    lookupKey (setKey kvs k v) k = some v := by
  induction kvs with
  | nil => simp [setKey, lookupKey]
  | cons kv rest ih =>
      obtain ⟨k1, v1⟩ := kv
      by_cases h : k1 = k
      · subst h; simp [setKey, lookupKey]
      · simp [setKey, h, lookupKey, ih]

theorem lookupKey_setKey_ne (kvs : List (String × Json)) (k k' : String) (v : Json)
    (h : k ≠ k') : lookupKey (setKey kvs k v) k' = lookupKey kvs k' := by
  induction kvs with
  | nil => simp [setKey, lookupKey, h]
  | cons kv rest ih =>
      obtain ⟨k1, v1⟩ := kv
      by_cases h1 : k1 = k
      · subst h1; simp [setKey, lookupKey, h]
      · by_cases h2 : k1 = k'
        · subst h2; simp [setKey, h1, lookupKey]
        · simp [setKey, h1, lookupKey, h2, ih]

theorem lookupKey_eq_none_of_not_contains (n : List (String × Json)) (k : String)
    (h : (keysOf n).contains k = false) : lookupKey n k = none := by
  induction n with
  | nil => simp [lookupKey]
  | cons kv rest ih =>
      obtain ⟨k1, v1⟩ := kv
      have hm : ¬k = k1 ∧ k ∉ keysOf rest := by
        have := h
        simp [keysOf] at this
        simpa [keysOf] using this
      have h1 : ¬k1 = k := fun hh => hm.1 hh.symm
      have h2 : (keysOf rest).contains k = false := by
        simp [List.contains]
        exact hm.2
      simp [lookupKey, h1, ih h2]

/-- How a key reads out of the merged map, in terms of how it reads out of
the two inputs (`u` has unique keys, as every Python dict does). -/
theorem merge_usage_kv_lookup (t u : List (String × Json)) (k : String)
    (hu : nodupStr (keysOf u) = true) :
    lookupKey (merge_usage_kv t u) k =
      match lookupKey u k with
      | none => lookupKey t k
      | some Json.null => lookupKey t k
      | some (Json.num m) => some (Json.num (getNumOr t k + m))
      | some (Json.bool b) => some (Json.num (getNumOr t k + boolInt b))
      | some (Json.obj nv) => some (Json.obj (merge_usage_kv (getObjOr t k) nv))
      | some v => some v := by
  induction u generalizing t with
  | nil => simp [merge_usage_kv, lookupKey]
  | cons kv rest ih =>
      obtain ⟨k0, v0⟩ := kv
      have hnd : (keysOf rest).contains k0 = false ∧ nodupStr (keysOf rest) = true := by
        simp [keysOf, nodupStr, List.contains] at hu ⊢
        exact hu
      by_cases hk : k0 = k
      · subst hk
        have hrest : lookupKey rest k0 = none :=
          lookupKey_eq_none_of_not_contains rest k0 hnd.1
        cases v0 with
        | null =>
            simp only [merge_usage_kv, mergeEntry]
            rw [ih t hnd.2, hrest]
            simp [lookupKey]
        | bool b =>
            simp only [merge_usage_kv, mergeEntry]
            rw [ih _ hnd.2, hrest]
            simp [lookupKey, lookupKey_setKey_self]
        | num n =>
            simp only [merge_usage_kv, mergeEntry]
            rw [ih _ hnd.2, hrest]
            simp [lookupKey, lookupKey_setKey_self]
        | str s =>
            simp only [merge_usage_kv, mergeEntry]
            rw [ih _ hnd.2, hrest]
            simp [lookupKey, lookupKey_setKey_self]
        | arr xs =>
            simp only [merge_usage_kv, mergeEntry]
            rw [ih _ hnd.2, hrest]
            simp [lookupKey, lookupKey_setKey_self]
        | obj nv =>
            simp only [merge_usage_kv, mergeEntry]
            rw [ih _ hnd.2, hrest]
            simp [lookupKey, lookupKey_setKey_self]
      · have hgn : ∀ v, getNumOr (setKey t k0 v) k = getNumOr t k := by
          intro v; unfold getNumOr; rw [lookupKey_setKey_ne t k0 k v hk]
        have hgo : ∀ v, getObjOr (setKey t k0 v) k = getObjOr t k := by
          intro v; unfold getObjOr; rw [lookupKey_setKey_ne t k0 k v hk]
        have hlu : lookupKey ((k0, v0) :: rest) k = lookupKey rest k := by
          simp [lookupKey, hk]
        rw [hlu]
        cases v0 with
        | null =>
            simp only [merge_usage_kv, mergeEntry]
            rw [ih t hnd.2]
        | bool b =>
            simp only [merge_usage_kv, mergeEntry]
            rw [ih _ hnd.2]
            rcases hr : lookupKey rest k with _ | w
            · exact lookupKey_setKey_ne t k0 k _ hk
            · cases w <;> simp [hgn, hgo, lookupKey_setKey_ne t k0 k _ hk]
        | num n =>
            simp only [merge_usage_kv, mergeEntry]
            rw [ih _ hnd.2]
            rcases hr : lookupKey rest k with _ | w
            · exact lookupKey_setKey_ne t k0 k _ hk
            · cases w <;> simp [hgn, hgo, lookupKey_setKey_ne t k0 k _ hk]
        | str s =>
            simp only [merge_usage_kv, mergeEntry]
            rw [ih _ hnd.2]
            rcases hr : lookupKey rest k with _ | w
            · exact lookupKey_setKey_ne t k0 k _ hk
            · cases w <;> simp [hgn, hgo, lookupKey_setKey_ne t k0 k _ hk]
        | arr xs =>
            simp only [merge_usage_kv, mergeEntry]
            rw [ih _ hnd.2]
            rcases hr : lookupKey rest k with _ | w
            · exact lookupKey_setKey_ne t k0 k _ hk
            · cases w <;> simp [hgn, hgo, lookupKey_setKey_ne t k0 k _ hk]
        | obj nv =>
            simp only [merge_usage_kv, mergeEntry]
            rw [ih _ hnd.2]
            rcases hr : lookupKey rest k with _ | w
            · exact lookupKey_setKey_ne t k0 k _ hk
            · cases w <;> simp [hgn, hgo, lookupKey_setKey_ne t k0 k _ hk]

/-- C10: `merge_usage_stats` silently ignores `None` leaves — a key mapped to
`None` in the update map leaves the totals entry (present or absent) exactly
as it was, while a non-numeric, non-`None` scalar such as a string at the
same position overwrites it. -/
theorem merge_usage_stats_none_ignored (t u : List (String × Json)) (k : String)
    (hu : nodupStr (keysOf u) = true) :
    (lookupKey u k = some Json.null →
      jget (merge_usage_stats (Json.obj t) (Json.obj u)) k = lookupKey t k)
    ∧ (∀ s : String, lookupKey u k = some (Json.str s) →
      jget (merge_usage_stats (Json.obj t) (Json.obj u)) k = some (Json.str s)) := by
  constructor
  · intro h
    simp only [merge_usage_stats, jget]
    rw [merge_usage_kv_lookup t u k hu, h]
  · intro s h
    simp only [merge_usage_stats, jget]
    rw [merge_usage_kv_lookup t u k hu, h]

/-- Witness for C10 at a concrete input: totals `\x7b"a": 1\x7d`, update
`\x7b"a": None, "b": "x"\x7d` — key `"a"` keeps its old value `1` and the string
under `"b"` lands as-is. -/
theorem merge_usage_stats_none_ignored_witness :
    nodupStr (keysOf [("a", Json.null), ("b", Json.str "x")]) = true
    ∧ jget (merge_usage_stats (Json.obj [("a", Json.num 1)])
        (Json.obj [("a", Json.null), ("b", Json.str "x")])) "a"
      = lookupKey [("a", Json.num 1)] "a"
    ∧ jget (merge_usage_stats (Json.obj [("a", Json.num 1)])
        (Json.obj [("a", Json.null), ("b", Json.str "x")])) "b"
      = some (Json.str "x") := by
  refine ⟨by decide, ?_, ?_⟩
  · exact (merge_usage_stats_none_ignored [("a", Json.num 1)]
      [("a", Json.null), ("b", Json.str "x")] "a" (by decide)).1 rfl
  · exact (merge_usage_stats_none_ignored [("a", Json.num 1)]
      [("a", Json.null), ("b", Json.str "x")] "b" (by decide)).2 "x" rfl

/-- C8: `map_stream_frame` produces at most one run event per decoded frame,
and produces zero events exactly when the frame's `type` discriminator is
unrecognized, when an `output_text.delta` frame carries an empty (falsy)
delta, or when a `reasoning_summary_text.done` frame's text is empty after
trimming. -/
theorem map_stream_frame_event_count (frame : Json) :
    (map_stream_frame frame).length ≤ 1
    ∧ (map_stream_frame frame = [] ↔
        (RECOGNIZED_FRAME_TYPES.contains (frameType frame) = false
         ∨ (frameType frame = "response.output_text.delta"
            ∧ jTruthy (jgetD frame "delta" (Json.str "")) = false)
         ∨ (frameType frame = "response.reasoning_summary_text.done"
            ∧ reasoningTextOf frame = ""))) := by
  unfold map_stream_frame
  by_cases h1 : frameType frame = "response.output_text.delta"
  · by_cases hd : jTruthy (jgetD frame "delta" (Json.str "")) = true
    · simp [h1, hd, RECOGNIZED_FRAME_TYPES]
    · simp at hd
      simp [h1, hd, RECOGNIZED_FRAME_TYPES]
  · by_cases h2 : frameType frame = "response.reasoning_summary_text.done"
    · by_cases ht : reasoningTextOf frame = ""
      · simp [h1, h2, ht, RECOGNIZED_FRAME_TYPES]
      · simp [h1, h2, ht, RECOGNIZED_FRAME_TYPES]
    · by_cases h3 : frameType frame = "response.output_item.added"
      · simp [h1, h2, h3, RECOGNIZED_FRAME_TYPES]
      · by_cases h4 : frameType frame = "response.output_item.done"
        · simp [h1, h2, h3, h4, RECOGNIZED_FRAME_TYPES]
        · by_cases h5 : frameType frame = "response.completed"
          · simp [h1, h2, h3, h4, h5, RECOGNIZED_FRAME_TYPES]
          · by_cases h6 : frameType frame = "response.error"
            · simp [h1, h2, h3, h4, h5, h6, RECOGNIZED_FRAME_TYPES]
            · by_cases h7 : frameType frame = "response.output_text.annotation.added"
              · simp [h1, h2, h3, h4, h5, h6, h7, RECOGNIZED_FRAME_TYPES]
              · simp [h1, h2, h3, h4, h5, h6, h7, RECOGNIZED_FRAME_TYPES]

theorem stream_events_go_stop_append (chunks : List (List Char)) :
    ∀ (buf : List Char) (more : List (List Char)),
      (stream_events_go buf chunks).2 = true →
      stream_events_go buf (chunks ++ more) = stream_events_go buf chunks := by
  induction chunks with
  | nil => intro buf more h; simp [stream_events_go] at h
  | cons c cs ih =>
      intro buf more h
      simp only [stream_events_go] at h ⊢
      by_cases hs : (runLines (splitLines (buf ++ c)).1).2 = true
      · simp [hs]
      · simp only [Bool.not_eq_true] at hs
        simp [hs] at h ⊢
        exact ⟨congrArg Prod.fst (ih _ more h), congrArg Prod.snd (ih _ more h)⟩

/-- C4: once a `data:` line whose stripped payload is `[DONE]` is reached,
the event sequence ends at once — no chunk arriving later is ever processed
(first conjunct), and complete lines already sitting in the buffer behind the
sentinel are never classified, parsed or emitted (second conjunct). -/
theorem stream_events_done_sentinel_final
    (chunks more : List (List Char)) (pre post : List (List Char)) (d : List Char)
    (hdone : classifyLine d = LineStep.done) :
    ((stream_events chunks).2 = true →
      stream_events (chunks ++ more) = stream_events chunks)
    ∧ runLines (pre ++ d :: post) = runLines (pre ++ [d]) := by
  constructor
  · intro h
    exact stream_events_go_stop_append chunks [] more h
  · induction pre with
    | nil => simp [runLines, hdone]
    | cons l ls ih =>
        simp only [List.cons_append, runLines, List.append_eq]
        cases classifyLine l <;> simp [ih]

/-- Witness for C4: a stream whose first chunk holds one data line, the
sentinel, and a buffered data line behind it; a second chunk arrives later.
Only the first payload is ever emitted. -/
theorem stream_events_done_sentinel_final_witness :
    classifyLine "data: \x7b1\x7d".data = LineStep.done ∨
      (stream_events
          ["data: \x7ba\x7d\ndata: [DONE]\ndata: \x7bb\x7d\n".data, "data: \x7bc\x7d\n".data]
        = (["\x7ba\x7d"], true)
      ∧ stream_events (["data: \x7ba\x7d\ndata: [DONE]\ndata: \x7bb\x7d\n".data]
            ++ ["data: \x7bc\x7d\n".data])
        = stream_events ["data: \x7ba\x7d\ndata: [DONE]\ndata: \x7bb\x7d\n".data]
      ∧ runLines (["data: \x7ba\x7d".data] ++ "data: [DONE]".data :: ["data: \x7bb\x7d".data])
        = runLines (["data: \x7ba\x7d".data] ++ ["data: [DONE]".data])) := by
  refine Or.inr ⟨by rfl, ?_, ?_⟩
  · exact (stream_events_done_sentinel_final
      ["data: \x7ba\x7d\ndata: [DONE]\ndata: \x7bb\x7d\n".data] ["data: \x7bc\x7d\n".data]
      [] [] "data: [DONE]".data (by rfl)).1 (by rfl)
  · exact (stream_events_done_sentinel_final [] [] ["data: \x7ba\x7d".data]
      ["data: \x7bb\x7d".data] "data: [DONE]".data (by rfl)).2

/-- C3 counterexample: a request for alias `gpt-5-thinking-minimal` that
explicitly sets `reasoning.effort = "high"` comes out of
`_apply_alias_defaults` with effort `"minimal"` — the alias defaults
overwrite the explicitly present nested value instead of only filling gaps. -/
theorem apply_alias_defaults_overrides_explicit_effort :
    jget (jgetD (Json.obj (apply_alias_defaults
        [("model", Json.str "gpt-5-thinking-minimal"),
         ("reasoning", Json.obj [("effort", Json.str "high")]),
         ("temperature", Json.num 1)])) "reasoning" (Json.obj [])) "effort"
      = some (Json.str "minimal")
    ∧ jget (jgetD (Json.obj (apply_alias_defaults
        [("model", Json.str "gpt-5-thinking-minimal"),
         ("reasoning", Json.obj [("effort", Json.str "high")]),
         ("temperature", Json.num 1)])) "reasoning" (Json.obj [])) "effort"
      ≠ some (Json.str "high") := by
  have h : jget (jgetD (Json.obj (apply_alias_defaults
      [("model", Json.str "gpt-5-thinking-minimal"),
       ("reasoning", Json.obj [("effort", Json.str "high")]),
       ("temperature", Json.num 1)])) "reasoning" (Json.obj [])) "effort"
      = some (Json.str "minimal") := by rfl
  refine ⟨h, ?_⟩
  rw [h]
  intro hx
  injection hx with hx1
  injection hx1 with hx2
  exact absurd hx2 (by decide)

/-- C3 amended: merging alias defaults is a deep merge in which the defaults
win wherever they specify a value — dict values merge recursively, list
values merge with structural dedup, and scalar leaves in the defaults
overwrite explicitly present request values; request fields the defaults do
not mention keep their values.  In particular `reasoning.effort = "high"`
under alias defaults `reasoning.effort = "minimal"` becomes `"minimal"`,
while the untouched `temperature` survives and the model id is
canonicalized. -/
theorem apply_alias_defaults_gap_fill_elsewhere :
    (∀ (dst src : List (String × Json)) (k : String),
      lookupKey src k = none →
      lookupKey (deep_overlay dst src) k = lookupKey dst k)
    ∧ jget (jgetD (Json.obj (apply_alias_defaults
        [("model", Json.str "gpt-5-thinking-minimal"),
         ("reasoning", Json.obj [("effort", Json.str "high")]),
         ("temperature", Json.num 1)])) "reasoning" (Json.obj [])) "effort"
      = some (Json.str "minimal")
    ∧ lookupKey (apply_alias_defaults
        [("model", Json.str "gpt-5-thinking-minimal"),
         ("reasoning", Json.obj [("effort", Json.str "high")]),
         ("temperature", Json.num 1)]) "temperature" = some (Json.num 1)
    ∧ lookupKey (apply_alias_defaults
        [("model", Json.str "gpt-5-thinking-minimal"),
         ("reasoning", Json.obj [("effort", Json.str "high")]),
         ("temperature", Json.num 1)]) "model" = some (Json.str "gpt-5") := by
  refine ⟨?_, by rfl, by rfl, by rfl⟩
  intro dst src k
  induction src generalizing dst with
  | nil => intro _; simp [deep_overlay]
  | cons kv rest ih =>
      obtain ⟨k0, v0⟩ := kv
      intro hnone
      have hk : ¬k0 = k := by
        by_contra hc
        subst hc
        simp [lookupKey] at hnone
      have hrest : lookupKey rest k = none := by
        simpa [lookupKey, hk] using hnone
      have key : ∀ X, lookupKey (deep_overlay (setKey dst k0 X) rest) k = lookupKey dst k := by
        intro X
        rw [ih _ hrest, lookupKey_setKey_ne _ _ _ _ hk]
      cases v0 with
      | obj srcObj =>
          simp only [deep_overlay, overlayEntry]
          rcases hm : lookupKey dst k0 with _ | v
          · simp only [hm]
            exact key _
          · cases v <;> simp only [hm] <;> exact key _
      | arr srcList =>
          simp only [deep_overlay, overlayEntry]
          rcases hm : lookupKey dst k0 with _ | v
          · simp only [hm]
            exact key _
          · cases v <;> simp only [hm] <;> exact key _
      | null => simp only [deep_overlay, overlayEntry]; exact key _
      | bool b => simp only [deep_overlay, overlayEntry]; exact key _
      | num n => simp only [deep_overlay, overlayEntry]; exact key _
      | str sv => simp only [deep_overlay, overlayEntry]; exact key _

/-- Witness for the amended C3 at a concrete input: the defaults do not
mention `"temperature"`, so the overlay leaves it alone. -/
theorem apply_alias_defaults_gap_fill_elsewhere_witness :
    lookupKey [("reasoning", Json.obj [("effort", Json.str "minimal")])] "temperature" = none
    ∧ lookupKey (deep_overlay
        [("temperature", Json.num 1), ("reasoning", Json.obj [("effort", Json.str "high")])]
        [("reasoning", Json.obj [("effort", Json.str "minimal")])]) "temperature"
      = lookupKey
        [("temperature", Json.num 1), ("reasoning", Json.obj [("effort", Json.str "high")])]
        "temperature" :=
  ⟨rfl, apply_alias_defaults_gap_fill_elsewhere.1
    [("temperature", Json.num 1), ("reasoning", Json.obj [("effort", Json.str "high")])]
    [("reasoning", Json.obj [("effort", Json.str "minimal")])] "temperature" rfl⟩

theorem strArgs_parse_ok (jsonLoads : String → Except String Json) (c : Json)
    (h : StrArgs c = true) : ∃ args, parse_call_arguments jsonLoads c = Except.ok args := by
  unfold StrArgs at h
  unfold parse_call_arguments
  cases hc : jget c "arguments" with
  | none => exact ⟨[], rfl⟩
  | some p =>
      rw [hc] at h
      cases p with
      | str sArgs =>
          by_cases ht : jTruthy (Json.str sArgs) = true
          · simp [ht]
            cases jsonLoads sArgs with
            | error e => exact ⟨[], by simp⟩
            | ok v => cases v <;> simp
          · simp at ht
            simp [ht]
      | null => simp [jTruthy]
      | bool b =>
          simp [jTruthy] at h
          simp [jTruthy, h]
      | num n =>
          simp [jTruthy] at h
          simp [jTruthy, h]
      | arr xs =>
          simp [jTruthy] at h
          simp [jTruthy, h]
      | obj kvs =>
          simp [jTruthy] at h
          simp [jTruthy, h]

theorem execute_tool_call_record (jsonLoads : String → Except String Json)
    (reg : ToolRegistry) (c : Json) (h : StrArgs c = true) :
    ∃ r, execute_tool_call jsonLoads reg c = Except.ok r
      ∧ jget r "type" = some (Json.str "function_call_output")
      ∧ jget r "call_id" = some (callIdOf c)
      ∧ (∀ f m args, reg (callName c) = some (PyCallable.fn f) →
          parse_call_arguments jsonLoads c = Except.ok args →
          f (Json.obj args) = Except.error m →
          jget r "output" = some (Json.str ("Tool execution failed: " ++ m))) := by
  obtain ⟨args, hargs⟩ := strArgs_parse_ok jsonLoads c h
  cases hreg : reg (callName c) with
  | none =>
      have hstep : execute_tool_call jsonLoads reg c
          = Except.ok (callOutputRecord (callIdOf c) "Tool not found") := by
        unfold execute_tool_call
        rw [hreg]
      refine ⟨_, hstep, by simp [callOutputRecord, jget, lookupKey],
        by simp [callOutputRecord, jget, lookupKey], ?_⟩
      intro f m args2 hf
      simp at hf
  | some pc =>
      cases pc with
      | notCallable =>
          have hstep : execute_tool_call jsonLoads reg c
              = Except.ok (callOutputRecord (callIdOf c) "Tool not callable") := by
            unfold execute_tool_call
            rw [hreg]
          refine ⟨_, hstep, by simp [callOutputRecord, jget, lookupKey],
            by simp [callOutputRecord, jget, lookupKey], ?_⟩
          intro f m args2 hf
          simp at hf
      | fn f =>
          cases hres : f (Json.obj args) with
          | error m =>
              have hstep : execute_tool_call jsonLoads reg c
                  = Except.ok (callOutputRecord (callIdOf c)
                      ("Tool execution failed: " ++ m)) := by
                unfold execute_tool_call
                rw [hreg, hargs]
                simp [hres]
              refine ⟨_, hstep, by simp [callOutputRecord, jget, lookupKey],
                by simp [callOutputRecord, jget, lookupKey], ?_⟩
              intro f2 m2 args2 hf2 hp2 hr2
              injection hf2 with hf3
              injection hf3 with hf4
              subst hf4
              rw [hargs] at hp2
              injection hp2 with hp3
              subst hp3
              rw [hres] at hr2
              injection hr2 with hm2
              subst hm2
              simp [callOutputRecord, jget, lookupKey]
          | ok result =>
              have hstep : execute_tool_call jsonLoads reg c
                  = Except.ok (callOutputRecord (callIdOf c) (pyStr result)) := by
                unfold execute_tool_call
                rw [hreg, hargs]
                simp [hres]
              refine ⟨_, hstep, by simp [callOutputRecord, jget, lookupKey],
                by simp [callOutputRecord, jget, lookupKey], ?_⟩
              intro f2 m2 args2 hf2 hp2 hr2
              injection hf2 with hf3
              injection hf3 with hf4
              subst hf4
              rw [hargs] at hp2
              injection hp2 with hp3
              subst hp3
              rw [hres] at hr2
              simp at hr2

theorem execute_tool_call_congr (jsonLoads : String → Except String Json)
    (reg reg2 : ToolRegistry) (t : String) (c : Json)
    (hag : ∀ n, ¬n = t → reg n = reg2 n) (hname : ¬callName c = t) :
    execute_tool_call jsonLoads reg c = execute_tool_call jsonLoads reg2 c := by
  unfold execute_tool_call
  rw [hag _ hname]

theorem run_function_calls_pointwise (jsonLoads : String → Except String Json)
    (calls : List Json) (reg : ToolRegistry)
    (h : ∀ c ∈ calls, StrArgs c = true) :
    ∃ rs, run_function_calls jsonLoads calls reg = Except.ok rs
      ∧ rs.length = calls.length
      ∧ ∀ (i : Nat) (c : Json), calls[i]? = some c →
          ∃ r, rs[i]? = some r ∧ execute_tool_call jsonLoads reg c = Except.ok r := by
  induction calls with
  | nil => exact ⟨[], rfl, rfl, by intro i c hc; simp at hc⟩
  | cons c cs ih =>
      have hc : StrArgs c = true := h c (by simp)
      obtain ⟨r, hr, -⟩ := execute_tool_call_record jsonLoads reg c hc
      obtain ⟨rs, hrs, hlen, hpt⟩ := ih (fun x hx => h x (by simp [hx]))
      refine ⟨r :: rs, ?_, by simp [hlen], ?_⟩
      · unfold run_function_calls
        rw [hr, hrs]
      · intro i x hx
        cases i with
        | zero =>
            simp at hx
            subst hx
            exact ⟨r, by simp, hr⟩
        | succ j =>
            simp at hx
            obtain ⟨r2, hr2, he2⟩ := hpt j x (by simpa using hx)
            exact ⟨r2, by simpa using hr2, he2⟩

theorem gatherAll_ok (l : List (Except String Json))
    (h : ∀ x ∈ l, ∃ v, x = Except.ok v) :
    ∃ vs, gatherAll l = Except.ok vs ∧ vs.length = l.length := by
  induction l with
  | nil => exact ⟨[], rfl, rfl⟩
  | cons x xs ih =>
      obtain ⟨v, hv⟩ := h x (by simp)
      obtain ⟨vs, hvs, hlen⟩ := ih (fun y hy => h y (by simp [hy]))
      subst hv
      refine ⟨v :: vs, ?_, by simp [hlen]⟩
      unfold gatherAll
      rw [hvs]

theorem zipRecords_pointwise (calls results : List Json)
    (hcid : ∀ c ∈ calls, (jget c "call_id").isSome = true)
    (hlen : results.length = calls.length) :
    ∃ rs, zipRecords calls results = Except.ok rs
      ∧ rs.length = calls.length
      ∧ ∀ (i : Nat) (c : Json), calls[i]? = some c →
          ∃ r, rs[i]? = some r ∧ jget r "type" = some (Json.str "function_call_output") := by
  induction calls generalizing results with
  | nil =>
      cases results with
      | nil => exact ⟨[], rfl, rfl, by intro i c hc; simp at hc⟩
      | cons v vs => simp at hlen
  | cons c cs ih =>
      cases results with
      | nil => simp at hlen
      | cons v vs =>
          have hc : (jget c "call_id").isSome = true := hcid c (by simp)
          cases hcv : jget c "call_id" with
          | none => rw [hcv] at hc; simp at hc
          | some cid =>
              obtain ⟨rs, hrs, hlen2, hpt⟩ := ih vs
                (fun x hx => hcid x (by simp [hx])) (by simpa using hlen)
              refine ⟨callOutputRecord cid (pyStr v) :: rs, ?_, by simp [hlen2], ?_⟩
              · unfold zipRecords zipRecord
                rw [hcv, hrs]
              · intro i x hx
                cases i with
                | zero =>
                    simp at hx
                    subst hx
                    exact ⟨callOutputRecord cid (pyStr v), by simp,
                      by simp [callOutputRecord, jget, lookupKey]⟩
                | succ j =>
                    simp at hx
                    obtain ⟨r2, hr2, ht2⟩ := hpt j x (by simpa using hx)
                    exact ⟨r2, by simpa using hr2, ht2⟩

theorem mem_of_index (l : List Json) (i : Nat) (a : Json) (h : l[i]? = some a) : a ∈ l := by
  obtain ⟨hlt, rfl⟩ := List.getElem?_eq_some.mp h
  exact List.getElem_mem hlt

/-- C2 counterexample: with two calls whose tools are `ok` (returns) and
`boom` (raises), the current `_execute_function_calls` lets the exception out
of `asyncio.gather`: the whole batch aborts and no output records exist —
contradicting "one record per call, no exception propagates". -/
theorem execute_function_calls_raising_tool_aborts_batch :
    execute_function_calls cexJsonLoads cexTools cexCalls = Except.error "boom!" := by rfl

/-- C2 amended: the legacy `run_function_calls` has the claimed behaviour —
one `function_call_output` record per call, in input order, a raising
callable degraded to a `Tool execution failed: <message>` record, other
calls unaffected by swapping one tool's behaviour, and no exception escaping
(for calls whose `arguments` member is absent, falsy or a string).  The
current `_execute_function_calls` produces one record per call in order only
when no task raises; a raising callable propagates out of the batch (see the
counterexample). -/
theorem tool_batch_isolation_amended :
    (∀ (jsonLoads : String → Except String Json) (calls : List Json)
       (reg reg2 : ToolRegistry) (t : String),
      (∀ c ∈ calls, StrArgs c = true) →
      (∀ n, ¬n = t → reg n = reg2 n) →
      ∃ rs rs2, run_function_calls jsonLoads calls reg = Except.ok rs
        ∧ run_function_calls jsonLoads calls reg2 = Except.ok rs2
        ∧ rs.length = calls.length
        ∧ ∀ (i : Nat) (c : Json), calls[i]? = some c →
            ∃ r, rs[i]? = some r
              ∧ jget r "type" = some (Json.str "function_call_output")
              ∧ jget r "call_id" = some (callIdOf c)
              ∧ (∀ (f : Json → Except String Json) (m : String)
                   (args : List (String × Json)),
                  reg (callName c) = some (PyCallable.fn f) →
                  parse_call_arguments jsonLoads c = Except.ok args →
                  f (Json.obj args) = Except.error m →
                  jget r "output" = some (Json.str ("Tool execution failed: " ++ m)))
              ∧ (¬callName c = t → rs2[i]? = some r))
    ∧ (∀ (jsonLoads : String → Except String Json) (tools : PipeTools)
         (calls : List Json),
      (∀ c ∈ calls, ∃ v, make_task jsonLoads tools c = Except.ok v) →
      (∀ c ∈ calls, (jget c "call_id").isSome = true) →
      ∃ rs, execute_function_calls jsonLoads tools calls = Except.ok rs
        ∧ rs.length = calls.length
        ∧ ∀ (i : Nat) (c : Json), calls[i]? = some c →
            ∃ r, rs[i]? = some r
              ∧ jget r "type" = some (Json.str "function_call_output")) := by
  constructor
  · intro jsonLoads calls reg reg2 t hargs hag
    obtain ⟨rs, hrs, hlen, hpt⟩ := run_function_calls_pointwise jsonLoads calls reg hargs
    obtain ⟨rs2, hrs2, hlen2, hpt2⟩ := run_function_calls_pointwise jsonLoads calls reg2 hargs
    refine ⟨rs, rs2, hrs, hrs2, hlen, ?_⟩
    intro i c hc
    have hmem : c ∈ calls := mem_of_index calls i c hc
    obtain ⟨r, hri, hexec⟩ := hpt i c hc
    obtain ⟨r2, hexec2, hty, hcid, hfail⟩ :=
      execute_tool_call_record jsonLoads reg c (hargs c hmem)
    have hr2 : r2 = r := by
      rw [hexec] at hexec2
      injection hexec2 with h0
      exact h0.symm
    subst hr2
    refine ⟨r2, hri, hty, hcid, hfail, ?_⟩
    intro hname
    obtain ⟨r3, hr3i, hexec3⟩ := hpt2 i c hc
    have hcong := execute_tool_call_congr jsonLoads reg reg2 t c hag hname
    have hr3 : r3 = r2 := by
      rw [hcong] at hexec
      rw [hexec] at hexec3
      injection hexec3 with h0
      exact h0.symm
    subst hr3
    exact hr3i
  · intro jsonLoads tools calls htask hcid
    have hg : ∀ x ∈ calls.map (make_task jsonLoads tools), ∃ v, x = Except.ok v := by
      intro x hx
      simp only [List.mem_map] at hx
      obtain ⟨c, hcmem, rfl⟩ := hx
      exact htask c hcmem
    obtain ⟨vs, hvs, hvlen⟩ := gatherAll_ok _ hg
    obtain ⟨rs, hrs, hlen, hpt⟩ := zipRecords_pointwise calls vs hcid (by simpa using hvlen)
    refine ⟨rs, ?_, hlen, hpt⟩
    unfold execute_function_calls
    rw [hvs]
    exact hrs

/-- Witness for the amended C2 at the fixture inputs. -/
theorem tool_batch_isolation_amended_witness :
    (∀ c ∈ cexCalls, StrArgs c = true)
    ∧ (∃ rs rs2, run_function_calls cexJsonLoads cexCalls cexRegistry = Except.ok rs
        ∧ run_function_calls cexJsonLoads cexCalls cexRegistryPatched = Except.ok rs2
        ∧ rs.length = cexCalls.length
        ∧ ∀ (i : Nat) (c : Json), cexCalls[i]? = some c →
            ∃ r, rs[i]? = some r
              ∧ jget r "type" = some (Json.str "function_call_output")
              ∧ jget r "call_id" = some (callIdOf c)
              ∧ (∀ (f : Json → Except String Json) (m : String)
                   (args : List (String × Json)),
                  cexRegistry (callName c) = some (PyCallable.fn f) →
                  parse_call_arguments cexJsonLoads c = Except.ok args →
                  f (Json.obj args) = Except.error m →
                  jget r "output" = some (Json.str ("Tool execution failed: " ++ m)))
              ∧ (¬callName c = "boom" → rs2[i]? = some r))
    ∧ (∃ rs, execute_function_calls cexJsonLoads cexTools [cexCalls.headD Json.null]
          = Except.ok rs
        ∧ rs.length = [cexCalls.headD Json.null].length
        ∧ ∀ (i : Nat) (c : Json), [cexCalls.headD Json.null][i]? = some c →
            ∃ r, rs[i]? = some r
              ∧ jget r "type" = some (Json.str "function_call_output")) := by
  refine ⟨?_, ?_, ?_⟩
  · intro c hcm
    simp [cexCalls] at hcm
    rcases hcm with rfl | rfl <;> rfl
  · exact tool_batch_isolation_amended.1 cexJsonLoads cexCalls cexRegistry
      cexRegistryPatched "boom"
      (by
        intro c hcm
        simp [cexCalls] at hcm
        rcases hcm with rfl | rfl <;> rfl)
      (by
        intro n hn
        simp [cexRegistryPatched, hn])
  · exact tool_batch_isolation_amended.2 cexJsonLoads cexTools [cexCalls.headD Json.null]
      (by
        intro c hcm
        simp at hcm
        subst hcm
        exact ⟨Json.str "fine", rfl⟩)
      (by
        intro c hcm
        simp at hcm
        subst hcm
        rfl)

theorem lookupKey_of_mem_nodup (kvs : List (String × Json)) (k : String) (v : Json)
    (hnd : nodupStr (keysOf kvs) = true) (hm : (k, v) ∈ kvs) : lookupKey kvs k = some v := by
  induction kvs with
  | nil => simp at hm
  | cons kv rest ih =>
      obtain ⟨k1, v1⟩ := kv
      have hnd2 : (keysOf rest).contains k1 = false ∧ nodupStr (keysOf rest) = true := by
        simp [keysOf, nodupStr, List.contains] at hnd ⊢
        exact hnd
      rcases List.mem_cons.mp hm with h | h
      · injection h with h1 h2
        subst h1
        subst h2
        simp [lookupKey]
      · have hk : ¬k1 = k := by
          intro he
          subst he
          have : k1 ∈ keysOf rest := by
            simp [keysOf]
            exact ⟨v, h⟩
          have hc : (keysOf rest).contains k1 = true := by
            simp [List.contains]
            exact this
          rw [hnd2.1] at hc
          simp at hc
        simp [lookupKey, hk]
        exact ih hnd2.2 h

theorem mem_of_lookupKey (kvs : List (String × Json)) (k : String) (v : Json)
    (h : lookupKey kvs k = some v) : (k, v) ∈ kvs := by
  induction kvs with
  | nil => simp [lookupKey] at h
  | cons kv rest ih =>
      obtain ⟨k1, v1⟩ := kv
      by_cases hk : k1 = k
      · subst hk
        simp [lookupKey] at h
        simp [h]
      · simp [lookupKey, hk] at h
        simp [ih h]

theorem isSome_of_contains (kvs : List (String × Json)) (k : String)
    (h : (keysOf kvs).contains k = true) : (lookupKey kvs k).isSome = true := by
  induction kvs with
  | nil => simp [keysOf, List.contains] at h
  | cons kv rest ih =>
      obtain ⟨k1, v1⟩ := kv
      by_cases hk : k1 = k
      · subst hk
        simp [lookupKey]
      · simp [keysOf, List.contains] at h
        rcases h with h | h
        · exact absurd h.symm hk
        · simp [lookupKey, hk]
          have := ih (by simp [keysOf, List.contains]; exact h)
          simpa using this

theorem contains_of_isSome (kvs : List (String × Json)) (k : String)
    (h : (lookupKey kvs k).isSome = true) : (keysOf kvs).contains k = true := by
  by_contra hc
  simp at hc
  have hb : (keysOf kvs).contains k = false := by
    cases hcc : (keysOf kvs).contains k
    · rfl
    · exact absurd (by simpa [List.contains] using hcc) hc
  rw [lookupKey_eq_none_of_not_contains kvs k hb] at h
  simp at h

theorem usage_lookup_shape (kvs : List (String × Json)) (k : String) (v : Json)
    (hu : usageEntries kvs = true) (h : lookupKey kvs k = some v) :
    (∃ m, v = Json.num m)
    ∨ (∃ o, v = Json.obj o ∧ nodupStr (keysOf o) = true ∧ usageEntries o = true) := by
  induction kvs with
  | nil => simp [lookupKey] at h
  | cons kv rest ih =>
      obtain ⟨k1, v1⟩ := kv
      by_cases hk : k1 = k
      · subst hk
        simp [lookupKey] at h
        subst h
        cases v1 with
        | num m => exact Or.inl ⟨m, rfl⟩
        | obj o =>
            simp [usageEntries] at hu
            exact Or.inr ⟨o, rfl, hu.1.1, hu.1.2⟩
        | null => simp [usageEntries] at hu
        | bool b => simp [usageEntries] at hu
        | str sv => simp [usageEntries] at hu
        | arr xs => simp [usageEntries] at hu
      · simp [lookupKey, hk] at h
        have hu2 : usageEntries rest = true := by
          cases v1 with
          | num m => simpa [usageEntries] using hu
          | obj o => simp [usageEntries] at hu; exact hu.2
          | null => simp [usageEntries] at hu
          | bool b => simp [usageEntries] at hu
          | str sv => simp [usageEntries] at hu
          | arr xs => simp [usageEntries] at hu
        exact ih hu2 h

theorem setKey_append_of_none (kvs : List (String × Json)) (k : String) (v : Json)
    (h : lookupKey kvs k = none) : setKey kvs k v = kvs ++ [(k, v)] := by
  induction kvs with
  | nil => simp [setKey]
  | cons kv rest ih =>
      obtain ⟨k1, v1⟩ := kv
      by_cases hk : k1 = k
      · subst hk
        simp [lookupKey] at h
      · simp [lookupKey, hk] at h
        simp [setKey, hk, ih h]

theorem lookupKey_append (a b : List (String × Json)) (k : String) :
    lookupKey (a ++ b) k =
      match lookupKey a k with
      | some v => some v
      | none => lookupKey b k := by
  induction a with
  | nil => simp [lookupKey]
  | cons kv rest ih =>
      obtain ⟨k1, v1⟩ := kv
      by_cases hk : k1 = k
      · subst hk
        simp [lookupKey]
      · simp [lookupKey, hk, ih]

theorem merge_usage_kv_disjoint (u : List (String × Json)) :
    ∀ (t : List (String × Json)),
      nodupStr (keysOf u) = true →
      (∀ k, (keysOf u).contains k = true → lookupKey t k = none) →
      merge_usage_kv t u = t ++ merge_usage_kv [] u := by
  induction u with
  | nil => intro t _ _; simp [merge_usage_kv]
  | cons kv rest ih =>
      obtain ⟨k0, v0⟩ := kv
      intro t hnd hdisj
      have hk0 : (keysOf ((k0, v0) :: rest)).contains k0 = true := by
        simp [keysOf, List.contains]
      have ht0 : lookupKey t k0 = none := hdisj k0 hk0
      have hnd2 : (keysOf rest).contains k0 = false ∧ nodupStr (keysOf rest) = true := by
        simp [keysOf, nodupStr, List.contains] at hnd ⊢
        exact hnd
      have hrest : ∀ k, (keysOf rest).contains k = true → lookupKey t k = none := by
        intro k hkr
        apply hdisj
        simp [keysOf, List.contains] at hkr ⊢
        exact Or.inr hkr
      have hne : ∀ k, (keysOf rest).contains k = true → ¬k0 = k := by
        intro k hkr he
        subst he
        rw [hnd2.1] at hkr
        simp at hkr
      cases v0 with
      | num n =>
          simp only [merge_usage_kv, mergeEntry]
          have hg : getNumOr t k0 = getNumOr [] k0 := by
            unfold getNumOr
            rw [ht0]
            simp [lookupKey]
          rw [hg]
          rw [setKey_append_of_none t k0 _ ht0,
            setKey_append_of_none [] k0 _ (by simp [lookupKey])]
          have hd2 : ∀ k, (keysOf rest).contains k = true →
              lookupKey [(k0, Json.num (getNumOr [] k0 + n))] k = none := by
            intro k hkr
            have hne2 : ¬k0 = k := hne k hkr
            simp [lookupKey, hne2]
          have hd1 : ∀ k, (keysOf rest).contains k = true →
              lookupKey (t ++ [(k0, Json.num (getNumOr [] k0 + n))]) k = none := by
            intro k hkr
            rw [lookupKey_append, hrest k hkr]
            exact hd2 k hkr
          have h1 := ih (t ++ [(k0, Json.num (getNumOr [] k0 + n))]) hnd2.2 hd1
          have h2 := ih [(k0, Json.num (getNumOr [] k0 + n))] hnd2.2 hd2
          rw [h1]
          simp only [List.nil_append]
          rw [h2]
          simp
      | bool b =>
          simp only [merge_usage_kv, mergeEntry]
          have hg : getNumOr t k0 = getNumOr [] k0 := by
            unfold getNumOr
            rw [ht0]
            simp [lookupKey]
          rw [hg]
          rw [setKey_append_of_none t k0 _ ht0,
            setKey_append_of_none [] k0 _ (by simp [lookupKey])]
          have hd2 : ∀ k, (keysOf rest).contains k = true →
              lookupKey [(k0, Json.num (getNumOr [] k0 + boolInt b))] k = none := by
            intro k hkr
            have hne2 : ¬k0 = k := hne k hkr
            simp [lookupKey, hne2]
          have hd1 : ∀ k, (keysOf rest).contains k = true →
              lookupKey (t ++ [(k0, Json.num (getNumOr [] k0 + boolInt b))]) k = none := by
            intro k hkr
            rw [lookupKey_append, hrest k hkr]
            exact hd2 k hkr
          have h1 := ih (t ++ [(k0, Json.num (getNumOr [] k0 + boolInt b))]) hnd2.2 hd1
          have h2 := ih [(k0, Json.num (getNumOr [] k0 + boolInt b))] hnd2.2 hd2
          rw [h1]
          simp only [List.nil_append]
          rw [h2]
          simp
      | null =>
          simp only [merge_usage_kv, mergeEntry]
          rw [ih t hnd2.2 hrest]
      | str sv =>
          simp only [merge_usage_kv, mergeEntry]
          rw [setKey_append_of_none t k0 _ ht0,
            setKey_append_of_none [] k0 _ (by simp [lookupKey])]
          have hd2 : ∀ k, (keysOf rest).contains k = true →
              lookupKey [(k0, Json.str sv)] k = none := by
            intro k hkr
            have hne2 : ¬k0 = k := hne k hkr
            simp [lookupKey, hne2]
          have hd1 : ∀ k, (keysOf rest).contains k = true →
              lookupKey (t ++ [(k0, Json.str sv)]) k = none := by
            intro k hkr
            rw [lookupKey_append, hrest k hkr]
            exact hd2 k hkr
          have h1 := ih (t ++ [(k0, Json.str sv)]) hnd2.2 hd1
          have h2 := ih [(k0, Json.str sv)] hnd2.2 hd2
          rw [h1]
          simp only [List.nil_append]
          rw [h2]
          simp
      | arr xs =>
          simp only [merge_usage_kv, mergeEntry]
          rw [setKey_append_of_none t k0 _ ht0,
            setKey_append_of_none [] k0 _ (by simp [lookupKey])]
          have hd2 : ∀ k, (keysOf rest).contains k = true →
              lookupKey [(k0, Json.arr xs)] k = none := by
            intro k hkr
            have hne2 : ¬k0 = k := hne k hkr
            simp [lookupKey, hne2]
          have hd1 : ∀ k, (keysOf rest).contains k = true →
              lookupKey (t ++ [(k0, Json.arr xs)]) k = none := by
            intro k hkr
            rw [lookupKey_append, hrest k hkr]
            exact hd2 k hkr
          have h1 := ih (t ++ [(k0, Json.arr xs)]) hnd2.2 hd1
          have h2 := ih [(k0, Json.arr xs)] hnd2.2 hd2
          rw [h1]
          simp only [List.nil_append]
          rw [h2]
          simp
      | obj nv =>
          simp only [merge_usage_kv, mergeEntry]
          have hgo : getObjOr t k0 = getObjOr [] k0 := by
            unfold getObjOr
            rw [ht0]
            simp [lookupKey]
          rw [hgo]
          rw [setKey_append_of_none t k0 _ ht0,
            setKey_append_of_none [] k0 _ (by simp [lookupKey])]
          have hd2 : ∀ k, (keysOf rest).contains k = true →
              lookupKey [(k0, Json.obj (merge_usage_kv (getObjOr [] k0) nv))] k = none := by
            intro k hkr
            have hne2 : ¬k0 = k := hne k hkr
            simp [lookupKey, hne2]
          have hd1 : ∀ k, (keysOf rest).contains k = true →
              lookupKey (t ++ [(k0, Json.obj (merge_usage_kv (getObjOr [] k0) nv))]) k = none := by
            intro k hkr
            rw [lookupKey_append, hrest k hkr]
            exact hd2 k hkr
          have h1 := ih (t ++ [(k0, Json.obj (merge_usage_kv (getObjOr [] k0) nv))]) hnd2.2 hd1
          have h2 := ih [(k0, Json.obj (merge_usage_kv (getObjOr [] k0) nv))] hnd2.2 hd2
          rw [h1]
          simp only [List.nil_append]
          rw [h2]
          simp

theorem merge_usage_kv_nil_bounded :
    ∀ (n : Nat) (u : List (String × Json)), sizeOf u ≤ n →
      nodupStr (keysOf u) = true → usageEntries u = true →
      merge_usage_kv [] u = u := by
  intro n
  induction n using Nat.strong_induction_on with
  | _ n ih =>
      intro u hsz hnd hu
      cases u with
      | nil => simp [merge_usage_kv]
      | cons kv rest =>
          obtain ⟨k0, v0⟩ := kv
          have hnd2 : (keysOf rest).contains k0 = false ∧ nodupStr (keysOf rest) = true := by
            simp [keysOf, nodupStr, List.contains] at hnd ⊢
            exact hnd
          have hne : ∀ k, (keysOf rest).contains k = true → ¬k0 = k := by
            intro k hkr he
            subst he
            rw [hnd2.1] at hkr
            simp at hkr
          have hszrest : sizeOf rest < sizeOf ((k0, v0) :: rest) := by
            simp
            try omega
          have hrest : merge_usage_kv [] rest = rest := by
            rcases Nat.lt_or_ge 0 n with hn | hn
            · apply ih (n - 1) (by omega) rest (by omega) hnd2.2
              cases v0 with
              | num m => simpa [usageEntries] using hu
              | obj o => simp [usageEntries] at hu; exact hu.2
              | null => simp [usageEntries] at hu
              | bool b => simp [usageEntries] at hu
              | str sv => simp [usageEntries] at hu
              | arr xs => simp [usageEntries] at hu
            · omega
          have hdisj : ∀ k, (keysOf rest).contains k = true →
              lookupKey [(k0, v0)] k = none := by
            intro k hkr
            have := hne k hkr
            simp [lookupKey, this]
          cases v0 with
          | num m =>
              simp only [merge_usage_kv, mergeEntry]
              have hg : getNumOr [] k0 = 0 := by simp [getNumOr, lookupKey]
              rw [hg]
              have hset : setKey ([] : List (String × Json)) k0 (Json.num (0 + m))
                  = [(k0, Json.num m)] := by
                simp [setKey]
              rw [hset]
              rw [merge_usage_kv_disjoint rest [(k0, Json.num m)] hnd2.2 hdisj]
              rw [hrest]
              simp
          | obj o =>
              simp only [merge_usage_kv, mergeEntry]
              have hgo : getObjOr [] k0 = [] := by simp [getObjOr, lookupKey]
              rw [hgo]
              have ho : merge_usage_kv [] o = o := by
                have hszo : sizeOf o < sizeOf ((k0, Json.obj o) :: rest) := by
                  simp
                  try omega
                simp [usageEntries] at hu
                rcases Nat.lt_or_ge 0 n with hn | hn
                · exact ih (n - 1) (by omega) o (by omega) hu.1.1 hu.1.2
                · omega
              rw [ho]
              have hdisj2 : ∀ k, (keysOf rest).contains k = true →
                  lookupKey [(k0, Json.obj o)] k = none := by
                intro k hkr
                have := hne k hkr
                simp [lookupKey, this]
              have hset : setKey ([] : List (String × Json)) k0 (Json.obj o)
                  = [(k0, Json.obj o)] := by
                simp [setKey]
              rw [hset]
              rw [merge_usage_kv_disjoint rest [(k0, Json.obj o)] hnd2.2 hdisj2]
              rw [hrest]
              simp
          | null => simp [usageEntries] at hu
          | bool b => simp [usageEntries] at hu
          | str sv => simp [usageEntries] at hu
          | arr xs => simp [usageEntries] at hu

theorem merge_usage_kv_nil (u : List (String × Json))
    (hnd : nodupStr (keysOf u) = true) (hu : usageEntries u = true) :
    merge_usage_kv [] u = u :=
  merge_usage_kv_nil_bounded (sizeOf u) u (Nat.le_refl _) hnd hu

theorem contains_keysOf_setKey (kvs : List (String × Json)) (k x : String) (v : Json) :
    (keysOf (setKey kvs k v)).contains x = ((keysOf kvs).contains x || x == k) := by
  induction kvs with
  | nil =>
      simp [setKey, keysOf, List.contains]
      by_cases hx : x = k <;> simp [hx]
  | cons kv rest ih =>
      obtain ⟨k1, v1⟩ := kv
      by_cases hk : k1 = k
      · subst hk
        simp [setKey, keysOf, List.contains]
        by_cases hx : x = k1
        · simp [hx]
        · simp [hx]
      · simp [setKey, hk, keysOf, List.contains] at ih ⊢
        by_cases hx : x = k1
        · simp [hx]
        · simp [hx, ih, Bool.or_assoc]

theorem nodup_setKey (kvs : List (String × Json)) (k : String) (v : Json)
    (h : nodupStr (keysOf kvs) = true) : nodupStr (keysOf (setKey kvs k v)) = true := by
  induction kvs with
  | nil => simp [setKey, keysOf, nodupStr, List.contains]
  | cons kv rest ih =>
      obtain ⟨k1, v1⟩ := kv
      have h12 : (keysOf rest).contains k1 = false ∧ nodupStr (keysOf rest) = true := by
        simp [keysOf, nodupStr, List.contains] at h ⊢
        exact h
      by_cases hk : k1 = k
      · subst hk
        simp [setKey, keysOf, nodupStr, List.contains] at h ⊢
        exact h
      · have hrec := ih h12.2
        have hc : (keysOf (setKey rest k v)).contains k1 = false := by
          rw [contains_keysOf_setKey]
          have hbk : (k1 == k) = false := by
            by_cases hkk : k1 = k
            · exact absurd hkk hk
            · simp [hkk]
          rw [h12.1, hbk]
          rfl
        have hkeys : keysOf (setKey ((k1, v1) :: rest) k v) = k1 :: keysOf (setKey rest k v) := by
          simp [setKey, hk, keysOf]
        rw [hkeys]
        simp [nodupStr, List.contains] at hc ⊢
        constructor
        · exact hc
        · exact hrec

theorem nodup_merge_usage_kv (u : List (String × Json)) :
    ∀ t, nodupStr (keysOf t) = true → nodupStr (keysOf (merge_usage_kv t u)) = true := by
  induction u with
  | nil => intro t ht; simpa [merge_usage_kv] using ht
  | cons kv rest ih =>
      obtain ⟨k0, v0⟩ := kv
      intro t ht
      have hstep : ∀ x, nodupStr (keysOf (setKey t k0 x)) = true := fun x => nodup_setKey t k0 x ht
      cases v0 with
      | num m =>
          simp only [merge_usage_kv, mergeEntry]
          exact ih _ (hstep _)
      | bool b =>
          simp only [merge_usage_kv, mergeEntry]
          exact ih _ (hstep _)
      | obj nv =>
          simp only [merge_usage_kv, mergeEntry]
          exact ih _ (hstep _)
      | null =>
          simp only [merge_usage_kv, mergeEntry]
          exact ih _ ht
      | str sv =>
          simp only [merge_usage_kv, mergeEntry]
          exact ih _ (hstep _)
      | arr xs =>
          simp only [merge_usage_kv, mergeEntry]
          exact ih _ (hstep _)

theorem keysIncluded_of_isSome (b a : List (String × Json))
    (h : ∀ k, (keysOf b).contains k = true → (lookupKey a k).isSome = true) :
    keysIncluded b a = true := by
  induction b with
  | nil => simp [keysIncluded]
  | cons kv rest ih =>
      obtain ⟨k1, v1⟩ := kv
      have h1 : (lookupKey a k1).isSome = true := h k1 (by simp [keysOf, List.contains])
      have h2 : keysIncluded rest a = true := by
        apply ih
        intro k hk
        apply h
        simp [keysOf, List.contains] at hk ⊢
        exact Or.inr hk
      simp [keysIncluded, h1, h2]

theorem subsetKV_of_pointwise (a b : List (String × Json))
    (hnd : nodupStr (keysOf a) = true)
    (h : ∀ k, (keysOf a).contains k = true →
      optJsonEqv (lookupKey a k) (lookupKey b k) = true) :
    subsetKV a b = true := by
  induction a with
  | nil => simp [subsetKV]
  | cons kv rest ih =>
      obtain ⟨k1, v1⟩ := kv
      have hnd2 : (keysOf rest).contains k1 = false ∧ nodupStr (keysOf rest) = true := by
        simp [keysOf, nodupStr, List.contains] at hnd ⊢
        exact hnd
      have hhead := h k1 (by simp [keysOf, List.contains])
      have hlk : lookupKey ((k1, v1) :: rest) k1 = some v1 := by simp [lookupKey]
      rw [hlk] at hhead
      have hb : ∃ w, lookupKey b k1 = some w ∧ jsonEqv v1 w = true := by
        cases hbk : lookupKey b k1 with
        | none => rw [hbk] at hhead; simp [optJsonEqv] at hhead
        | some w => rw [hbk] at hhead; exact ⟨w, rfl, by simpa [optJsonEqv] using hhead⟩
      obtain ⟨w, hw, he⟩ := hb
      have hrest : subsetKV rest b = true := by
        apply ih hnd2.2
        intro k hk
        have hne : ¬k1 = k := by
          intro hcon
          subst hcon
          rw [hnd2.1] at hk
          simp at hk
        have := h k (by simp [keysOf, List.contains] at hk ⊢; exact Or.inr hk)
        rwa [show lookupKey ((k1, v1) :: rest) k = lookupKey rest k by simp [lookupKey, hne]]
          at this
      simp [subsetKV, hw, he, hrest]

theorem json_beq_def (x y : Json) : (x == y) = jsonBeq x y := rfl

theorem jsonEqv_refl_usage_bounded :
    ∀ (n : Nat) (a : List (String × Json)), sizeOf a ≤ n →
      nodupStr (keysOf a) = true → usageEntries a = true →
      jsonEqv (Json.obj a) (Json.obj a) = true := by
  intro n
  induction n using Nat.strong_induction_on with
  | _ n ih =>
      intro a hsz hnd hu
      have hki : keysIncluded a a = true := by
        apply keysIncluded_of_isSome
        intro k hk
        exact isSome_of_contains a k hk
      have hsub : subsetKV a a = true := by
        apply subsetKV_of_pointwise a a hnd
        intro k hk
        obtain ⟨v, hv⟩ := Option.isSome_iff_exists.mp (isSome_of_contains a k hk)
        rw [hv]
        show jsonEqv v v = true
        rcases usage_lookup_shape a k v hu hv with ⟨m, rfl⟩ | ⟨o, rfl, hnd2, hu2⟩
        · simp [jsonEqv, json_beq_def, jsonBeq]
        · have hmem := mem_of_lookupKey a k (Json.obj o) hv
          have hszo : sizeOf o < sizeOf a := by
            have h1 := List.sizeOf_lt_of_mem hmem
            simp at h1
            omega
          rcases Nat.lt_or_ge 0 n with hn | hn
          · exact ih (n - 1) (by omega) o (by omega) hnd2 hu2
          · omega
      simp [jsonEqv, hsub, hki]

theorem jsonEqv_refl_usage (a : List (String × Json))
    (hnd : nodupStr (keysOf a) = true) (hu : usageEntries a = true) :
    jsonEqv (Json.obj a) (Json.obj a) = true :=
  jsonEqv_refl_usage_bounded (sizeOf a) a (Nat.le_refl _) hnd hu

theorem compat_lookup_cases (a : List (String × Json)) :
    ∀ (b : List (String × Json)) (k : String) (v w : Json),
      compatKV a b = true → lookupKey a k = some v → lookupKey b k = some w →
      (∃ m1 m2, v = Json.num m1 ∧ w = Json.num m2)
      ∨ (∃ o1 o2, v = Json.obj o1 ∧ w = Json.obj o2 ∧ compatKV o1 o2 = true) := by
  induction a with
  | nil => intro b k v w _ ha; simp [lookupKey] at ha
  | cons kv rest ih =>
      obtain ⟨k1, v1⟩ := kv
      intro b k v w hc ha hb
      have hc2 : compatKV rest b = true := by
        unfold compatKV at hc
        simp only [Bool.and_eq_true] at hc
        exact hc.2
      by_cases hk : k1 = k
      · subst hk
        simp [lookupKey] at ha
        subst ha
        unfold compatKV at hc
        simp only [Bool.and_eq_true] at hc
        replace hc := hc.1
        rw [hb] at hc
        cases w with
        | num m2 =>
            cases v1 with
            | num m1 => exact Or.inl ⟨m1, m2, rfl, rfl⟩
            | null => simp at hc
            | bool b0 => simp at hc
            | str s0 => simp at hc
            | arr x0 => simp at hc
            | obj o0 => simp at hc
        | obj o2 =>
            cases v1 with
            | obj o1 => exact Or.inr ⟨o1, o2, rfl, rfl, hc⟩
            | null => simp at hc
            | bool b0 => simp at hc
            | str s0 => simp at hc
            | arr x0 => simp at hc
            | num m1 => simp at hc
        | null => simp at hc
        | bool b0 => simp at hc
        | str s0 => simp at hc
        | arr x0 => simp at hc
      · simp [lookupKey, hk] at ha
        exact ih b k v w hc2 ha hb

theorem merge_lookup_none (t u : List (String × Json)) (k : String)
    (hnd : nodupStr (keysOf u) = true) (h : lookupKey u k = none) :
    lookupKey (merge_usage_kv t u) k = lookupKey t k := by
  have L := merge_usage_kv_lookup t u k hnd
  rw [h] at L
  simpa using L

theorem merge_lookup_num (t u : List (String × Json)) (k : String) (m : Int)
    (hnd : nodupStr (keysOf u) = true) (h : lookupKey u k = some (Json.num m)) :
    lookupKey (merge_usage_kv t u) k = some (Json.num (getNumOr t k + m)) := by
  have L := merge_usage_kv_lookup t u k hnd
  rw [h] at L
  simpa using L

theorem merge_lookup_obj (t u : List (String × Json)) (k : String)
    (o : List (String × Json))
    (hnd : nodupStr (keysOf u) = true) (h : lookupKey u k = some (Json.obj o)) :
    lookupKey (merge_usage_kv t u) k
      = some (Json.obj (merge_usage_kv (getObjOr t k) o)) := by
  have L := merge_usage_kv_lookup t u k hnd
  rw [h] at L
  simpa using L

theorem optJsonEqv_some (x y : Json) : optJsonEqv (some x) (some y) = jsonEqv x y := rfl

theorem merge_usage_kv_comm_bounded :
    ∀ (n : Nat) (a b : List (String × Json)),
      sizeOf a + sizeOf b ≤ n →
      nodupStr (keysOf a) = true → usageEntries a = true →
      nodupStr (keysOf b) = true → usageEntries b = true →
      compatKV a b = true →
      jsonEqv (Json.obj (merge_usage_kv a b)) (Json.obj (merge_usage_kv b a)) = true := by
  intro n
  induction n using Nat.strong_induction_on with
  | _ n ih =>
      intro a b hsz hnda hua hndb hub hc
      have master : ∀ k, optJsonEqv (lookupKey (merge_usage_kv a b) k)
          (lookupKey (merge_usage_kv b a) k) = true := by
        intro k
        cases hak : lookupKey a k with
        | none =>
            cases hbk : lookupKey b k with
            | none =>
                rw [merge_lookup_none a b k hndb hbk, merge_lookup_none b a k hnda hak,
                  hak, hbk]
                rfl
            | some w =>
                rcases usage_lookup_shape b k w hub hbk with ⟨m, rfl⟩ | ⟨o, rfl, hndo, huo⟩
                · rw [merge_lookup_num a b k m hndb hbk,
                    merge_lookup_none b a k hnda hak, hbk]
                  have hg : getNumOr a k = 0 := by unfold getNumOr; rw [hak]
                  rw [hg, optJsonEqv_some]
                  simp [jsonEqv, json_beq_def, jsonBeq]
                · rw [merge_lookup_obj a b k o hndb hbk,
                    merge_lookup_none b a k hnda hak, hbk]
                  have hg : getObjOr a k = [] := by unfold getObjOr; rw [hak]
                  rw [hg, merge_usage_kv_nil o hndo huo, optJsonEqv_some]
                  exact jsonEqv_refl_usage o hndo huo
        | some v =>
            cases hbk : lookupKey b k with
            | none =>
                rcases usage_lookup_shape a k v hua hak with ⟨m, rfl⟩ | ⟨o, rfl, hndo, huo⟩
                · rw [merge_lookup_none a b k hndb hbk,
                    merge_lookup_num b a k m hnda hak, hak]
                  have hg : getNumOr b k = 0 := by unfold getNumOr; rw [hbk]
                  rw [hg, optJsonEqv_some]
                  simp [jsonEqv, json_beq_def, jsonBeq]
                · rw [merge_lookup_none a b k hndb hbk,
                    merge_lookup_obj b a k o hnda hak, hak]
                  have hg : getObjOr b k = [] := by unfold getObjOr; rw [hbk]
                  rw [hg, merge_usage_kv_nil o hndo huo, optJsonEqv_some]
                  exact jsonEqv_refl_usage o hndo huo
            | some w =>
                rcases compat_lookup_cases a b k v w hc hak hbk with
                  ⟨m1, m2, rfl, rfl⟩ | ⟨o1, o2, rfl, rfl, hco⟩
                · rw [merge_lookup_num a b k m2 hndb hbk,
                    merge_lookup_num b a k m1 hnda hak]
                  have hg1 : getNumOr a k = m1 := by unfold getNumOr; rw [hak]
                  have hg2 : getNumOr b k = m2 := by unfold getNumOr; rw [hbk]
                  rw [hg1, hg2, optJsonEqv_some]
                  simp [jsonEqv, json_beq_def, jsonBeq, Int.add_comm]
                · rw [merge_lookup_obj a b k o2 hndb hbk,
                    merge_lookup_obj b a k o1 hnda hak]
                  have hg1 : getObjOr a k = o1 := by unfold getObjOr; rw [hak]
                  have hg2 : getObjOr b k = o2 := by unfold getObjOr; rw [hbk]
                  rw [hg1, hg2, optJsonEqv_some]
                  rcases usage_lookup_shape a k (Json.obj o1) hua hak with ⟨m, hmo⟩ |
                    ⟨o, hoo, hndo1, huo1⟩
                  · exact absurd hmo (by simp)
                  · injection hoo with hoo2
                    subst hoo2
                    rcases usage_lookup_shape b k (Json.obj o2) hub hbk with ⟨m, hmo⟩ |
                      ⟨o, hoo, hndo2, huo2⟩
                    · exact absurd hmo (by simp)
                    · injection hoo with hoo3
                      subst hoo3
                      have hsz1 : sizeOf o1 < sizeOf a := by
                        have h1 := List.sizeOf_lt_of_mem (mem_of_lookupKey a k _ hak)
                        simp at h1
                        omega
                      have hsz2 : sizeOf o2 < sizeOf b := by
                        have h1 := List.sizeOf_lt_of_mem (mem_of_lookupKey b k _ hbk)
                        simp at h1
                        omega
                      exact ih (sizeOf o1 + sizeOf o2) (by omega) o1 o2 (Nat.le_refl _)
                        hndo1 huo1 hndo2 huo2 hco
      have hndM1 : nodupStr (keysOf (merge_usage_kv a b)) = true :=
        nodup_merge_usage_kv b a hnda
      have hndM2 : nodupStr (keysOf (merge_usage_kv b a)) = true :=
        nodup_merge_usage_kv a b hndb
      have hsub : subsetKV (merge_usage_kv a b) (merge_usage_kv b a) = true := by
        apply subsetKV_of_pointwise _ _ hndM1
        intro k _
        exact master k
      have hki : keysIncluded (merge_usage_kv b a) (merge_usage_kv a b) = true := by
        apply keysIncluded_of_isSome
        intro k hk
        have h2 := isSome_of_contains _ k hk
        have hm := master k
        cases h1 : lookupKey (merge_usage_kv a b) k with
        | some v => simp
        | none =>
            rw [h1] at hm
            obtain ⟨w, hw⟩ := Option.isSome_iff_exists.mp h2
            rw [hw] at hm
            simp [optJsonEqv] at hm
      simp [jsonEqv, hsub, hki]

/-- C7: for every two usage maps A and B whose leaves are all numeric
(arbitrarily nested dicts of numbers, with matching shapes where keys
coincide), merging A then B with `merge_usage_stats` yields the same numeric
totals as merging B then A (equality of the resulting dicts as finite maps). -/
theorem merge_usage_stats_commutative (a b : List (String × Json))
    (ha : isUsageMap (Json.obj a) = true) (hb : isUsageMap (Json.obj b) = true)
    (hc : compatKV a b = true) :
    jsonEqv (merge_usage_stats (Json.obj a) (Json.obj b))
      (merge_usage_stats (Json.obj b) (Json.obj a)) = true := by
  unfold isUsageMap at ha hb
  simp only [Bool.and_eq_true] at ha hb
  show jsonEqv (Json.obj (merge_usage_kv a b)) (Json.obj (merge_usage_kv b a)) = true
  exact merge_usage_kv_comm_bounded (sizeOf a + sizeOf b) a b (Nat.le_refl _)
    ha.1 ha.2 hb.1 hb.2 hc

theorem merge_usage_stats_commutative_witness :
    jsonEqv
      (merge_usage_stats
        (Json.obj [("input_tokens", Json.num 3),
          ("nested", Json.obj [("x", Json.num 1)])])
        (Json.obj [("input_tokens", Json.num 2), ("output_tokens", Json.num 5),
          ("nested", Json.obj [("x", Json.num 4)])]))
      (merge_usage_stats
        (Json.obj [("input_tokens", Json.num 2), ("output_tokens", Json.num 5),
          ("nested", Json.obj [("x", Json.num 4)])])
        (Json.obj [("input_tokens", Json.num 3),
          ("nested", Json.obj [("x", Json.num 1)])])) = true :=
  merge_usage_stats_commutative
    [("input_tokens", Json.num 3), ("nested", Json.obj [("x", Json.num 1)])]
    [("input_tokens", Json.num 2), ("output_tokens", Json.num 5),
      ("nested", Json.obj [("x", Json.num 4)])]
    (by simp [isUsageMap, usageEntries, nodupStr, keysOf])
    (by simp [isUsageMap, usageEntries, nodupStr, keysOf])
    (by simp [compatKV, lookupKey])

theorem takeWhile_all (p : Char → Bool) :
    ∀ (t : List Char), (∀ c ∈ t, p c = true) → t.takeWhile p = t := by
  intro t ht
  exact List.takeWhile_eq_self_iff.mpr ht

theorem dropWhile_all (p : Char → Bool) :
    ∀ (t : List Char), (∀ c ∈ t, p c = true) → t.dropWhile p = [] := by
  intro t ht
  exact List.dropWhile_eq_nil_iff.mpr ht

theorem takeWhile_middle (p : Char → Bool) :
    ∀ (t : List Char) (d : Char) (r : List Char), (∀ c ∈ t, p c = true) →
      p d = false → (t ++ d :: r).takeWhile p = t := by
  intro t d r ht hd
  induction t with
  | nil => simp [List.takeWhile, hd]
  | cons c t ih =>
      have hc := ht c (List.mem_cons_self c t)
      simp only [List.cons_append, List.takeWhile, hc]
      rw [show t.append (d :: r) = t ++ d :: r from rfl,
        ih (fun x hx => ht x (List.mem_cons_of_mem c hx))]

theorem dropWhile_middle (p : Char → Bool) :
    ∀ (t : List Char) (d : Char) (r : List Char), (∀ c ∈ t, p c = true) →
      p d = false → (t ++ d :: r).dropWhile p = d :: r := by
  intro t d r ht hd
  induction t with
  | nil => simp [List.dropWhile, hd]
  | cons c t ih =>
      have hc := ht c (List.mem_cons_self c t)
      simp only [List.cons_append, List.dropWhile, hc]
      exact ih (fun x hx => ht x (List.mem_cons_of_mem c hx))

theorem isPrefixOf_append_self :
    ∀ (l m : List Char), l.isPrefixOf (l ++ m) = true := by
  intro l m
  induction l with
  | nil => simp [List.isPrefixOf]
  | cons c l ih => simp [List.isPrefixOf, ih]

theorem stripCILit_self (ps : List Char) :
    ∀ (cs : List Char), stripCILit ps (ps ++ cs) = some cs := by
  induction ps with
  | nil => intro cs; rfl
  | cons p ps ih =>
      intro cs
      simp only [List.cons_append, stripCILit, charCI, beq_self_eq_true, if_pos]
      exact ih cs

theorem stripCILit_none_extend (ps : List Char)
    (hnl : ∀ c ∈ ps, charCI c '\n' = false) :
    ∀ (s w : List Char), stripCILit ps s = none →
      stripCILit ps (s ++ '\n' :: w) = none := by
  induction ps with
  | nil => intro s w hfail; simp [stripCILit] at hfail
  | cons p ps ih =>
      intro s w hfail
      cases s with
      | nil =>
          have hp := hnl p (List.mem_cons_self p ps)
          simp [stripCILit, hp]
      | cons c s =>
          by_cases hcc : charCI p c = true
          · simp only [stripCILit, hcc, if_pos] at hfail
            simp only [List.cons_append, stripCILit, hcc, if_pos]
            exact ih (fun x hx => hnl x (List.mem_cons_of_mem p hx)) s w hfail
          · simp only [List.cons_append, stripCILit]
            rw [if_neg (by simpa using hcc)]

theorem sentinel_no_newline : ∀ c ∈ sentinelChars, charCI c '\n' = false := by decide

theorem stripCI_sentinel_newline (cs : List Char) :
    stripCILit sentinelChars ('\n' :: cs) = none := by
  have hs : sentinelChars = '[' :: "openai_responses:v2:".data := rfl
  rw [hs]
  simp only [stripCILit]
  rw [if_neg (by decide)]

theorem matchMarkerAt_none_of_strip (cs : List Char)
    (h : stripCILit sentinelChars cs = none) : matchMarkerAt cs = none := by
  unfold matchMarkerAt
  rw [h]

theorem matchMarkerAt_newline (cs : List Char) : matchMarkerAt ('\n' :: cs) = none :=
  matchMarkerAt_none_of_strip _ (stripCI_sentinel_newline cs)

theorem matchMarkerAt_nil : matchMarkerAt [] = none := rfl

theorem takeUpTo_split (p : Char → Bool) :
    ∀ (t : List Char) (n : Nat) (d : Char) (r : List Char), t.length ≤ n →
      (∀ c ∈ t, p c = true) → p d = false →
      takeUpTo n p (t ++ d :: r) = (t, d :: r) := by
  intro t
  induction t with
  | nil =>
      intro n d r _ _ hd
      cases n with
      | zero => simp [takeUpTo]
      | succ m => simp [takeUpTo, hd]
  | cons c t ih =>
      intro n d r hn ht hd
      cases n with
      | zero => simp at hn
      | succ m =>
          have hc := ht c (List.mem_cons_self c t)
          simp only [List.cons_append, takeUpTo, hc, if_pos]
          rw [show t.append (d :: r) = t ++ d :: r from rfl,
            ih m d r (by simpa using hn) (fun x hx => ht x (List.mem_cons_of_mem c hx)) hd]

theorem takeExact_append (p : Char → Bool) :
    ∀ (t : List Char) (n : Nat) (r : List Char), t.length = n →
      (∀ c ∈ t, p c = true) →
      takeExact n p (t ++ r) = some (t, r) := by
  intro t
  induction t with
  | nil =>
      intro n r hn _
      cases n with
      | zero => rfl
      | succ m => simp at hn
  | cons c t ih =>
      intro n r hn ht
      cases n with
      | zero => simp at hn
      | succ m =>
          have hc := ht c (List.mem_cons_self c t)
          simp only [List.cons_append, takeExact, hc, if_pos]
          rw [ih m r (by simpa using hn) (fun x hx => ht x (List.mem_cons_of_mem c hx))]

theorem kindChar_of_valid (c : Char)
    (h : (('a' ≤ c && c ≤ 'z') || c.isDigit || c == '_') = true) :
    isKindChar c = true := by
  simp only [Bool.or_eq_true] at h
  unfold isKindChar
  simp only [Bool.or_eq_true]
  rcases h with (h | h) | h
  · exact Or.inl (Or.inl (Or.inl h))
  · exact Or.inl (Or.inr h)
  · exact Or.inr h

theorem valid_item_type_parts (K : String) (hK : isValidItemType K = true) :
    2 ≤ K.data.length ∧ K.data.length ≤ 30 ∧ ∀ c ∈ K.data, isKindChar c = true := by
  unfold isValidItemType at hK
  simp only [Bool.and_eq_true, decide_eq_true_eq, List.all_eq_true] at hK
  exact ⟨hK.1.1, hK.1.2, fun c hc => kindChar_of_valid c (hK.2 c hc)⟩

theorem ulid_of_crockford (c : Char) (hc : c ∈ CROCKFORD_ALPHABET) :
    isUlidChar c = true := by
  have hall : CROCKFORD_ALPHABET.all isUlidChar = true := by decide
  exact List.all_eq_true.mp hall c hc

theorem matchMarkerAt_marker (K I : String) (tail : List Char)
    (hK : isValidItemType K = true)
    (hIlen : I.data.length = 16)
    (hI : ∀ c ∈ I.data, c ∈ CROCKFORD_ALPHABET) :
    matchMarkerAt (sentinelChars ++ (K.data ++ ':' :: (I.data ++ ']' :: ':' :: ' ' :: '#' :: tail)))
      = some (K, I, none, tail) := by
  obtain ⟨hK2, hK30, hKchars⟩ := valid_item_type_parts K hK
  have hstrip := stripCILit_self sentinelChars
    (K.data ++ ':' :: (I.data ++ ']' :: ':' :: ' ' :: '#' :: tail))
  have htake := takeUpTo_split isKindChar K.data 30 ':'
    (I.data ++ ']' :: ':' :: ' ' :: '#' :: tail) hK30 hKchars (by decide)
  have hexact := takeExact_append isUlidChar I.data 16
    (']' :: ':' :: ' ' :: '#' :: tail) hIlen
    (fun c hc => ulid_of_crockford c (hI c hc))
  have hnot2 : ¬ K.data.length < 2 := by omega
  unfold matchMarkerAt
  rw [hstrip]
  simp only [htake]
  rw [if_neg hnot2]
  simp only [hexact]
  simp only [List.dropWhile]
  rw [show isPyWs ' ' = true from rfl]
  simp only [List.dropWhile]
  rw [show isPyWs '#' = false from rfl]
  rfl

theorem findRawMarkers_nil : ∀ (f : Nat), findRawMarkers f [] = [] := by
  intro f
  cases f with
  | zero => rfl
  | succ g => rfl

theorem containsSentinelCI_cons_elim (c : Char) (cs : List Char)
    (h : containsSentinelCI (c :: cs) = false) :
    stripCILit sentinelChars (c :: cs) = none ∧ containsSentinelCI cs = false := by
  unfold containsSentinelCI at h
  simp only [Bool.or_eq_false_iff] at h
  refine ⟨?_, h.2⟩
  cases hx : stripCILit sentinelChars (c :: cs) with
  | none => rfl
  | some v =>
      rw [hx] at h
      simp at h

theorem scanSegs_clean_front (w : List Char) :
    ∀ (p : List Char) (fuel : Nat) (acc : List Char),
      containsSentinelCI p = false →
      scanSegs (p.length + fuel) acc (p ++ '\n' :: w)
        = scanSegs fuel (p.reverse ++ acc) ('\n' :: w) := by
  intro p
  induction p with
  | nil =>
      intro fuel acc _
      simp
  | cons c p ih =>
      intro fuel acc hp
      obtain ⟨hstrip, hp'⟩ := containsSentinelCI_cons_elim c p hp
      have hext : stripCILit sentinelChars ((c :: p) ++ '\n' :: w) = none :=
        stripCILit_none_extend sentinelChars sentinel_no_newline (c :: p) w hstrip
      have hmatch : matchMarkerAt ((c :: p) ++ '\n' :: w) = none :=
        matchMarkerAt_none_of_strip _ hext
      have hfuel : (c :: p).length + fuel = (p.length + fuel) + 1 := by
        simp
        omega
      rw [hfuel]
      have hmatch2 : matchMarkerAt (c :: (p ++ '\n' :: w)) = none := hmatch
      simp only [List.cons_append, scanSegs, hmatch2]
      rw [ih fuel (c :: acc) hp']
      simp

theorem scanSegs_clean_tail :
    ∀ (s : List Char) (fuel : Nat) (acc : List Char), s.length ≤ fuel →
      containsSentinelCI s = false →
      scanSegs fuel acc s = textIf (s.reverse ++ acc) := by
  intro s
  induction s with
  | nil =>
      intro fuel acc _ _
      cases fuel with
      | zero => simp [scanSegs]
      | succ g => simp [scanSegs, matchMarkerAt_nil]
  | cons c s ih =>
      intro fuel acc hf hs
      obtain ⟨hstrip, hs'⟩ := containsSentinelCI_cons_elim c s hs
      have hmatch : matchMarkerAt (c :: s) = none :=
        matchMarkerAt_none_of_strip _ hstrip
      cases fuel with
      | zero => simp at hf
      | succ g =>
          simp only [scanSegs, hmatch]
          rw [ih g (c :: acc) (by simpa using hf) hs']
          simp

theorem findRawMarkers_clean_tail :
    ∀ (s : List Char) (fuel : Nat), s.length ≤ fuel →
      containsSentinelCI s = false →
      findRawMarkers fuel s = [] := by
  intro s
  induction s with
  | nil =>
      intro fuel _ _
      exact findRawMarkers_nil fuel
  | cons c s ih =>
      intro fuel hf hs
      obtain ⟨hstrip, hs'⟩ := containsSentinelCI_cons_elim c s hs
      have hmatch : matchMarkerAt (c :: s) = none :=
        matchMarkerAt_none_of_strip _ hstrip
      cases fuel with
      | zero => simp at hf
      | succ g =>
          simp only [findRawMarkers, hmatch]
          exact ih g (by simpa using hf) hs'

theorem create_marker_eq (K I : String) (hK : isValidItemType K = true) :
    create_marker K I = some ("openai_responses:v2:" ++ K ++ ":" ++ I) := by
  unfold create_marker
  simp [hK]

theorem kindChar_ne_colon (c : Char) (hc : isKindChar c = true) :
    decide (c ≠ ':') = true := by
  simp only [decide_eq_true_eq]
  intro hceq
  subst hceq
  exact absurd hc (by decide)

theorem crockford_ne_question (c : Char) (hc : c ∈ CROCKFORD_ALPHABET) :
    decide (c ≠ '?') = true := by
  have hall : CROCKFORD_ALPHABET.all (fun c => decide (c ≠ '?')) = true := by decide
  exact List.all_eq_true.mp hall c hc

theorem parse_marker_raw (K I : String)
    (hK : isValidItemType K = true)
    (hIq : ∀ c ∈ I.data, c ∈ CROCKFORD_ALPHABET) :
    parse_marker ("openai_responses:v2:" ++ K ++ ":" ++ I)
      = some { version := "v2", item_type := K, ulid := I, metadata := [] } := by
  obtain ⟨hK2, hK30, hKchars⟩ := valid_item_type_parts K hK
  have hdata : ("openai_responses:v2:" ++ K ++ ":" ++ I).data
      = "openai_responses:v2:".data ++ (K.data ++ ':' :: I.data) := by
    simp [String.data_append]
  have hpre : "openai_responses:v2:".data.isPrefixOf
      ("openai_responses:v2:".data ++ (K.data ++ ':' :: I.data)) = true :=
    isPrefixOf_append_self _ _
  have hdrop : ("openai_responses:v2:".data ++ (K.data ++ ':' :: I.data)).drop 20
      = K.data ++ ':' :: I.data := by
    have h20 : ("openai_responses:v2:".data).length = 20 := rfl
    rw [← h20, List.drop_left]
  have hco : ∀ c ∈ K.data, decide (c ≠ ':') = true :=
    fun c hc => kindChar_ne_colon c (hKchars c hc)
  have htw := takeWhile_middle (fun c => decide (c ≠ ':')) K.data ':' I.data hco (by decide)
  have hdw := dropWhile_middle (fun c => decide (c ≠ ':')) K.data ':' I.data hco (by decide)
  have hqc : ∀ c ∈ I.data, decide (c ≠ '?') = true :=
    fun c hc => crockford_ne_question c (hIq c hc)
  have htq := takeWhile_all (fun c => decide (c ≠ '?')) I.data hqc
  have hdq := dropWhile_all (fun c => decide (c ≠ '?')) I.data hqc
  unfold parse_marker
  rw [hdata, hpre]
  simp only [Bool.not_true, Bool.false_eq_true, if_false]
  have htq2 : List.takeWhile (fun c => !decide (c = '?')) I.data = I.data := by
    simpa using htq
  have hdq2 : List.dropWhile (fun c => !decide (c = '?')) I.data = [] := by
    simpa using hdq
  rw [hdrop, htw, hdw]
  simp +decide [htq2, hdq2, parse_qs]

theorem wrap_marker_data (K I : String) :
    (wrap_marker ("openai_responses:v2:" ++ K ++ ":" ++ I)).data
      = '\n' :: (sentinelChars ++ (K.data ++ ':' :: (I.data ++ ']' :: ':' :: ' ' :: '#' :: ['\n']))) := by
  have hs : sentinelChars = '[' :: "openai_responses:v2:".data := rfl
  have h1 : "\n[".data = ['\n', '['] := rfl
  have h2 : "]: #\n".data = [']', ':', ' ', '#', '\n'] := rfl
  have h3 : ":".data = [':'] := rfl
  simp [wrap_marker, String.data_append, hs, h1, h2, h3, List.append_assoc]

theorem sentinelChars_length : sentinelChars.length = 21 := rfl

theorem wrap_marker_length (K I : String) (hIlen : I.data.length = 16) :
    (wrap_marker ("openai_responses:v2:" ++ K ++ ":" ++ I)).length
      = K.data.length + 44 := by
  show (wrap_marker ("openai_responses:v2:" ++ K ++ ":" ++ I)).data.length = _
  rw [wrap_marker_data]
  simp [sentinelChars_length, hIlen]
  omega

theorem findRawMarkers_step_none (f : Nat) (c : Char) (cs : List Char)
    (h : matchMarkerAt (c :: cs) = none) :
    findRawMarkers (f + 1) (c :: cs) = findRawMarkers f cs := by
  simp only [findRawMarkers, h]

theorem findRawMarkers_step_some (f : Nat) (cs : List Char) (k u : String)
    (q : Option String) (rest : List Char)
    (h : matchMarkerAt cs = some (k, u, q, rest)) :
    findRawMarkers (f + 1) cs = rebuildRaw k u q :: findRawMarkers f rest := by
  simp only [findRawMarkers, h]

theorem scanSegs_step_none (f : Nat) (c : Char) (cs acc : List Char)
    (h : matchMarkerAt (c :: cs) = none) :
    scanSegs (f + 1) acc (c :: cs) = scanSegs f (c :: acc) cs := by
  simp only [scanSegs, h]

theorem scanSegs_step_some (f : Nat) (acc cs : List Char) (k u : String)
    (q : Option String) (rest : List Char)
    (h : matchMarkerAt cs = some (k, u, q, rest)) :
    scanSegs (f + 1) acc cs
      = textIf acc ++ (Seg.marker (rebuildRaw k u q) :: scanSegs f [] rest) := by
  simp only [scanSegs, h]

theorem extract_wrap (K I : String)
    (hK : isValidItemType K = true)
    (hIlen : I.data.length = 16)
    (hI : ∀ c ∈ I.data, c ∈ CROCKFORD_ALPHABET) :
    extract_markers (wrap_marker ("openai_responses:v2:" ++ K ++ ":" ++ I))
      = ["openai_responses:v2:" ++ K ++ ":" ++ I] := by
  unfold extract_markers
  rw [wrap_marker_length K I hIlen, wrap_marker_data]
  rw [findRawMarkers_step_none (K.data.length + 44) '\n' _ (matchMarkerAt_newline _)]
  have hf1 : K.data.length + 44 = K.data.length + 43 + 1 := by omega
  rw [hf1]
  rw [findRawMarkers_step_some (K.data.length + 43) _ K I none ['\n']
    (matchMarkerAt_marker K I ['\n'] hK hIlen hI)]
  have hf2 : K.data.length + 43 = K.data.length + 42 + 1 := by omega
  rw [hf2]
  rw [findRawMarkers_step_none (K.data.length + 42) '\n' [] (matchMarkerAt_newline [])]
  rw [findRawMarkers_nil]
  simp [rebuildRaw]

theorem split_three (K I P S : String)
    (hK : isValidItemType K = true)
    (hIlen : I.data.length = 16)
    (hI : ∀ c ∈ I.data, c ∈ CROCKFORD_ALPHABET)
    (hPclean : containsSentinelCI P.data = false)
    (hSclean : containsSentinelCI S.data = false) :
    split_text_by_markers (P ++ wrap_marker ("openai_responses:v2:" ++ K ++ ":" ++ I) ++ S)
      = [Seg.text (P ++ "\n"),
         Seg.marker ("openai_responses:v2:" ++ K ++ ":" ++ I),
         Seg.text ("\n" ++ S)] := by
  have hT : (P ++ wrap_marker ("openai_responses:v2:" ++ K ++ ":" ++ I) ++ S).data
      = P.data ++ '\n' :: (sentinelChars ++ (K.data ++ ':' ::
          (I.data ++ ']' :: ':' :: ' ' :: '#' :: ('\n' :: S.data)))) := by
    rw [String.data_append, String.data_append, wrap_marker_data]
    simp [List.append_assoc]
  have hlen : (P ++ wrap_marker ("openai_responses:v2:" ++ K ++ ":" ++ I) ++ S).length
      = P.data.length + (K.data.length + S.data.length + 44) := by
    show (P ++ wrap_marker ("openai_responses:v2:" ++ K ++ ":" ++ I) ++ S).data.length = _
    rw [hT]
    simp [sentinelChars_length, hIlen]
    omega
  unfold split_text_by_markers
  rw [hlen, hT]
  have hf0 : P.data.length + (K.data.length + S.data.length + 44) + 1
      = P.data.length + (K.data.length + S.data.length + 45) := by omega
  rw [hf0]
  rw [scanSegs_clean_front _ P.data (K.data.length + S.data.length + 45) [] hPclean]
  have hf1 : K.data.length + S.data.length + 45
      = (K.data.length + S.data.length + 44) + 1 := by omega
  rw [hf1]
  rw [scanSegs_step_none _ '\n' _ _ (matchMarkerAt_newline _)]
  have hf2 : K.data.length + S.data.length + 44
      = (K.data.length + S.data.length + 43) + 1 := by omega
  rw [hf2]
  rw [scanSegs_step_some _ _ _ K I none ('\n' :: S.data)
    (matchMarkerAt_marker K I ('\n' :: S.data) hK hIlen hI)]
  have hSnl : containsSentinelCI ('\n' :: S.data) = false := by
    unfold containsSentinelCI
    simp [stripCI_sentinel_newline, hSclean]
  rw [scanSegs_clean_tail ('\n' :: S.data) (K.data.length + S.data.length + 43) []
    (by simp; omega) hSnl]
  have hP1 : P ++ "\n" = String.mk (P.data ++ ['\n']) := rfl
  have hS1 : "\n" ++ S = String.mk ('\n' :: S.data) := rfl
  simp [textIf, rebuildRaw, hP1, hS1]

/-- C6: for every item kind `K` matching `[a-z0-9_]{2,30}` and every
16-character id `I` drawn from the marker (Crockford) alphabet, parsing the
marker extracted from `wrap_marker (create_marker K I)` recovers exactly kind
`K` and id `I`; and for every non-empty prefix and suffix texts that contain
no marker material (no case-insensitive occurrence of the marker sentinel),
`split_text_by_markers (prefix ++ wrap_marker m ++ suffix)` yields exactly
three segments: a text segment, the marker segment, and a text segment, in
that order. -/
theorem marker_roundtrip_and_split (K I P S raw : String)
    (hK : isValidItemType K = true)
    (hIlen : I.length = 16)
    (hI : ∀ c ∈ I.data, c ∈ CROCKFORD_ALPHABET)
    (hraw : create_marker K I = some raw)
    (hP : P ≠ "") (hS : S ≠ "")
    (hPclean : containsSentinelCI P.data = false)
    (hSclean : containsSentinelCI S.data = false) :
    extract_markers (wrap_marker raw) = [raw]
    ∧ parse_marker raw
        = some { version := "v2", item_type := K, ulid := I, metadata := [] }
    ∧ split_text_by_markers (P ++ wrap_marker raw ++ S)
        = [Seg.text (P ++ "\n"), Seg.marker raw, Seg.text ("\n" ++ S)] := by
  have hIlen2 : I.data.length = 16 := hIlen
  have hr : raw = "openai_responses:v2:" ++ K ++ ":" ++ I := by
    have h := create_marker_eq K I hK
    rw [hraw] at h
    exact Option.some.inj h
  subst hr
  exact ⟨extract_wrap K I hK hIlen2 hI,
    parse_marker_raw K I hK hI,
    split_three K I P S hK hIlen2 hI hPclean hSclean⟩

theorem marker_roundtrip_and_split_witness :
    extract_markers (wrap_marker "openai_responses:v2:message:0123456789ABCDEF")
      = ["openai_responses:v2:message:0123456789ABCDEF"]
    ∧ parse_marker "openai_responses:v2:message:0123456789ABCDEF"
        = some { version := "v2", item_type := "message",
                 ulid := "0123456789ABCDEF", metadata := [] }
    ∧ split_text_by_markers
        ("Hello, " ++ wrap_marker "openai_responses:v2:message:0123456789ABCDEF"
          ++ "world.")
        = [Seg.text ("Hello, " ++ "\n"),
           Seg.marker "openai_responses:v2:message:0123456789ABCDEF",
           Seg.text ("\n" ++ "world.")] :=
  marker_roundtrip_and_split "message" "0123456789ABCDEF" "Hello, " "world."
    "openai_responses:v2:message:0123456789ABCDEF"
    (by decide) (by decide) (by decide) (by decide)
    (by decide) (by decide) (by decide) (by decide)

/-- C9 counterexample: on the schema
`{type: "object", properties: {a: {}}, required: [], allOf: [{type: "object", properties: {}}]}`
the strictified output leaves the optional property `a` without any type (so
no type including "null"), and leaves the object node inside `allOf` without
`additionalProperties` and with no `required` freeze — refuting both the
"every property that was not required has a type that includes null" part and
the "every object node ... has additionalProperties set to false" part. -/
theorem strictify_schema_counterexample :
    strictify_schema (Json.obj [("type", Json.str "object"),
      ("properties", Json.obj [("a", Json.obj [])]),
      ("required", Json.arr []),
      ("allOf", Json.arr [Json.obj [("type", Json.str "object"),
        ("properties", Json.obj [])]])])
    = Json.obj [("type", Json.str "object"),
      ("properties", Json.obj [("a", Json.obj [])]),
      ("required", Json.arr [Json.str "a"]),
      ("allOf", Json.arr [Json.obj [("type", Json.str "object"),
        ("properties", Json.obj [])]]),
      ("additionalProperties", Json.bool false)] := rfl

theorem lookupKey_updateAt_ne (kvs : List (String × Json)) (key k : String)
    (f : Json → Json) (h : k ≠ key) :
    lookupKey (updateAt kvs key f) k = lookupKey kvs k := by
  unfold updateAt
  cases hx : lookupKey kvs key with
  | none => rfl
  | some v => exact lookupKey_setKey_ne kvs key k (f v) (Ne.symm h)

theorem lookupKey_append_single_ne (kvs : List (String × Json)) (k2 k : String)
    (v : Json) (h : k ≠ k2) :
    lookupKey (kvs ++ [(k2, v)]) k = lookupKey kvs k := by
  induction kvs with
  | nil => simp [lookupKey, Ne.symm h]
  | cons hd tl ih =>
      by_cases hk : hd.1 = k
      · simp [lookupKey, hk]
      · simp only [List.cons_append, lookupKey, hk, if_neg]
        exact ih

theorem lookupKey_mapVal (F : String → Json → Json) :
    ∀ (l : List (String × Json)) (k : String),
      lookupKey (l.map (fun nv => (nv.1, F nv.1 nv.2))) k
        = Option.map (F k) (lookupKey l k) := by
  intro l
  induction l with
  | nil => intro k; rfl
  | cons hd tl ih =>
      intro k
      by_cases hk : hd.1 = k
      · subst hk
        simp [lookupKey]
      · simp only [List.map_cons, lookupKey, hk, if_neg]
        exact ih k

theorem keysOf_mapVal (F : String → Json → Json) (l : List (String × Json)) :
    keysOf (l.map (fun nv => (nv.1, F nv.1 nv.2))) = keysOf l := by
  unfold keysOf
  rw [List.map_map]
  rfl

theorem lookupKey_objectPart_other (enf : Json → Json) (kvs : List (String × Json))
    (k : String) (h1 : k ≠ "properties") (h2 : k ≠ "additionalProperties")
    (h3 : k ≠ "required") :
    lookupKey (objectPart enf kvs) k = lookupKey kvs k := by
  unfold objectPart
  cases hp : lookupKey kvs "properties" with
  | none =>
      simp only []
      rw [lookupKey_setKey_ne _ _ _ _ (Ne.symm h1),
        lookupKey_setKey_ne _ _ _ _ (Ne.symm h3),
        lookupKey_setKey_ne _ _ _ _ (Ne.symm h2),
        lookupKey_append_single_ne _ _ _ _ h1]
  | some v =>
      cases v with
      | obj p =>
          simp only []
          rw [lookupKey_setKey_ne _ _ _ _ (Ne.symm h1),
            lookupKey_setKey_ne _ _ _ _ (Ne.symm h3),
            lookupKey_setKey_ne _ _ _ _ (Ne.symm h2)]
      | null =>
          simp only []
          rw [lookupKey_setKey_ne _ _ _ _ (Ne.symm h1),
            lookupKey_setKey_ne _ _ _ _ (Ne.symm h3),
            lookupKey_setKey_ne _ _ _ _ (Ne.symm h2),
            lookupKey_setKey_ne _ _ _ _ (Ne.symm h1)]
      | bool b =>
          simp only []
          rw [lookupKey_setKey_ne _ _ _ _ (Ne.symm h1),
            lookupKey_setKey_ne _ _ _ _ (Ne.symm h3),
            lookupKey_setKey_ne _ _ _ _ (Ne.symm h2),
            lookupKey_setKey_ne _ _ _ _ (Ne.symm h1)]
      | num n =>
          simp only []
          rw [lookupKey_setKey_ne _ _ _ _ (Ne.symm h1),
            lookupKey_setKey_ne _ _ _ _ (Ne.symm h3),
            lookupKey_setKey_ne _ _ _ _ (Ne.symm h2),
            lookupKey_setKey_ne _ _ _ _ (Ne.symm h1)]
      | str t =>
          simp only []
          rw [lookupKey_setKey_ne _ _ _ _ (Ne.symm h1),
            lookupKey_setKey_ne _ _ _ _ (Ne.symm h3),
            lookupKey_setKey_ne _ _ _ _ (Ne.symm h2),
            lookupKey_setKey_ne _ _ _ _ (Ne.symm h1)]
      | arr xs =>
          simp only []
          rw [lookupKey_setKey_ne _ _ _ _ (Ne.symm h1),
            lookupKey_setKey_ne _ _ _ _ (Ne.symm h3),
            lookupKey_setKey_ne _ _ _ _ (Ne.symm h2),
            lookupKey_setKey_ne _ _ _ _ (Ne.symm h1)]

theorem enforceNode_jget_type (fuel : Nat) (q : List (String × Json)) :
    jget (enforceNode fuel (Json.obj q)) "type" = lookupKey q "type" := by
  cases fuel with
  | zero => rfl
  | succ f =>
      simp only [enforceNode, jget]
      rw [lookupKey_updateAt_ne _ _ _ _ (by decide),
        lookupKey_updateAt_ne _ _ _ _ (by decide),
        lookupKey_updateAt_ne _ _ _ _ (by decide)]
      by_cases hobj : isObjectSchemaKvs q = true
      · simp only [hobj, if_true]
        exact lookupKey_objectPart_other _ _ _ (by decide) (by decide) (by decide)
      · simp only [Bool.not_eq_true] at hobj
        simp only [hobj, Bool.false_eq_true, if_false]

/-- C9 (amended): for an input schema whose root is an object node with a
dict `properties` map and a list `required`, the strict transformation sets
`additionalProperties` to `false` and `required` to the full list of property
names, keeps any `allOf` member verbatim (allOf branches are not strictified),
and replaces every dict property by the recursively enforced version of its
null-adjusted schema: a property whose name is not originally required gets
"null" added to its type exactly when that type is a string other than "null"
(becoming `[t, "null"]`) or a list without "null" (appended) — a property
without a type, in particular, is left typeless. -/
theorem strictify_schema_amended
    (kvs props : List (String × Json)) (req : List Json)
    (hobj : isObjectSchemaKvs kvs = true)
    (hprops : lookupKey kvs "properties" = some (Json.obj props))
    (hreq : lookupKey kvs "required" = some (Json.arr req)) :
    ∃ outKvs newProps : List (String × Json),
      strictify_schema (Json.obj kvs) = Json.obj outKvs
      ∧ lookupKey outKvs "additionalProperties" = some (Json.bool false)
      ∧ lookupKey outKvs "required"
          = some (Json.arr ((keysOf props).map Json.str))
      ∧ lookupKey outKvs "allOf" = lookupKey kvs "allOf"
      ∧ lookupKey outKvs "properties" = some (Json.obj newProps)
      ∧ keysOf newProps = keysOf props
      ∧ (∀ name p, lookupKey props name = some (Json.obj p) →
          lookupKey newProps name
            = some (enforceNode (jdepthKV kvs) (Json.obj (nullifyType req name p))))
      ∧ (∀ name p t, req.contains (Json.str name) = false →
          lookupKey p "type" = some (Json.str t) → t ≠ "null" →
          jget (enforceNode (jdepthKV kvs) (Json.obj (nullifyType req name p))) "type"
            = some (Json.arr [Json.str t, Json.str "null"]))
      ∧ (∀ name p ts, req.contains (Json.str name) = false →
          lookupKey p "type" = some (Json.arr ts) →
          ts.contains (Json.str "null") = false →
          jget (enforceNode (jdepthKV kvs) (Json.obj (nullifyType req name p))) "type"
            = some (Json.arr (ts ++ [Json.str "null"]))) := by
  have henf : strictify_schema (Json.obj kvs)
      = enforceNode (jdepthKV kvs + 1) (Json.obj kvs) := by
    show enforceNode (jdepth (Json.obj kvs)) (Json.obj kvs) = _
    rw [show jdepth (Json.obj kvs) = 1 + jdepthKV kvs from rfl, Nat.add_comm]
  rw [henf]
  simp only [enforceNode, hobj, if_true]
  simp only [objectPart, hprops, hreq]
  refine ⟨_, props.map (fun nv =>
      match nv.2 with
      | Json.obj pk =>
          (nv.1, enforceNode (jdepthKV kvs) (Json.obj (nullifyType req nv.1 pk)))
      | _ => nv), rfl, ?_, ?_, ?_, ?_, ?_, ?_, ?_, ?_⟩
  · rw [lookupKey_updateAt_ne _ _ _ _ (by decide),
      lookupKey_updateAt_ne _ _ _ _ (by decide),
      lookupKey_updateAt_ne _ _ _ _ (by decide),
      lookupKey_setKey_ne _ _ _ _ (by decide),
      lookupKey_setKey_ne _ _ _ _ (by decide),
      lookupKey_setKey_self]
  · rw [lookupKey_updateAt_ne _ _ _ _ (by decide),
      lookupKey_updateAt_ne _ _ _ _ (by decide),
      lookupKey_updateAt_ne _ _ _ _ (by decide),
      lookupKey_setKey_ne _ _ _ _ (by decide),
      lookupKey_setKey_self]
  · rw [lookupKey_updateAt_ne _ _ _ _ (by decide),
      lookupKey_updateAt_ne _ _ _ _ (by decide),
      lookupKey_updateAt_ne _ _ _ _ (by decide),
      lookupKey_setKey_ne _ _ _ _ (by decide),
      lookupKey_setKey_ne _ _ _ _ (by decide),
      lookupKey_setKey_ne _ _ _ _ (by decide)]
  · rw [lookupKey_updateAt_ne _ _ _ _ (by decide),
      lookupKey_updateAt_ne _ _ _ _ (by decide),
      lookupKey_updateAt_ne _ _ _ _ (by decide),
      lookupKey_setKey_self]
  · have hform : (fun (nv : String × Json) =>
        match nv.2 with
        | Json.obj pk =>
            (nv.1, enforceNode (jdepthKV kvs) (Json.obj (nullifyType req nv.1 pk)))
        | _ => nv)
        = (fun (nv : String × Json) => (nv.1, (fun n v =>
            match v with
            | Json.obj pk => enforceNode (jdepthKV kvs) (Json.obj (nullifyType req n pk))
            | _ => v) nv.1 nv.2)) := by
      funext nv
      obtain ⟨n, v⟩ := nv
      cases v <;> rfl
    rw [hform, keysOf_mapVal (fun n v =>
      match v with
      | Json.obj pk => enforceNode (jdepthKV kvs) (Json.obj (nullifyType req n pk))
      | _ => v) props]
  · intro name p hname
    have hform : (fun (nv : String × Json) =>
        match nv.2 with
        | Json.obj pk =>
            (nv.1, enforceNode (jdepthKV kvs) (Json.obj (nullifyType req nv.1 pk)))
        | _ => nv)
        = (fun (nv : String × Json) => (nv.1, (fun n v =>
            match v with
            | Json.obj pk => enforceNode (jdepthKV kvs) (Json.obj (nullifyType req n pk))
            | _ => v) nv.1 nv.2)) := by
      funext nv
      obtain ⟨n, v⟩ := nv
      cases v <;> rfl
    rw [hform, lookupKey_mapVal (fun n v =>
      match v with
      | Json.obj pk => enforceNode (jdepthKV kvs) (Json.obj (nullifyType req n pk))
      | _ => v) props name, hname]
    rfl
  · intro name p t hnr ht htn
    rw [enforceNode_jget_type]
    unfold nullifyType
    simp only [hnr, Bool.false_eq_true, if_false, ht, htn, ne_eq,
      not_false_iff, if_true]
    exact lookupKey_setKey_self p "type" _
  · intro name p ts hnr ht hts
    rw [enforceNode_jget_type]
    unfold nullifyType
    simp only [hnr, Bool.false_eq_true, if_false, ht, hts]
    exact lookupKey_setKey_self p "type" _

theorem strictify_schema_amended_witness :
    ∃ outKvs newProps : List (String × Json),
      strictify_schema (Json.obj [("type", Json.str "object"),
        ("properties", Json.obj [("a", Json.obj [])]),
        ("required", Json.arr []),
        ("allOf", Json.arr [Json.obj [("type", Json.str "object"),
          ("properties", Json.obj [])]])]) = Json.obj outKvs
      ∧ lookupKey outKvs "additionalProperties" = some (Json.bool false)
      ∧ lookupKey outKvs "required"
          = some (Json.arr ((keysOf [("a", Json.obj [])]).map Json.str))
      ∧ lookupKey outKvs "allOf"
          = lookupKey [("type", Json.str "object"),
              ("properties", Json.obj [("a", Json.obj [])]),
              ("required", Json.arr []),
              ("allOf", Json.arr [Json.obj [("type", Json.str "object"),
                ("properties", Json.obj [])]])] "allOf"
      ∧ lookupKey outKvs "properties" = some (Json.obj newProps)
      ∧ keysOf newProps = keysOf [("a", Json.obj [])]
      ∧ (∀ name p, lookupKey [("a", Json.obj [])] name = some (Json.obj p) →
          lookupKey newProps name
            = some (enforceNode (jdepthKV [("type", Json.str "object"),
                ("properties", Json.obj [("a", Json.obj [])]),
                ("required", Json.arr []),
                ("allOf", Json.arr [Json.obj [("type", Json.str "object"),
                  ("properties", Json.obj [])]])])
                (Json.obj (nullifyType [] name p))))
      ∧ (∀ name p t, List.contains [] (Json.str name) = false →
          lookupKey p "type" = some (Json.str t) → t ≠ "null" →
          jget (enforceNode (jdepthKV [("type", Json.str "object"),
              ("properties", Json.obj [("a", Json.obj [])]),
              ("required", Json.arr []),
              ("allOf", Json.arr [Json.obj [("type", Json.str "object"),
                ("properties", Json.obj [])]])])
            (Json.obj (nullifyType [] name p))) "type"
            = some (Json.arr [Json.str t, Json.str "null"]))
      ∧ (∀ name p ts, List.contains [] (Json.str name) = false →
          lookupKey p "type" = some (Json.arr ts) →
          ts.contains (Json.str "null") = false →
          jget (enforceNode (jdepthKV [("type", Json.str "object"),
              ("properties", Json.obj [("a", Json.obj [])]),
              ("required", Json.arr []),
              ("allOf", Json.arr [Json.obj [("type", Json.str "object"),
                ("properties", Json.obj [])]])])
            (Json.obj (nullifyType [] name p))) "type"
            = some (Json.arr (ts ++ [Json.str "null"]))) :=
  strictify_schema_amended
    [("type", Json.str "object"),
      ("properties", Json.obj [("a", Json.obj [])]),
      ("required", Json.arr []),
      ("allOf", Json.arr [Json.obj [("type", Json.str "object"),
        ("properties", Json.obj [])]])]
    [("a", Json.obj [])] [] rfl rfl rfl

theorem countErr_append (a b : List Emitted) :
    countErrEvents (a ++ b) = countErrEvents a + countErrEvents b := by
  simp [countErrEvents, List.filter_append]

theorem countDone_append (a b : List Emitted) :
    countDoneCompletions (a ++ b) = countDoneCompletions a + countDoneCompletions b := by
  simp [countDoneCompletions, List.filter_append]

theorem filterErr_append (a b : List Emitted) :
    (a ++ b).filter isErrCompletion = a.filter isErrCompletion ++ b.filter isErrCompletion := by
  simp [List.filter_append]

theorem emitError_completionEmitted (logs : List String) (sc : Bool) (st : LoopState)
    (m : String) : (emitError logs sc st m).completionEmitted = st.completionEmitted := by
  unfold emitError
  split <;> rfl

theorem emitError_errorOccurred (logs : List String) (sc : Bool) (st : LoopState)
    (m : String) : (emitError logs sc st m).errorOccurred = st.errorOccurred := by
  unfold emitError
  split <;> rfl

theorem emitError_countDone (logs : List String) (sc : Bool) (st : LoopState)
    (m : String) :
    countDoneCompletions (emitError logs sc st m).events
      = countDoneCompletions st.events := by
  unfold emitError
  split <;> simp [countDone_append, countDoneCompletions, isDoneCompletion]

theorem emitError_filterErr (logs : List String) (sc : Bool) (st : LoopState)
    (m : String) :
    (emitError logs sc st m).events.filter isErrCompletion
      = st.events.filter isErrCompletion
          ++ [Emitted.completionEv false none none (some m)] := by
  unfold emitError
  split <;> simp [filterErr_append, List.filter, isErrCompletion]

theorem emitError_countErr (logs : List String) (sc : Bool) (st : LoopState)
    (m : String) :
    countErrEvents (emitError logs sc st m).events = countErrEvents st.events + 1 := by
  have h := emitError_filterErr logs sc st m
  unfold countErrEvents
  rw [h]
  simp

theorem persistStep_inv (deps : RunnerDeps) (dp : Bool) (item : Json)
    (st : LoopState) :
    (persistStep deps dp item st).errorOccurred = st.errorOccurred
    ∧ (persistStep deps dp item st).completionEmitted = st.completionEmitted
    ∧ countErrEvents (persistStep deps dp item st).events = countErrEvents st.events
    ∧ countDoneCompletions (persistStep deps dp item st).events
        = countDoneCompletions st.events
    ∧ (persistStep deps dp item st).events.filter isErrCompletion
        = st.events.filter isErrCompletion := by
  unfold persistStep
  dsimp only []
  split
  · split
    · simp [countErr_append, countDone_append, filterErr_append, countErrEvents,
        countDoneCompletions, List.filter, isErrCompletion, isDoneCompletion]
    · simp
  · simp

theorem functionCallStatus_inv (jl : String → Except String Json) (item : Json)
    (nm : String) (st1 st' : LoopState)
    (h : functionCallStatus jl item nm st1 = Except.ok st') :
    st'.errorOccurred = st1.errorOccurred
    ∧ st'.completionEmitted = st1.completionEmitted
    ∧ countErrEvents st'.events = countErrEvents st1.events
    ∧ countDoneCompletions st'.events = countDoneCompletions st1.events
    ∧ st'.events.filter isErrCompletion = st1.events.filter isErrCompletion := by
  unfold functionCallStatus at h
  dsimp only [] at h
  repeat' split at h
  all_goals
    first
    | exact Except.noConfusion h
    | (injection h with h2
       subst h2
       simp [countErr_append, countDone_append, filterErr_append, countErrEvents,
         countDoneCompletions, List.filter, isErrCompletion, isDoneCompletion])

theorem webSearchStatus_inv (item : Json) (st1 st' : LoopState)
    (h : webSearchStatus item st1 = Except.ok st') :
    st'.errorOccurred = st1.errorOccurred
    ∧ st'.completionEmitted = st1.completionEmitted
    ∧ countErrEvents st'.events = countErrEvents st1.events
    ∧ countDoneCompletions st'.events = countDoneCompletions st1.events
    ∧ st'.events.filter isErrCompletion = st1.events.filter isErrCompletion := by
  unfold webSearchStatus at h
  dsimp only [] at h
  repeat' split at h
  all_goals
    first
    | exact Except.noConfusion h
    | (injection h with h2
       subst h2
       simp [countErr_append, countDone_append, filterErr_append, countErrEvents,
         countDoneCompletions, List.filter, isErrCompletion, isDoneCompletion])

theorem handleOutputItemDelta_inv (v : Valves) (d : RunnerDeps) (st : LoopState)
    (f : Json) (st' : LoopState)
    (h : handleOutputItemDelta v d st f = Except.ok st') :
    st'.errorOccurred = st.errorOccurred
    ∧ st'.completionEmitted = st.completionEmitted
    ∧ countErrEvents st'.events = countErrEvents st.events
    ∧ countDoneCompletions st'.events = countDoneCompletions st.events
    ∧ st'.events.filter isErrCompletion = st.events.filter isErrCompletion := by
  unfold handleOutputItemDelta at h
  dsimp only [] at h
  have hp := persistStep_inv d
    (shouldPersistItem v (itemTypeOf (jgetD f "item" (Json.obj []))))
    (jgetD f "item" (Json.obj [])) st
  split at h
  · injection h with h2
    subst h2
    exact ⟨rfl, rfl, rfl, rfl, rfl⟩
  · split at h
    · have hf := functionCallStatus_inv _ _ _ _ _ h
      exact ⟨hf.1.trans hp.1, hf.2.1.trans hp.2.1, hf.2.2.1.trans hp.2.2.1,
        hf.2.2.2.1.trans hp.2.2.2.1, hf.2.2.2.2.trans hp.2.2.2.2⟩
    · split at h
      · have hf := webSearchStatus_inv _ _ _ h
        exact ⟨hf.1.trans hp.1, hf.2.1.trans hp.2.1, hf.2.2.1.trans hp.2.2.1,
          hf.2.2.2.1.trans hp.2.2.2.1, hf.2.2.2.2.trans hp.2.2.2.2⟩
      · split at h
        · injection h with h2
          subst h2
          exact hp
        · split at h
          · injection h with h2
            subst h2
            exact hp
          · split at h
            · injection h with h2
              subst h2
              exact hp
            · split at h
              · injection h with h2
                subst h2
                exact hp
              · injection h with h2
                subst h2
                refine ⟨hp.1, hp.2.1, ?_, ?_, ?_⟩
                · rw [countErr_append, hp.2.2.1]
                  simp [countErrEvents, List.filter, isErrCompletion]
                · rw [countDone_append, hp.2.2.2.1]
                  simp [countDoneCompletions, List.filter, isDoneCompletion]
                · rw [filterErr_append, hp.2.2.2.2]
                  simp [List.filter, isErrCompletion]



theorem countErr_snoc (es : List Emitted) (e : Emitted) :
    countErrEvents (es ++ [e])
      = countErrEvents es + (if isErrCompletion e then 1 else 0) := by
  rw [countErr_append]
  unfold countErrEvents
  split <;> rename_i hcase <;> simp [List.filter, hcase]

theorem countDone_snoc (es : List Emitted) (e : Emitted) :
    countDoneCompletions (es ++ [e])
      = countDoneCompletions es + (if isDoneCompletion e then 1 else 0) := by
  rw [countDone_append]
  unfold countDoneCompletions
  split <;> rename_i hcase <;> simp [List.filter, hcase]

theorem filterErr_snoc (es : List Emitted) (e : Emitted) :
    (es ++ [e]).filter isErrCompletion
      = es.filter isErrCompletion ++ (if isErrCompletion e then [e] else []) := by
  rw [filterErr_append]
  split <;> rename_i hcase <;> simp [List.filter, hcase]

theorem dispatchFrameE_inv (v : Valves) (d : RunnerDeps) (st : LoopState)
    (fr : Option Json) (f : Json) (ety : String) (st' : LoopState)
    (fr' : Option Json) (brk : Bool)
    (h : dispatchFrameE v d st fr f ety = Except.ok (st', fr', brk)) :
    (st'.errorOccurred = false →
      st.errorOccurred = false
      ∧ countErrEvents st'.events = countErrEvents st.events
      ∧ st'.events.filter isErrCompletion = st.events.filter isErrCompletion)
    ∧ countDoneCompletions st.events ≤ countDoneCompletions st'.events
    ∧ (st'.completionEmitted = true →
        st.completionEmitted = true ∨ 1 ≤ countDoneCompletions st'.events) := by
  unfold dispatchFrameE at h
  by_cases h1 : ety = "response.output_text.delta"
  · rw [if_pos h1] at h
    repeat' split at h
    all_goals try dsimp only [] at h
    all_goals
      first
      | exact Except.noConfusion h
      | (injection h with h2
         simp only [Prod.mk.injEq] at h2
         obtain ⟨h3, h4, h5⟩ := h2
         subst h3
         subst h4
         subst h5
         first
         | (rename_i st2 heq
            have hh := handleOutputItemDelta_inv _ _ _ _ _ heq
            exact ⟨fun hf => ⟨hh.1.symm.trans hf, hh.2.2.1, hh.2.2.2.2⟩,
              le_of_eq hh.2.2.2.1.symm,
              fun hc => Or.inl (hh.2.1.symm.trans hc)⟩)
         | ((simp [countErr_snoc, countDone_snoc, filterErr_snoc,
              emitError_completionEmitted, emitError_errorOccurred,
              emitError_countDone, emitError_countErr, emitError_filterErr,
              isErrCompletion, isDoneCompletion]) <;>
            first
            | omega
            | tauto))
  · rw [if_neg h1] at h
    by_cases h2 : ety = "response.output_text.done"
    · rw [if_pos h2] at h
      repeat' split at h
      all_goals try dsimp only [] at h
      all_goals
        first
        | exact Except.noConfusion h
        | (injection h with h2
           simp only [Prod.mk.injEq] at h2
           obtain ⟨h3, h4, h5⟩ := h2
           subst h3
           subst h4
           subst h5
           first
           | (rename_i st2 heq
              have hh := handleOutputItemDelta_inv _ _ _ _ _ heq
              exact ⟨fun hf => ⟨hh.1.symm.trans hf, hh.2.2.1, hh.2.2.2.2⟩,
                le_of_eq hh.2.2.2.1.symm,
                fun hc => Or.inl (hh.2.1.symm.trans hc)⟩)
           | ((simp [countErr_snoc, countDone_snoc, filterErr_snoc,
                emitError_completionEmitted, emitError_errorOccurred,
                emitError_countDone, emitError_countErr, emitError_filterErr,
                isErrCompletion, isDoneCompletion]) <;>
              first
              | omega
              | tauto))
    · rw [if_neg h2] at h
      by_cases h3 : ety = "response.error"
      · rw [if_pos h3] at h
        repeat' split at h
        all_goals try dsimp only [] at h
        all_goals
          first
          | exact Except.noConfusion h
          | (injection h with h2
             simp only [Prod.mk.injEq] at h2
             obtain ⟨h3, h4, h5⟩ := h2
             subst h3
             subst h4
             subst h5
             first
             | (rename_i st2 heq
                have hh := handleOutputItemDelta_inv _ _ _ _ _ heq
                exact ⟨fun hf => ⟨hh.1.symm.trans hf, hh.2.2.1, hh.2.2.2.2⟩,
                  le_of_eq hh.2.2.2.1.symm,
                  fun hc => Or.inl (hh.2.1.symm.trans hc)⟩)
             | ((simp [countErr_snoc, countDone_snoc, filterErr_snoc,
                  emitError_completionEmitted, emitError_errorOccurred,
                  emitError_countDone, emitError_countErr, emitError_filterErr,
                  isErrCompletion, isDoneCompletion]) <;>
                first
                | omega
                | tauto))
      · rw [if_neg h3] at h
        by_cases h4 : ety = "response.refusal.delta"
        · rw [if_pos h4] at h
          repeat' split at h
          all_goals try dsimp only [] at h
          all_goals
            first
            | exact Except.noConfusion h
            | (injection h with h2
               simp only [Prod.mk.injEq] at h2
               obtain ⟨h3, h4, h5⟩ := h2
               subst h3
               subst h4
               subst h5
               first
               | (rename_i st2 heq
                  have hh := handleOutputItemDelta_inv _ _ _ _ _ heq
                  exact ⟨fun hf => ⟨hh.1.symm.trans hf, hh.2.2.1, hh.2.2.2.2⟩,
                    le_of_eq hh.2.2.2.1.symm,
                    fun hc => Or.inl (hh.2.1.symm.trans hc)⟩)
               | ((simp [countErr_snoc, countDone_snoc, filterErr_snoc,
                    emitError_completionEmitted, emitError_errorOccurred,
                    emitError_countDone, emitError_countErr, emitError_filterErr,
                    isErrCompletion, isDoneCompletion]) <;>
                  first
                  | omega
                  | tauto))
        · rw [if_neg h4] at h
          by_cases h5 : ety = "response.usage.delta"
          · rw [if_pos h5] at h
            repeat' split at h
            all_goals try dsimp only [] at h
            all_goals
              first
              | exact Except.noConfusion h
              | (injection h with h2
                 simp only [Prod.mk.injEq] at h2
                 obtain ⟨h3, h4, h5⟩ := h2
                 subst h3
                 subst h4
                 subst h5
                 first
                 | (rename_i st2 heq
                    have hh := handleOutputItemDelta_inv _ _ _ _ _ heq
                    exact ⟨fun hf => ⟨hh.1.symm.trans hf, hh.2.2.1, hh.2.2.2.2⟩,
                      le_of_eq hh.2.2.2.1.symm,
                      fun hc => Or.inl (hh.2.1.symm.trans hc)⟩)
                 | ((simp [countErr_snoc, countDone_snoc, filterErr_snoc,
                      emitError_completionEmitted, emitError_errorOccurred,
                      emitError_countDone, emitError_countErr, emitError_filterErr,
                      isErrCompletion, isDoneCompletion]) <;>
                    first
                    | omega
                    | tauto))
          · rw [if_neg h5] at h
            by_cases h6 : ety = "response.completed"
            · rw [if_pos h6] at h
              repeat' split at h
              all_goals try dsimp only [] at h
              all_goals
                first
                | exact Except.noConfusion h
                | (injection h with h2
                   simp only [Prod.mk.injEq] at h2
                   obtain ⟨h3, h4, h5⟩ := h2
                   subst h3
                   subst h4
                   subst h5
                   first
                   | (rename_i st2 heq
                      have hh := handleOutputItemDelta_inv _ _ _ _ _ heq
                      exact ⟨fun hf => ⟨hh.1.symm.trans hf, hh.2.2.1, hh.2.2.2.2⟩,
                        le_of_eq hh.2.2.2.1.symm,
                        fun hc => Or.inl (hh.2.1.symm.trans hc)⟩)
                   | ((simp [countErr_snoc, countDone_snoc, filterErr_snoc,
                        emitError_completionEmitted, emitError_errorOccurred,
                        emitError_countDone, emitError_countErr, emitError_filterErr,
                        isErrCompletion, isDoneCompletion]) <;>
                      first
                      | omega
                      | tauto))
            · rw [if_neg h6] at h
              by_cases h7 : ety = "response.cancelled"
              · rw [if_pos h7] at h
                repeat' split at h
                all_goals try dsimp only [] at h
                all_goals
                  first
                  | exact Except.noConfusion h
                  | (injection h with h2
                     simp only [Prod.mk.injEq] at h2
                     obtain ⟨h3, h4, h5⟩ := h2
                     subst h3
                     subst h4
                     subst h5
                     first
                     | (rename_i st2 heq
                        have hh := handleOutputItemDelta_inv _ _ _ _ _ heq
                        exact ⟨fun hf => ⟨hh.1.symm.trans hf, hh.2.2.1, hh.2.2.2.2⟩,
                          le_of_eq hh.2.2.2.1.symm,
                          fun hc => Or.inl (hh.2.1.symm.trans hc)⟩)
                     | ((simp [countErr_snoc, countDone_snoc, filterErr_snoc,
                          emitError_completionEmitted, emitError_errorOccurred,
                          emitError_countDone, emitError_countErr, emitError_filterErr,
                          isErrCompletion, isDoneCompletion]) <;>
                        first
                        | omega
                        | tauto))
              · rw [if_neg h7] at h
                by_cases h8 : ety = "response.output_item.delta"
                · rw [if_pos h8] at h
                  repeat' split at h
                  all_goals try dsimp only [] at h
                  all_goals
                    first
                    | exact Except.noConfusion h
                    | (injection h with h2
                       simp only [Prod.mk.injEq] at h2
                       obtain ⟨h3, h4, h5⟩ := h2
                       subst h3
                       subst h4
                       subst h5
                       first
                       | (rename_i st2 heq
                          have hh := handleOutputItemDelta_inv _ _ _ _ _ heq
                          exact ⟨fun hf => ⟨hh.1.symm.trans hf, hh.2.2.1, hh.2.2.2.2⟩,
                            le_of_eq hh.2.2.2.1.symm,
                            fun hc => Or.inl (hh.2.1.symm.trans hc)⟩)
                       | ((simp [countErr_snoc, countDone_snoc, filterErr_snoc,
                            emitError_completionEmitted, emitError_errorOccurred,
                            emitError_countDone, emitError_countErr, emitError_filterErr,
                            isErrCompletion, isDoneCompletion]) <;>
                          first
                          | omega
                          | tauto))
                · rw [if_neg h8] at h
                  by_cases h9 : ety = "response.tool_call_arguments.delta"
                  · rw [if_pos h9] at h
                    repeat' split at h
                    all_goals try dsimp only [] at h
                    all_goals
                      first
                      | exact Except.noConfusion h
                      | (injection h with h2
                         simp only [Prod.mk.injEq] at h2
                         obtain ⟨h3, h4, h5⟩ := h2
                         subst h3
                         subst h4
                         subst h5
                         first
                         | (rename_i st2 heq
                            have hh := handleOutputItemDelta_inv _ _ _ _ _ heq
                            exact ⟨fun hf => ⟨hh.1.symm.trans hf, hh.2.2.1, hh.2.2.2.2⟩,
                              le_of_eq hh.2.2.2.1.symm,
                              fun hc => Or.inl (hh.2.1.symm.trans hc)⟩)
                         | ((simp [countErr_snoc, countDone_snoc, filterErr_snoc,
                              emitError_completionEmitted, emitError_errorOccurred,
                              emitError_countDone, emitError_countErr, emitError_filterErr,
                              isErrCompletion, isDoneCompletion]) <;>
                            first
                            | omega
                            | tauto))
                  · rw [if_neg h9] at h
                    by_cases h10 : ety = "response.function_call_arguments.delta"
                    · rw [if_pos h10] at h
                      repeat' split at h
                      all_goals try dsimp only [] at h
                      all_goals
                        first
                        | exact Except.noConfusion h
                        | (injection h with h2
                           simp only [Prod.mk.injEq] at h2
                           obtain ⟨h3, h4, h5⟩ := h2
                           subst h3
                           subst h4
                           subst h5
                           first
                           | (rename_i st2 heq
                              have hh := handleOutputItemDelta_inv _ _ _ _ _ heq
                              exact ⟨fun hf => ⟨hh.1.symm.trans hf, hh.2.2.1, hh.2.2.2.2⟩,
                                le_of_eq hh.2.2.2.1.symm,
                                fun hc => Or.inl (hh.2.1.symm.trans hc)⟩)
                           | ((simp [countErr_snoc, countDone_snoc, filterErr_snoc,
                                emitError_completionEmitted, emitError_errorOccurred,
                                emitError_countDone, emitError_countErr, emitError_filterErr,
                                isErrCompletion, isDoneCompletion]) <;>
                              first
                              | omega
                              | tauto))
                    · rw [if_neg h10] at h
                      by_cases h11 : ety = "response.function_call_arguments.done"
                      · rw [if_pos h11] at h
                        repeat' split at h
                        all_goals try dsimp only [] at h
                        all_goals
                          first
                          | exact Except.noConfusion h
                          | (injection h with h2
                             simp only [Prod.mk.injEq] at h2
                             obtain ⟨h3, h4, h5⟩ := h2
                             subst h3
                             subst h4
                             subst h5
                             first
                             | (rename_i st2 heq
                                have hh := handleOutputItemDelta_inv _ _ _ _ _ heq
                                exact ⟨fun hf => ⟨hh.1.symm.trans hf, hh.2.2.1, hh.2.2.2.2⟩,
                                  le_of_eq hh.2.2.2.1.symm,
                                  fun hc => Or.inl (hh.2.1.symm.trans hc)⟩)
                             | ((simp [countErr_snoc, countDone_snoc, filterErr_snoc,
                                  emitError_completionEmitted, emitError_errorOccurred,
                                  emitError_countDone, emitError_countErr, emitError_filterErr,
                                  isErrCompletion, isDoneCompletion]) <;>
                                first
                                | omega
                                | tauto))
                      · rw [if_neg h11] at h
                        by_cases h12 : ety = "response.function_call_output.delta"
                        · rw [if_pos h12] at h
                          repeat' split at h
                          all_goals try dsimp only [] at h
                          all_goals
                            first
                            | exact Except.noConfusion h
                            | (injection h with h2
                               simp only [Prod.mk.injEq] at h2
                               obtain ⟨h3, h4, h5⟩ := h2
                               subst h3
                               subst h4
                               subst h5
                               first
                               | (rename_i st2 heq
                                  have hh := handleOutputItemDelta_inv _ _ _ _ _ heq
                                  exact ⟨fun hf => ⟨hh.1.symm.trans hf, hh.2.2.1, hh.2.2.2.2⟩,
                                    le_of_eq hh.2.2.2.1.symm,
                                    fun hc => Or.inl (hh.2.1.symm.trans hc)⟩)
                               | ((simp [countErr_snoc, countDone_snoc, filterErr_snoc,
                                    emitError_completionEmitted, emitError_errorOccurred,
                                    emitError_countDone, emitError_countErr, emitError_filterErr,
                                    isErrCompletion, isDoneCompletion]) <;>
                                  first
                                  | omega
                                  | tauto))
                        · rw [if_neg h12] at h
                          by_cases h13 : ety = "response.output_items.done"
                          · rw [if_pos h13] at h
                            repeat' split at h
                            all_goals try dsimp only [] at h
                            all_goals
                              first
                              | exact Except.noConfusion h
                              | (injection h with h2
                                 simp only [Prod.mk.injEq] at h2
                                 obtain ⟨h3, h4, h5⟩ := h2
                                 subst h3
                                 subst h4
                                 subst h5
                                 first
                                 | (rename_i st2 heq
                                    have hh := handleOutputItemDelta_inv _ _ _ _ _ heq
                                    exact ⟨fun hf => ⟨hh.1.symm.trans hf, hh.2.2.1, hh.2.2.2.2⟩,
                                      le_of_eq hh.2.2.2.1.symm,
                                      fun hc => Or.inl (hh.2.1.symm.trans hc)⟩)
                                 | ((simp [countErr_snoc, countDone_snoc, filterErr_snoc,
                                      emitError_completionEmitted, emitError_errorOccurred,
                                      emitError_countDone, emitError_countErr, emitError_filterErr,
                                      isErrCompletion, isDoneCompletion]) <;>
                                    first
                                    | omega
                                    | tauto))
                          · rw [if_neg h13] at h
                            by_cases h14 : ety = "response.message.start"
                            · rw [if_pos h14] at h
                              repeat' split at h
                              all_goals try dsimp only [] at h
                              all_goals
                                first
                                | exact Except.noConfusion h
                                | (injection h with h2
                                   simp only [Prod.mk.injEq] at h2
                                   obtain ⟨h3, h4, h5⟩ := h2
                                   subst h3
                                   subst h4
                                   subst h5
                                   first
                                   | (rename_i st2 heq
                                      have hh := handleOutputItemDelta_inv _ _ _ _ _ heq
                                      exact ⟨fun hf => ⟨hh.1.symm.trans hf, hh.2.2.1, hh.2.2.2.2⟩,
                                        le_of_eq hh.2.2.2.1.symm,
                                        fun hc => Or.inl (hh.2.1.symm.trans hc)⟩)
                                   | ((simp [countErr_snoc, countDone_snoc, filterErr_snoc,
                                        emitError_completionEmitted, emitError_errorOccurred,
                                        emitError_countDone, emitError_countErr, emitError_filterErr,
                                        isErrCompletion, isDoneCompletion]) <;>
                                      first
                                      | omega
                                      | tauto))
                            · rw [if_neg h14] at h
                              by_cases h15 : ety = "response.message.delta"
                              · rw [if_pos h15] at h
                                repeat' split at h
                                all_goals try dsimp only [] at h
                                all_goals
                                  first
                                  | exact Except.noConfusion h
                                  | (injection h with h2
                                     simp only [Prod.mk.injEq] at h2
                                     obtain ⟨h3, h4, h5⟩ := h2
                                     subst h3
                                     subst h4
                                     subst h5
                                     first
                                     | (rename_i st2 heq
                                        have hh := handleOutputItemDelta_inv _ _ _ _ _ heq
                                        exact ⟨fun hf => ⟨hh.1.symm.trans hf, hh.2.2.1, hh.2.2.2.2⟩,
                                          le_of_eq hh.2.2.2.1.symm,
                                          fun hc => Or.inl (hh.2.1.symm.trans hc)⟩)
                                     | ((simp [countErr_snoc, countDone_snoc, filterErr_snoc,
                                          emitError_completionEmitted, emitError_errorOccurred,
                                          emitError_countDone, emitError_countErr, emitError_filterErr,
                                          isErrCompletion, isDoneCompletion]) <;>
                                        first
                                        | omega
                                        | tauto))
                              · rw [if_neg h15] at h
                                by_cases h16 : ety = "response.message.completed"
                                · rw [if_pos h16] at h
                                  repeat' split at h
                                  all_goals try dsimp only [] at h
                                  all_goals
                                    first
                                    | exact Except.noConfusion h
                                    | (injection h with h2
                                       simp only [Prod.mk.injEq] at h2
                                       obtain ⟨h3, h4, h5⟩ := h2
                                       subst h3
                                       subst h4
                                       subst h5
                                       first
                                       | (rename_i st2 heq
                                          have hh := handleOutputItemDelta_inv _ _ _ _ _ heq
                                          exact ⟨fun hf => ⟨hh.1.symm.trans hf, hh.2.2.1, hh.2.2.2.2⟩,
                                            le_of_eq hh.2.2.2.1.symm,
                                            fun hc => Or.inl (hh.2.1.symm.trans hc)⟩)
                                       | ((simp [countErr_snoc, countDone_snoc, filterErr_snoc,
                                            emitError_completionEmitted, emitError_errorOccurred,
                                            emitError_countDone, emitError_countErr, emitError_filterErr,
                                            isErrCompletion, isDoneCompletion]) <;>
                                          first
                                          | omega
                                          | tauto))
                                · rw [if_neg h16] at h
                                  by_cases h17 : ety = "response.completed_with_error"
                                  · rw [if_pos h17] at h
                                    repeat' split at h
                                    all_goals try dsimp only [] at h
                                    all_goals
                                      first
                                      | exact Except.noConfusion h
                                      | (injection h with h2
                                         simp only [Prod.mk.injEq] at h2
                                         obtain ⟨h3, h4, h5⟩ := h2
                                         subst h3
                                         subst h4
                                         subst h5
                                         first
                                         | (rename_i st2 heq
                                            have hh := handleOutputItemDelta_inv _ _ _ _ _ heq
                                            exact ⟨fun hf => ⟨hh.1.symm.trans hf, hh.2.2.1, hh.2.2.2.2⟩,
                                              le_of_eq hh.2.2.2.1.symm,
                                              fun hc => Or.inl (hh.2.1.symm.trans hc)⟩)
                                         | ((simp [countErr_snoc, countDone_snoc, filterErr_snoc,
                                              emitError_completionEmitted, emitError_errorOccurred,
                                              emitError_countDone, emitError_countErr, emitError_filterErr,
                                              isErrCompletion, isDoneCompletion]) <;>
                                            first
                                            | omega
                                            | tauto))
                                  · rw [if_neg h17] at h
                                    repeat' split at h
                                    all_goals try dsimp only [] at h
                                    all_goals
                                      first
                                      | exact Except.noConfusion h
                                      | (injection h with h2
                                         simp only [Prod.mk.injEq] at h2
                                         obtain ⟨h3, h4, h5⟩ := h2
                                         subst h3
                                         subst h4
                                         subst h5
                                         first
                                         | (rename_i st2 heq
                                            have hh := handleOutputItemDelta_inv _ _ _ _ _ heq
                                            exact ⟨fun hf => ⟨hh.1.symm.trans hf, hh.2.2.1, hh.2.2.2.2⟩,
                                              le_of_eq hh.2.2.2.1.symm,
                                              fun hc => Or.inl (hh.2.1.symm.trans hc)⟩)
                                         | ((simp [countErr_snoc, countDone_snoc, filterErr_snoc,
                                              emitError_completionEmitted, emitError_errorOccurred,
                                              emitError_countDone, emitError_countErr, emitError_filterErr,
                                              isErrCompletion, isDoneCompletion]) <;>
                                            first
                                            | omega
                                            | tauto))

theorem dispatchFrame_inv (v : Valves) (d : RunnerDeps) (st : LoopState)
    (fr : Option Json) (f : Json) (st' : LoopState) (fr' : Option Json) (brk : Bool)
    (h : dispatchFrame v d st fr f = Except.ok (st', fr', brk)) :
    (st'.errorOccurred = false →
      st.errorOccurred = false
      ∧ countErrEvents st'.events = countErrEvents st.events
      ∧ st'.events.filter isErrCompletion = st.events.filter isErrCompletion)
    ∧ countDoneCompletions st.events ≤ countDoneCompletions st'.events
    ∧ (st'.completionEmitted = true →
        st.completionEmitted = true ∨ 1 ≤ countDoneCompletions st'.events) := by
  unfold dispatchFrame at h
  cases f with
  | obj kvs =>
      exact dispatchFrameE_inv v d st fr (Json.obj kvs) (frameType (Json.obj kvs)) st' fr' brk h
  | null => exact Except.noConfusion h
  | bool b => exact Except.noConfusion h
  | num n => exact Except.noConfusion h
  | str sv => exact Except.noConfusion h
  | arr xs => exact Except.noConfusion h

theorem dispatchFrames_inv (v : Valves) (d : RunnerDeps) :
    ∀ (frames : List Json) (st : LoopState) (fr : Option Json) (st1 : LoopState)
      (fr1 : Option Json),
      dispatchFrames v d st fr frames = Except.ok (st1, fr1) →
      (st1.errorOccurred = false →
        st.errorOccurred = false
        ∧ countErrEvents st1.events = countErrEvents st.events
        ∧ st1.events.filter isErrCompletion = st.events.filter isErrCompletion)
      ∧ countDoneCompletions st.events ≤ countDoneCompletions st1.events
      ∧ (st1.completionEmitted = true →
          st.completionEmitted = true ∨ 1 ≤ countDoneCompletions st1.events) := by
  intro frames
  induction frames with
  | nil =>
      intro st fr st1 fr1 h
      unfold dispatchFrames at h
      injection h with h2
      simp only [Prod.mk.injEq] at h2
      obtain ⟨h3, h4⟩ := h2
      subst h3
      exact ⟨fun hf => ⟨hf, rfl, rfl⟩, le_refl _, fun hc => Or.inl hc⟩
  | cons f fs ih =>
      intro st fr st1 fr1 h
      unfold dispatchFrames at h
      cases hd : dispatchFrame v d st fr f with
      | error e =>
          rw [hd] at h
          exact Except.noConfusion h
      | ok tup =>
          obtain ⟨st', fr', brk⟩ := tup
          rw [hd] at h
          have h1 := dispatchFrame_inv v d st fr f st' fr' brk hd
          cases brk with
          | true =>
              dsimp only [] at h
              injection h with h2
              simp only [Prod.mk.injEq] at h2
              obtain ⟨h3, h4⟩ := h2
              subst h3
              exact h1
          | false =>
              dsimp only [] at h
              have hrec := ih st' fr' st1 fr1 h
              refine ⟨fun hf => ?_, le_trans h1.2.1 hrec.2.1, fun hc => ?_⟩
              · obtain ⟨hf1, hf2, hf3⟩ := hrec.1 hf
                obtain ⟨hg1, hg2, hg3⟩ := h1.1 hf1
                exact ⟨hg1, hf2.trans hg2, hf3.trans hg3⟩
              · rcases hrec.2.2 hc with hce | hle
                · rcases h1.2.2 hce with hce2 | hle2
                  · exact Or.inl hce2
                  · exact Or.inr (le_trans hle2 hrec.2.1)
                · exact Or.inr hle

theorem routedState_flags (body : Json) :
    (routedState body).errorOccurred = false
    ∧ (routedState body).completionEmitted = false
    ∧ countErrEvents (routedState body).events = 0
    ∧ countDoneCompletions (routedState body).events = 0
    ∧ (routedState body).events.filter isErrCompletion = [] := by
  unfold routedState
  dsimp only []
  split
  · split <;> simp [countErrEvents, countDoneCompletions, List.filter,
      isErrCompletion, isDoneCompletion]
  · simp [countErrEvents, countDoneCompletions]

theorem finalizeRun_facts (valves : Valves) (deps : RunnerDeps) (stL : LoopState)
    (exh : Bool) (subs : Nat) :
    (finalizeRun valves deps (stL, exh, subs)).submissions = subs
    ∧ (finalizeRun valves deps (stL, exh, subs)).exhausted = exh
    ∧ (finalizeRun valves deps (stL, exh, subs)).errorOccurred = stL.errorOccurred
    ∧ countErrEvents (finalizeRun valves deps (stL, exh, subs)).events
        = countErrEvents stL.events
    ∧ (finalizeRun valves deps (stL, exh, subs)).events.filter isErrCompletion
        = stL.events.filter isErrCompletion
    ∧ ((stL.completionEmitted = true → 1 ≤ countDoneCompletions stL.events) →
        1 ≤ countDoneCompletions (finalizeRun valves deps (stL, exh, subs)).events)
    ∧ (stL.completionEmitted = false →
        countDoneCompletions (finalizeRun valves deps (stL, exh, subs)).events
          = countDoneCompletions stL.events + 1) := by
  unfold finalizeRun
  dsimp only []
  split
  · split
    · rename_i hce
      refine ⟨rfl, rfl, rfl, ?_, ?_, ?_, ?_⟩
      · simp [countErrEvents, List.filter_append, List.filter, isErrCompletion]
      · simp [List.filter_append, List.filter, isErrCompletion]
      · intro _
        (simp [countDoneCompletions, List.filter_append, List.filter,
          isDoneCompletion]) <;> omega
      · intro _
        (simp [countDoneCompletions, List.filter_append, List.filter,
          isDoneCompletion]) <;> omega
    · rename_i hce
      have hce2 : stL.completionEmitted = true := by
        cases hx : stL.completionEmitted
        · exfalso
          apply hce
          rw [hx]
          rfl
        · rfl
      refine ⟨rfl, rfl, rfl, ?_, ?_, ?_, ?_⟩
      · simp [countErrEvents, List.filter_append, List.filter, isErrCompletion]
      · simp [List.filter_append, List.filter, isErrCompletion]
      · intro hcomp
        have h1 := hcomp hce2
        (simp [countDoneCompletions, List.filter_append, List.filter,
          isDoneCompletion]) <;>
          (simp [countDoneCompletions] at h1; omega)
      · intro hfalse
        rw [hce2] at hfalse
        exact absurd hfalse (by simp)
  · split
    · rename_i hce
      refine ⟨rfl, rfl, rfl, ?_, ?_, ?_, ?_⟩
      · simp [countErrEvents, List.filter_append, List.filter, isErrCompletion]
      · simp [List.filter_append, List.filter, isErrCompletion]
      · intro _
        (simp [countDoneCompletions, List.filter_append, List.filter,
          isDoneCompletion]) <;> omega
      · intro _
        (simp [countDoneCompletions, List.filter_append, List.filter,
          isDoneCompletion]) <;> omega
    · rename_i hce
      have hce2 : stL.completionEmitted = true := by
        cases hx : stL.completionEmitted
        · exfalso
          apply hce
          rw [hx]
          rfl
        · rfl
      refine ⟨rfl, rfl, rfl, rfl, rfl, ?_, ?_⟩
      · intro hcomp
        exact hcomp hce2
      · intro hfalse
        rw [hce2] at hfalse
        exact absurd hfalse (by simp)

theorem errorArm_completionEmitted (logs : List String) (st : LoopState) (e : String) :
    ({ emitError logs true st e with errorOccurred := true } : LoopState).completionEmitted
      = st.completionEmitted := by
  show (emitError logs true st e).completionEmitted = st.completionEmitted
  exact emitError_completionEmitted logs true st e

theorem errorArm_countDone (logs : List String) (st : LoopState) (e : String) :
    countDoneCompletions
        ({ emitError logs true st e with errorOccurred := true } : LoopState).events
      = countDoneCompletions st.events := by
  show countDoneCompletions (emitError logs true st e).events = _
  exact emitError_countDone logs true st e

theorem runLoop_inv (v : Valves) (d : RunnerDeps) :
    ∀ (remaining iter : Nat) (body : Json) (st stF : LoopState) (exh : Bool) (subs : Nat),
      runLoop v d remaining iter body st = (stF, exh, subs) →
      st.errorOccurred = false →
      countErrEvents st.events = 0 →
      (st.completionEmitted = true → 1 ≤ countDoneCompletions st.events) →
      subs ≤ iter + remaining
      ∧ (exh = true → stF.errorOccurred = false ∧ countErrEvents stF.events = 0)
      ∧ (stF.completionEmitted = true → 1 ≤ countDoneCompletions stF.events) := by
  intro remaining
  induction remaining with
  | zero =>
      intro iter body st stF exh subs h heo herr hcomp
      unfold runLoop at h
      simp only [Bool.not_false, Bool.not_true, Bool.false_eq_true, Bool.true_eq_false, eq_self_iff_true, if_true, if_false, ite_self, Prod.mk.injEq] at h
      obtain ⟨h3, h4, h5⟩ := h
      subst h3
      subst h5
      exact ⟨by omega, fun _ => ⟨heo, herr⟩, hcomp⟩
  | succ r ih =>
      intro iter body st stF exh subs h heo herr hcomp
      unfold runLoop at h
      cases hd : dispatchFrames v d st none (d.streams iter) with
      | error e =>
          rw [hd] at h
          try dsimp only [] at h
          simp only [Bool.not_false, Bool.not_true, Bool.false_eq_true, Bool.true_eq_false, eq_self_iff_true, if_true, if_false, ite_self, Prod.mk.injEq] at h
          obtain ⟨h3, h4, h5⟩ := h
          subst h3
          subst h4
          subst h5
          refine ⟨by omega, by simp, fun hc => ?_⟩
          rw [errorArm_countDone]
          exact hcomp ((errorArm_completionEmitted d.logs st e).symm.trans hc)
      | ok pair =>
          obtain ⟨st1, fr⟩ := pair
          rw [hd] at h
          try dsimp only [] at h
          have hfr := dispatchFrames_inv v d (d.streams iter) st none st1 fr hd
          have hcomp1 : st1.completionEmitted = true →
              1 ≤ countDoneCompletions st1.events := fun hc =>
            (hfr.2.2 hc).elim (fun hce => le_trans (hcomp hce) hfr.2.1) id
          by_cases he : st1.errorOccurred = true
          · rw [if_pos he] at h
            simp only [Bool.not_false, Bool.not_true, Bool.false_eq_true, Bool.true_eq_false, eq_self_iff_true, if_true, if_false, ite_self, Prod.mk.injEq] at h
            obtain ⟨h3, h4, h5⟩ := h
            subst h3
            subst h4
            subst h5
            exact ⟨by omega, by simp, hcomp1⟩
          · rw [if_neg he] at h
            have he2 : st1.errorOccurred = false := by
              cases hx : st1.errorOccurred
              · rfl
              · exact absurd hx he
            obtain ⟨heo1, herr1, _⟩ := hfr.1 he2
            have herr2 : countErrEvents st1.events = 0 := herr1.trans herr
            cases fr with
            | none =>
                try dsimp only [] at h
                simp only [Bool.not_false, Bool.not_true, Bool.false_eq_true, Bool.true_eq_false, eq_self_iff_true, if_true, if_false, ite_self, Prod.mk.injEq] at h
                obtain ⟨h3, h4, h5⟩ := h
                subst h3
                subst h4
                subst h5
                exact ⟨by omega, by simp, hcomp1⟩
            | some frv =>
                try dsimp only [] at h
                cases hjt : jTruthy frv with
                | false =>
                    rw [hjt] at h
                    try dsimp only [] at h
                    simp only [Bool.not_false, Bool.not_true, Bool.false_eq_true, Bool.true_eq_false, eq_self_iff_true, if_true, if_false, ite_self, Prod.mk.injEq] at h
                    obtain ⟨h3, h4, h5⟩ := h
                    subst h3
                    subst h4
                    subst h5
                    exact ⟨by omega, by simp, hcomp1⟩
                | true =>
                    rw [hjt] at h
                    try dsimp only [] at h
                    cases hs : supports "function_calling" (bodyModel body) with
                    | false =>
                        rw [hs] at h
                        try dsimp only [] at h
                        simp only [Bool.not_false, Bool.not_true, Bool.false_eq_true, Bool.true_eq_false, eq_self_iff_true, if_true, if_false, ite_self, Prod.mk.injEq] at h
                        obtain ⟨h3, h4, h5⟩ := h
                        subst h3
                        subst h4
                        subst h5
                        exact ⟨by omega, by simp, hcomp1⟩
                    | true =>
                        rw [hs] at h
                        try dsimp only [] at h
                        cases htc : toolCallsOf frv with
                        | error e =>
                            rw [htc] at h
                            try dsimp only [] at h
                            simp only [Bool.not_false, Bool.not_true, Bool.false_eq_true, Bool.true_eq_false, eq_self_iff_true, if_true, if_false, ite_self, Prod.mk.injEq] at h
                            obtain ⟨h3, h4, h5⟩ := h
                            subst h3
                            subst h4
                            subst h5
                            refine ⟨by omega, by simp, fun hc => ?_⟩
                            rw [errorArm_countDone]
                            exact hcomp1 ((errorArm_completionEmitted d.logs st1 e).symm.trans hc)
                        | ok toolCalls =>
                            rw [htc] at h
                            try dsimp only [] at h
                            cases hemp : toolCalls.isEmpty with
                            | true =>
                                rw [hemp] at h
                                try dsimp only [] at h
                                simp only [Bool.not_false, Bool.not_true, Bool.false_eq_true, Bool.true_eq_false, eq_self_iff_true, if_true, if_false, ite_self, Prod.mk.injEq] at h
                                obtain ⟨h3, h4, h5⟩ := h
                                subst h3
                                subst h4
                                subst h5
                                exact ⟨by omega, by simp, hcomp1⟩
                            | false =>
                                rw [hemp] at h
                                try dsimp only [] at h
                                cases hex : execute_function_calls d.jsonLoads d.tools toolCalls with
                                | error e =>
                                    rw [hex] at h
                                    try dsimp only [] at h
                                    simp only [Bool.not_false, Bool.not_true, Bool.false_eq_true, Bool.true_eq_false, eq_self_iff_true, if_true, if_false, ite_self, Prod.mk.injEq] at h
                                    obtain ⟨h3, h4, h5⟩ := h
                                    subst h3
                                    subst h4
                                    subst h5
                                    refine ⟨by omega, by simp, fun hc => ?_⟩
                                    rw [errorArm_countDone]
                                    exact hcomp1 ((errorArm_completionEmitted d.logs st1 e).symm.trans hc)
                                | ok outputs =>
                                    rw [hex] at h
                                    try dsimp only [] at h
                                    cases hoe : outputs.isEmpty with
                                    | true =>
                                        rw [hoe] at h
                                        try dsimp only [] at h
                                        simp only [Bool.not_false, Bool.not_true, Bool.false_eq_true, Bool.true_eq_false, eq_self_iff_true, if_true, if_false, ite_self, Prod.mk.injEq] at h
                                        obtain ⟨h3, h4, h5⟩ := h
                                        subst h3
                                        subst h4
                                        subst h5
                                        exact ⟨by omega, by simp, hcomp1⟩
                                    | false =>
                                        rw [hoe] at h
                                        try dsimp only [] at h
                                        have hrec := ih (iter + 1) (appendInput body outputs)
                                          st1 stF exh subs h he2 herr2 hcomp1
                                        exact ⟨by have := hrec.1; omega, hrec.2.1, hrec.2.2⟩

/-- C1: for every configuration with `MAX_FUNCTION_CALL_LOOPS = N` and every
sequence of decoded streams the transport may yield, the orchestration loop
executes at most `N` submit-decode-dispatch iterations and then terminates;
reaching the loop limit without natural termination does not raise an error
(no error flag, no error notification), and the accumulated transcript and
usage are delivered as the best-effort result — a terminal `done=True`
completion is always emitted. -/
theorem run_streaming_loop_bounded (valves : Valves) (deps : RunnerDeps) (body : Json) :
    (run_streaming_loop valves deps body).submissions ≤ valves.MAX_FUNCTION_CALL_LOOPS
    ∧ ((run_streaming_loop valves deps body).exhausted = true →
        (run_streaming_loop valves deps body).errorOccurred = false
        ∧ countErrEvents (run_streaming_loop valves deps body).events = 0)
    ∧ 1 ≤ countDoneCompletions (run_streaming_loop valves deps body).events := by
  obtain ⟨heo, hce, herr, hdone, _⟩ := routedState_flags body
  rcases hres : runLoop valves deps valves.MAX_FUNCTION_CALL_LOOPS 0 (routedBody body)
    (routedState body) with ⟨stL, exh, subs⟩
  have hinv := runLoop_inv valves deps valves.MAX_FUNCTION_CALL_LOOPS 0
    (routedBody body) (routedState body) stL exh subs hres heo herr
    (fun hc => absurd hc (by rw [hce]; simp))
  have hfin := finalizeRun_facts valves deps stL exh subs
  unfold run_streaming_loop
  rw [hres]
  refine ⟨?_, fun hex => ?_, ?_⟩
  · rw [hfin.1]
    have := hinv.1
    omega
  · rw [hfin.2.1] at hex
    obtain ⟨ha, hb⟩ := hinv.2.1 hex
    exact ⟨by rw [hfin.2.2.1]; exact ha, by rw [hfin.2.2.2.1]; exact hb⟩
  · exact hfin.2.2.2.2.2.1 hinv.2.2

